import Mathlib

/-!
# OpenDUNE, `src/audio/mt32mpu.c`: the MPU (XMIDI) sequencer

A shallow embedding of the sequencer and of its channel arbitration.

Conventions of the embedding.

* C arrays of fixed size are lists; `rd` reads an entry and `wr` writes one.
  Machine integers are `Nat` or `Int` with the reduction modulo the width of
  the C type written out where the C code can overflow.
* The global variables `s_mpu_*` are the fields of `MPU`; the field `out`
  is the chronological log of what was handed to `midi_send`,
  `midi_send_string` and `midi_reset`.
* `s_mpu_msdata[8]` holds pointers to caller owned `MSData` blocks.  A slot is
  `none` for `NULL`.  A C parameter `MSData *data` is always one of the
  slots, so it is embedded as the slot index `idx`; this keeps the aliasing
  between `data` and the slot scanned by `MPU_FlushChannel`.
* Pointers into the sound file (`EVNT`, `sound`, `variable_0050`) are
  offsets into the byte list `file`.  A byte read past the end of the file
  yields `0`.
* A function returns `none` when the C code has no defined result: a `NULL`
  or out of range slot is dereferenced, `assert(0)` is reached, or a loop
  without a bound has used up the supplied fuel.
* The 16 entry tables are indexed by channel numbers, which the code keeps
  below 16; `rd` yields `0` and `wr` does nothing for an index past the end.
* Assertions are compiled in.  The guards `s_mpuIgnore` and `locked` of
  `MPU_Interrupt` and the Windows timer thread are left out: every function is
  entered with both guards clear and runs to completion.
* `Debug`, `Warning` and `Error` only log and are left out.
-/

namespace OpenDUNE

/-! ## Data model -/

/-- The C struct `Controls`. -/
structure Controls where
  volume : Nat
  modulation : Nat
  panpot : Nat
  expression : Nat
  sustain : Nat
  patch_bank_sel : Nat
  chan_lock : Nat
  chan_protect : Nat
  voice_protect : Nat
deriving DecidableEq

/-- A `Controls` block after `memset(..., 0xFF, ...)`. -/
def Controls.unset : Controls :=
  { volume := 0xFF, modulation := 0xFF, panpot := 0xFF, expression := 0xFF, sustain := 0xFF,
    patch_bank_sel := 0xFF, chan_lock := 0xFF, chan_protect := 0xFF, voice_protect := 0xFF }

/-- The C struct `MSData`; `file` is the memory the pointers point into. -/
structure MSData where
  file : List Nat
  EVNT : Nat
  sound : Nat
  playing : Nat
  delayedClear : Bool
  delay : Int
  noteOnCount : Nat
  variable_0022 : Nat
  variable_0024 : Nat
  variable_0026 : Nat
  variable_0028 : Nat
  variable_002C : Nat
  variable_0030 : Nat
  variable_0032 : Nat
  variable_0034 : Nat
  variable_0036 : Nat
  variable_003A : Nat
  variable_003E : Nat
  variable_0040 : Nat
  variable_0042 : Nat
  variable_0044 : Nat
  variable_0048 : Nat
  variable_004C : Nat
  variable_0050 : List Nat
  variable_0060 : List Nat
  chanMaps : List Nat
  controls : List Controls
  noteOnChans : List Nat
  noteOnNotes : List Nat
  noteOnDuration : List Int
deriving DecidableEq

/-- What the sequencer hands to the MIDI transport. -/
inductive Out where
  | msg (status data1 data2 : Nat)
  | str (bytes : List Nat)
  | reset
deriving DecidableEq

/-- The file scope variables of `mt32mpu.c` together with the transport log. -/
structure MPU where
  msdata : List (Option MSData)
  msdataSize : Nat
  msdataCurrent : Nat
  controls : List Controls
  programs : List Nat
  pitchWheel : List Nat
  noteOnCount : List Nat
  lockStatus : List Nat
  initialized : Bool
  out : List Out
deriving DecidableEq

/-- Array read `l[i]`. -/
def rd (l : List Nat) (i : Nat) : Nat := l.getD i 0

/-- Array write `l[i] = v`. -/
def wr (l : List Nat) (i v : Nat) : List Nat := l.set i v

/-- Read of `controls[i]`. -/
def rdC (l : List Controls) (i : Nat) : Controls := l.getD i Controls.unset

/-- Update of one field group of `controls[i]`. -/
def modC (l : List Controls) (i : Nat) (f : Controls → Controls) : List Controls :=
  l.set i (f (rdC l i))

/-- Read of `noteOnDuration[i]`. -/
def rdI (l : List Int) (i : Nat) : Int := l.getD i 0

/-- The byte `file[off]`. -/
def byteAt (file : List Nat) (off : Nat) : Nat := (file.getD off 0) % 256

/-- Conversion to `int32`. -/
def toInt32 (n : Int) : Int := (n + 2147483648) % 4294967296 - 2147483648

/-- Conversion to `int16`. -/
def toInt16 (n : Int) : Int := (n + 32768) % 65536 - 32768

/-- The slot `s_mpu_msdata[idx]`; `none` for `NULL` and for an index out of range. -/
def getData (s : MPU) (idx : Nat) : Option MSData := (s.msdata.getD idx none)

/-- Store through the pointer held in slot `idx`. -/
def setData (s : MPU) (idx : Nat) (data : MSData) : MPU :=
  { s with msdata := s.msdata.set idx (some data) }

/-- True when bit 7 of `s_mpu_lockStatus[chan]` is set. -/
def hardLocked (s : MPU) (chan : Nat) : Prop := rd s.lockStatus chan &&& 0x80 ≠ 0

instance (s : MPU) (chan : Nat) : Decidable (hardLocked s chan) := by
  unfold hardLocked; infer_instance

/-! ## Transport -/

/-- `MPU_Send`: the three arguments are `uint8`. -/
def MPU_Send (s : MPU) (status data1 data2 : Nat) : MPU :=
  { s with out := s.out ++ [Out.msg (status % 256) (data1 % 256) (data2 % 256)] }

/-! ## Volume -/

/-- Loop body of `MPU_ApplyVolume` for channel `i`. -/
def MPU_ApplyVolume_chan (data : MSData) (s : MPU) (i : Nat) : MPU :=
  let volume := (rdC data.controls i).volume
  if volume = 0xFF then s else
    let volume := min ((volume * data.variable_0024) / 100) 127
    let s := { s with controls := modC s.controls i (fun c => { c with volume := volume }) }
    if rd s.lockStatus i &&& 0x80 ≠ 0 then s else
      MPU_Send s (0xB0 ||| rd data.chanMaps i) 7 volume

/-- `MPU_ApplyVolume`. -/
def MPU_ApplyVolume (s : MPU) (data : MSData) : MPU :=
  (List.range 16).foldl (MPU_ApplyVolume_chan data) s

/-! ## Notes -/

/-- The variable length loop of `MPU_NoteOn` on the bytes from the cursor on:
the decoded `uint32` duration and the number of bytes read. -/
def MPU_NoteOn_duration : List Nat → Nat → Nat → Nat × Nat
  | [], duration, n => (duration, n + 1)
  | b :: rest, duration, n =>
    let v := b % 256
    let duration := duration ||| (v &&& 0x7F)
    if v &&& 0x80 = 0 then (duration, n + 1)
    else MPU_NoteOn_duration rest ((duration <<< 7) % 4294967296) (n + 1)

/-- `MPU_NoteOn`: returns the new state and the length of the event. -/
def MPU_NoteOn (s : MPU) (idx : Nat) : Option (MPU × Nat) := do
  let data ← getData s idx
  let chan := byteAt data.file data.sound &&& 0xF
  let note := byteAt data.file (data.sound + 1)
  let velocity := byteAt data.file (data.sound + 2)
  let dn := MPU_NoteOn_duration (data.file.drop (data.sound + 3)) 0 0
  let duration := dn.1
  let len := (3 + dn.2) % 65536
  if rd s.lockStatus chan &&& 0x80 ≠ 0 then some (s, len) else
    let free := (List.range 32).find? (fun i => rd data.noteOnChans i = 0xFF)
    let data :=
      match free with
      | some _ => { data with noteOnCount := (data.noteOnCount + 1) % 65536 }
      | none => data
    let i := free.getD 0
    let data := { data with
      noteOnChans := wr data.noteOnChans i chan
      noteOnNotes := wr data.noteOnNotes i note
      noteOnDuration := data.noteOnDuration.set i (toInt32 ((duration : Int) - 1)) }
    let chan := rd data.chanMaps chan
    let s := { s with noteOnCount := wr s.noteOnCount chan ((rd s.noteOnCount chan + 1) % 256) }
    let s := MPU_Send s (0x90 ||| chan) note velocity
    some (setData s idx data, len)

/-- Body of the `for` loop of `MPU_FlushChannel` for note slot `i` of `data`. -/
def MPU_FlushChannel_note (channel : Nat) (acc : MSData × MPU) (i : Nat) : MSData × MPU :=
  let data := acc.1
  let s := acc.2
  let chan := rd data.noteOnChans i
  if chan ≠ channel then (data, s) else
    let data := { data with noteOnChans := wr data.noteOnChans i 0xFF }
    let note := rd data.noteOnNotes i
    let chan := rd data.chanMaps chan
    let s := { s with noteOnCount := wr s.noteOnCount chan ((rd s.noteOnCount chan + 255) % 256) }
    let s := MPU_Send s (0x80 ||| chan) note 0
    ({ data with noteOnCount := (data.noteOnCount + 65535) % 65536 }, s)

/-- The scan `while (s_mpu_msdata[index] == NULL) index++;` of `MPU_FlushChannel`;
`none` when it runs off the array. -/
def MPU_FlushChannel_scan (s : MPU) (index : Nat) : Option Nat :=
  (List.range s.msdata.length).find? (fun i => index ≤ i ∧ (getData s i).isSome)

/-- The `while (count-- != 0)` loop of `MPU_FlushChannel`.  `index` is carried
from one iteration to the next and is only moved by the `NULL` scan. -/
def MPU_FlushChannel_loop (channel : Nat) : Nat → Nat → MPU → Option MPU
  | 0, _, s => some s
  | count + 1, index, s => do
    let index ← MPU_FlushChannel_scan s index
    let data ← getData s index
    if data.noteOnCount = 0 then MPU_FlushChannel_loop channel count index s
    else
      let r := (List.range 32).foldl (MPU_FlushChannel_note channel) (data, s)
      MPU_FlushChannel_loop channel count index (setData r.2 index r.1)

/-- `MPU_FlushChannel`. -/
def MPU_FlushChannel (s : MPU) (channel : Nat) : Option MPU :=
  MPU_FlushChannel_loop channel s.msdataSize 0 s

/-! ## Channel allocation -/

/-- One `for` pass of `MPU_281A` with the given `flag`, started from the
current `(chan, min)`. -/
def MPU_281A_pass (s : MPU) (flag : Nat) (acc : Nat × Nat) : Nat × Nat :=
  (List.range 16).foldl
    (fun (a : Nat × Nat) i =>
      if rd s.lockStatus (15 - i) &&& flag = 0 ∧ rd s.noteOnCount (15 - i) < a.2 then
        (15 - i, rd s.noteOnCount (15 - i))
      else a)
    acc

/-- The `while (true)` search of `MPU_281A`: a pass with flag `0xC0` and, when it
finds nothing, a pass with flag `0x80`.  The result is `0xFF` when both fail. -/
def MPU_281A_search (s : MPU) : Nat :=
  let p := MPU_281A_pass s 0xC0 (0xFF, 0xFF)
  if p.1 ≠ 0xFF then p.1 else (MPU_281A_pass s 0x80 p).1

/-- `MPU_281A`: returns the channel (or `0xFF`) and the new state. -/
def MPU_281A (s : MPU) : Option (Nat × MPU) :=
  let chan := MPU_281A_search s
  if chan = 0xFF then some (chan, s) else do
    let s ← MPU_FlushChannel (MPU_Send s (0xB0 ||| chan) 64 0) chan
    some (chan, { s with
      noteOnCount := wr s.noteOnCount chan 0
      lockStatus := wr s.lockStatus chan (rd s.lockStatus chan ||| 0x80) })

/-- Send `(status, data1, data2)` unless `cached` is the unset value `unsetVal`. -/
def MPU_289D_replay (s : MPU) (cached unsetVal status data1 data2 : Nat) : MPU :=
  if cached ≠ unsetVal then MPU_Send s status data1 data2 else s

/-- `MPU_289D`. -/
def MPU_289D (s : MPU) (chan : Nat) : MPU :=
  if rd s.lockStatus chan &&& 0x80 = 0 then s else
    let s := { s with
      lockStatus := wr s.lockStatus chan (rd s.lockStatus chan &&& 0x7F)
      noteOnCount := wr s.noteOnCount chan 0 }
    let s := MPU_Send s (0xB0 ||| chan) 64 0
    let s := MPU_Send s (0xB0 ||| chan) 123 0
    let c := rdC s.controls chan
    let s := MPU_289D_replay s c.volume 0xFF (0xB0 ||| chan) 7 c.volume
    let s := MPU_289D_replay s c.modulation 0xFF (0xB0 ||| chan) 1 c.modulation
    let s := MPU_289D_replay s c.panpot 0xFF (0xB0 ||| chan) 10 c.panpot
    let s := MPU_289D_replay s c.expression 0xFF (0xB0 ||| chan) 11 c.expression
    let s := MPU_289D_replay s c.sustain 0xFF (0xB0 ||| chan) 64 c.sustain
    let s := MPU_289D_replay s c.patch_bank_sel 0xFF (0xB0 ||| chan) 114 c.patch_bank_sel
    let s := MPU_289D_replay s c.chan_lock 0xFF (0xB0 ||| chan) 110 c.chan_lock
    let s := MPU_289D_replay s c.chan_protect 0xFF (0xB0 ||| chan) 111 c.chan_protect
    let s := MPU_289D_replay s c.voice_protect 0xFF (0xB0 ||| chan) 112 c.voice_protect
    let s := MPU_289D_replay s (rd s.programs chan) 0xFF (0xC0 ||| chan) (rd s.programs chan) 0
    MPU_289D_replay s (rd s.pitchWheel chan) 0xFFFF (0xE0 ||| chan)
      (rd s.pitchWheel chan &&& 0xFF) (rd s.pitchWheel chan >>> 8)

/-! ## Controllers -/

/-- The guarded forward `if ((s_mpu_lockStatus[chan] & 0x80) == 0) MPU_Send(0xB0 |
data->chanMaps[chan], control, value)` shared by the cases of `MPU_Control`. -/
def MPU_Control_send (s : MPU) (data : MSData) (chan control value : Nat) : MPU :=
  if rd s.lockStatus chan &&& 0x80 = 0 then MPU_Send s (0xB0 ||| rd data.chanMaps chan) control value
  else s

/-- Case 116 (FOR_LOOP) of `MPU_Control`. -/
def MPU_Control_forLoop (data : MSData) (value : Nat) : MSData :=
  match (List.range 4).find? (fun i => rd data.variable_0060 i = 0xFFFF) with
  | none => data
  | some i => { data with
      variable_0060 := wr data.variable_0060 i value
      variable_0050 := wr data.variable_0050 i data.sound }

/-- Case 117 (NEXT_LOOP) of `MPU_Control`, for `value >= 64`. -/
def MPU_Control_nextLoop (data : MSData) : MSData :=
  match (List.range 4).find? (fun i => rd data.variable_0060 (3 - i) ≠ 0xFFFF) with
  | none => data
  | some i =>
    let n := rd data.variable_0060 (3 - i)
    if n ≠ 0 ∧ (n + 65535) % 65536 = 0 then
      { data with variable_0060 := wr data.variable_0060 (3 - i) 0xFFFF }
    else
      let data :=
        if n ≠ 0 then { data with variable_0060 := wr data.variable_0060 (3 - i) ((n + 65535) % 65536) }
        else data
      { data with sound := rd data.variable_0050 (3 - i) }

/-- The common shape of the cases 1, 10, 11, 64, 112 and 114 of `MPU_Control`: the field
written by `f` is stored in `s_mpu_controls[chan]` and in `data->controls[chan]`, then the
message is forwarded unless the channel is hard locked. -/
def MPU_Control_store (s : MPU) (idx : Nat) (data : MSData) (chan control value : Nat)
    (f : Controls → Controls) : MPU :=
  let s := { s with controls := modC s.controls chan f }
  let data := { data with controls := modC data.controls chan f }
  setData (MPU_Control_send s data chan control value) idx data

/-- Case 7 (PART_VOLUME) of `MPU_Control`. -/
def MPU_Control_volume (s : MPU) (data : MSData) (chan control value : Nat) : MPU :=
  if data.variable_0024 = 100 then s else
    let value := min (data.variable_0024 * value / 100) 127
    let s := { s with controls := modC s.controls chan (fun c => { c with volume := value }) }
    MPU_Control_send s data chan control value

/-- The state of case 110 of `MPU_Control` after its two shadow writes
`s_mpu_controls[chan].chan_lock = value` and `data->controls[chan].chan_lock = value`. -/
def MPU_Control_lockShadows (s : MPU) (idx : Nat) (data : MSData) (chan value : Nat) : MPU :=
  setData { s with controls := modC s.controls chan (fun c => { c with chan_lock := value }) } idx
    { data with controls := modC data.controls chan (fun c => { c with chan_lock := value }) }

/-- Case 110 (CHAN_LOCK) of `MPU_Control`. -/
def MPU_Control_lock (s : MPU) (idx : Nat) (data : MSData) (chan value : Nat) : Option MPU :=
  let s := MPU_Control_lockShadows s idx data chan value
  if value < 64 then do
    let s ← MPU_FlushChannel s chan
    let data ← getData s idx
    let s := MPU_289D s (rd data.chanMaps chan)
    let data ← getData s idx
    some (setData s idx { data with chanMaps := wr data.chanMaps chan chan })
  else do
    let r ← MPU_281A s
    let newChan := if r.1 = 0xFF then chan else r.1
    let data ← getData r.2 idx
    some (setData r.2 idx { data with chanMaps := wr data.chanMaps chan newChan })

/-- Case 111 (CHAN_PROTECT) of `MPU_Control`. -/
def MPU_Control_protect (s : MPU) (idx : Nat) (data : MSData) (chan value : Nat) : MPU :=
  let s := { s with controls := modC s.controls chan (fun c => { c with chan_protect := value }) }
  let data := { data with controls := modC data.controls chan (fun c => { c with chan_protect := value }) }
  let s := if value ≥ 64 then
      { s with lockStatus := wr s.lockStatus chan (rd s.lockStatus chan ||| 0x40) }
    else s
  setData s idx data

/-- `MPU_Control`; `none` on the `assert(0)` of controllers 115, 118 and 119. -/
def MPU_Control (s : MPU) (idx chan control value : Nat) : Option MPU := do
  let data ← getData s idx
  if control = 1 then
    some (MPU_Control_store s idx data chan control value (fun c => { c with modulation := value }))
  else if control = 7 then some (MPU_Control_volume s data chan control value)
  else if control = 10 then
    some (MPU_Control_store s idx data chan control value (fun c => { c with panpot := value }))
  else if control = 11 then
    some (MPU_Control_store s idx data chan control value (fun c => { c with expression := value }))
  else if control = 64 then
    some (MPU_Control_store s idx data chan control value (fun c => { c with sustain := value }))
  else if control = 110 then MPU_Control_lock s idx data chan value
  else if control = 111 then some (MPU_Control_protect s idx data chan value)
  else if control = 112 then
    some (MPU_Control_store s idx data chan control value (fun c => { c with voice_protect := value }))
  else if control = 114 then
    some (MPU_Control_store s idx data chan control value (fun c => { c with patch_bank_sel := value }))
  else if control = 115 then none
  else if control = 116 then some (setData s idx (MPU_Control_forLoop data value))
  else if control = 117 then
    if value < 64 then some s else some (setData s idx (MPU_Control_nextLoop data))
  else if control = 118 ∨ control = 119 then none
  else some (MPU_Control_send s data chan control value)

/-- Body of the `for` loop of `MPU_16B7` for logical channel `chan`. -/
def MPU_16B7_chan (idx : Nat) (s : MPU) (chan : Nat) : Option MPU := do
  let data ← getData s idx
  let s :=
    if (rdC data.controls chan).sustain ≠ 0xFF ∧ (rdC data.controls chan).sustain ≥ 64 then
      MPU_Send { s with controls := modC s.controls chan (fun c => { c with sustain := 0 }) }
        (0xB0 ||| chan) 64 0
    else s
  let s ←
    if (rdC data.controls chan).chan_lock ≠ 0xFF ∧ (rdC data.controls chan).chan_lock ≥ 64 then do
      let s ← MPU_FlushChannel s chan
      let data ← getData s idx
      let s := MPU_289D s (rd data.chanMaps chan)
      let data ← getData s idx
      some (setData s idx { data with chanMaps := wr data.chanMaps chan chan })
    else some s
  let data ← getData s idx
  let s :=
    if (rdC data.controls chan).chan_protect ≠ 0xFF ∧ (rdC data.controls chan).chan_protect ≥ 64 then
      { s with lockStatus := wr s.lockStatus chan (rd s.lockStatus chan &&& 0xBF) }
    else s
  let s :=
    if (rdC data.controls chan).voice_protect ≠ 0xFF ∧ (rdC data.controls chan).voice_protect ≥ 64 then
      MPU_Send s (0xB0 ||| chan) 112 0
    else s
  some s

/-- `MPU_16B7`. -/
def MPU_16B7 (s : MPU) (idx : Nat) : Option MPU :=
  (List.range 16).foldlM (MPU_16B7_chan idx) s

/-! ## Track slots -/

/-- `MPU_ClearData`. -/
def MPU_ClearData (s : MPU) (index : Nat) : Option MPU :=
  if index = 0xFFFF then some s
  else if 8 ≤ index then none
  else
    match getData s index with
    | none => some s
    | some data =>
      if data.playing = 1 then some (setData s index { data with delayedClear := true })
      else some { s with
        msdata := s.msdata.set index none
        msdataSize := (s.msdataSize + 65535) % 65536 }

/-- `MPU_InitData`. -/
def MPU_InitData (data : MSData) : MSData :=
  { data with
    variable_0060 := List.replicate 4 0xFFFF
    chanMaps := List.range 16
    controls := List.replicate 16 Controls.unset
    noteOnChans := List.replicate 32 0xFF
    delay := 0
    noteOnCount := 0
    variable_0024 := 0x5A
    variable_0026 := 0x5A
    variable_0030 := 0
    variable_0032 := 0x64
    variable_0034 := 0x64
    variable_003E := 0
    variable_0040 := 0
    variable_0042 := 4
    variable_0044 := 0x208D5
    variable_0048 := 0x208D5
    variable_004C := 0x7A1200 }

/-- Body of the `for` loop of `MPU_StopAllNotes` for note slot `i`. -/
def MPU_StopAllNotes_note (acc : MSData × MPU) (i : Nat) : MSData × MPU :=
  let data := acc.1
  let s := acc.2
  let chan := rd data.noteOnChans i
  if chan = 0xFF then (data, s) else
    let data := { data with noteOnChans := wr data.noteOnChans i 0xFF }
    let note := rd data.noteOnNotes i
    let chan := rd data.chanMaps chan
    (data, MPU_Send s (0x80 ||| chan) note 0)

/-- `MPU_StopAllNotes`. -/
def MPU_StopAllNotes (s : MPU) (idx : Nat) : Option MPU := do
  let data ← getData s idx
  let r := (List.range 32).foldl MPU_StopAllNotes_note (data, s)
  some (setData r.2 idx { r.1 with noteOnCount := 0 })

/-- `MPU_Stop`. -/
def MPU_Stop (s : MPU) (index : Nat) : Option MPU :=
  if index = 0xFFFF then some s
  else if 8 ≤ index then none
  else
    match getData s index with
    | none => some s
    | some data =>
      if data.playing ≠ 1 then some s else do
        let s ← MPU_StopAllNotes s index
        let s ← MPU_16B7 s index
        let data ← getData s index
        some (setData s index { data with playing := 0 })

/-- `MPU_Play`. -/
def MPU_Play (s : MPU) (index : Nat) : Option MPU :=
  if index = 0xFFFF then some s else do
    let data ← getData s index
    let s ← if data.playing = 1 then MPU_Stop s index else some s
    let data ← getData s index
    let data := MPU_InitData data
    some (setData s index { data with sound := data.EVNT + 8, playing := 1 })

/-- `MPU_IsPlaying`. -/
def MPU_IsPlaying (s : MPU) (index : Nat) : Option Nat :=
  if index = 0xFFFF then some 0xFFFF else do
    let data ← getData s index
    some data.playing

/-- `MPU_SetVolume`. -/
def MPU_SetVolume (s : MPU) (index volume arg0C : Nat) : Option MPU :=
  if index = 0xFFFF then some s else do
    let data ← getData s index
    let data := { data with variable_0026 := volume % 65536 }
    if arg0C % 65536 = 0 then
      let data := { data with variable_0024 := volume % 65536 }
      some (MPU_ApplyVolume (setData s index data) data)
    else
      let diff := (data.variable_0026 + 65536 - data.variable_0024) % 65536
      if diff = 0 then some (setData s index data) else
        let step := (10 * (arg0C % 65536) / diff) % 4294967296
        let step := if step = 0 then 1 else step
        some (setData s index { data with variable_002C := step, variable_0028 := 0 })

/-! ## Meta events -/

/-- The variable length loop of `MPU_XMIDIMeta` (a `uint16` accumulator) on the
bytes that follow the type byte: the decoded length and the number of bytes read. -/
def MPU_XMIDIMeta_len : List Nat → Nat → Nat → Nat × Nat
  | [], len, n => (len, n + 1)
  | b :: rest, len, n =>
    let v := b % 256
    let len := len ||| (v &&& 0x7F)
    if v &&& 0x80 = 0 then (len, n + 1)
    else MPU_XMIDIMeta_len rest ((len <<< 7) % 65536) (n + 1)

/-- Conversion to `int8`. -/
def toInt8 (n : Int) : Int := (n + 128) % 256 - 128

/-- The value stored in `variable_0044` by the time signature case for the
exponent byte `e`: `mul = (int8)e - 2`, then `133333 >> -mul` or `133333 << mul`.
Both operands are `int`, of 32 bits.  C defines neither a shift by 32 or more
nor a left shift whose result does not fit in `int`: these yield `none`. -/
def MPU_XMIDIMeta_timeSig (e : Nat) : Option Nat :=
  let mul := toInt8 (toInt8 (e : Int) - 2)
  if mul < 0 then
    if (-mul).toNat < 32 then some (133333 >>> (-mul).toNat) else none
  else
    if mul.toNat < 32 ∧ 133333 <<< mul.toNat < 2147483648 then some (133333 <<< mul.toNat)
    else none

/-- `MPU_XMIDIMeta`: returns the new state and the length of the event. -/
def MPU_XMIDIMeta (s : MPU) (idx : Nat) : Option (MPU × Nat) := do
  let data ← getData s idx
  let type := byteAt data.file (data.sound + 1)
  let ln := MPU_XMIDIMeta_len (data.file.drop (data.sound + 2)) 0 0
  let sound := data.sound + 2 + ln.2
  let len := (ln.1 + (2 + ln.2) % 65536) % 65536
  if type = 0x2F then do
    let s ← MPU_16B7 s idx
    let data ← getData s idx
    let s := setData s idx { data with playing := 2 }
    let s ← if data.delayedClear then MPU_ClearData s s.msdataCurrent else some s
    some (s, len)
  else if type = 0x58 then do
    let v ← MPU_XMIDIMeta_timeSig (byteAt data.file (sound + 1))
    some (setData s idx { data with
      variable_0042 := byteAt data.file sound
      variable_0044 := v
      variable_0048 := v }, len)
  else if type = 0x51 then
    some (setData s idx { data with
      variable_004C := ((byteAt data.file sound <<< 20) ||| (byteAt data.file (sound + 1) <<< 12)
        ||| (byteAt data.file (sound + 2) <<< 4)) % 4294967296 }, len)
  else some (s, len)

/-! ## The tick -/

/-- The note service of `MPU_Interrupt` ("Handle note length"): `n` note slots
are still to be visited, the next one is `index`. -/
def MPU_Interrupt_notes : Nat → Nat → MSData × MPU → MSData × MPU
  | 0, _, acc => acc
  | n + 1, index, acc =>
    let data := acc.1
    let s := acc.2
    if data.noteOnCount = 0 then acc
    else if rd data.noteOnChans index = 0xFF then MPU_Interrupt_notes n (index + 1) acc
    else
      let d := toInt32 (rdI data.noteOnDuration index - 1)
      let data := { data with noteOnDuration := data.noteOnDuration.set index d }
      if d ≥ 0 then MPU_Interrupt_notes n (index + 1) (data, s)
      else
        let chan := rd data.chanMaps (rd data.noteOnChans index)
        let data := { data with noteOnChans := wr data.noteOnChans index 0xFF }
        let note := rd data.noteOnNotes index
        let s := { s with noteOnCount := wr s.noteOnCount chan ((rd s.noteOnCount chan + 255) % 256) }
        let s := MPU_Send s (0x80 ||| chan) note 0
        MPU_Interrupt_notes n (index + 1)
          ({ data with noteOnCount := (data.noteOnCount + 65535) % 65536 }, s)

/-- The variable length loop of the System Exclusive case of `MPU_Interrupt` on
the bytes from `sound[1]` on: the decoded `uint16` size and the final `i`. -/
def MPU_Interrupt_sysexLen : List Nat → Nat → Nat → Nat × Nat
  | [], nb, i => ((nb <<< 7) % 65536, i + 1)
  | b :: rest, nb, i =>
    let nb := ((nb <<< 7) ||| (b % 256 &&& 0x7F)) % 65536
    if b % 256 &&& 0x80 ≠ 0 then MPU_Interrupt_sysexLen rest nb (i + 1) else (nb, i + 1)

/-- The guarded forward `MPU_Send(status | data->chanMaps[chan], data1, data2)` of
the channel voice cases of `MPU_Interrupt`. -/
def MPU_Interrupt_forward (s : MPU) (data : MSData) (status chan data1 data2 : Nat) : MPU :=
  if rd s.lockStatus chan &&& 0x80 = 0 then MPU_Send s (status ||| rd data.chanMaps chan) data1 data2
  else s

/-- One pass of the body of the `do ... while (data->playing == 1)` loop of
`MPU_Interrupt` for a status byte `>= 0x80`: the `switch` and `data->sound += nb`. -/
def MPU_Interrupt_event (s : MPU) (idx : Nat) : Option MPU := do
  let data ← getData s idx
  let status := byteAt data.file data.sound
  let chan := status &&& 0xF
  let data1 := byteAt data.file (data.sound + 1)
  let data2 := byteAt data.file (data.sound + 2)
  let r ←
    if status &&& 0xF0 = 0xF0 then
      if chan = 0xF then MPU_XMIDIMeta s idx
      else if chan = 0 then
        let ln := MPU_Interrupt_sysexLen (data.file.drop (data.sound + 1)) 0 1
        if ln.1 < 320 then
          some ({ s with out := s.out ++
            [Out.str (status :: (List.range ln.1).map (fun k => byteAt data.file (data.sound + ln.2 + k)))] },
            (ln.1 + ln.2) % 65536)
        else none
      else some (s, 1)
    else if status &&& 0xF0 = 0xE0 then
      let s := { s with pitchWheel := wr s.pitchWheel chan (((data2 <<< 8) + data1) % 65536) }
      some (MPU_Interrupt_forward s data status chan data1 data2, 3)
    else if status &&& 0xF0 = 0xD0 then
      some (MPU_Interrupt_forward s data status chan data1 data2, 2)
    else if status &&& 0xF0 = 0xC0 then
      let s := { s with programs := wr s.programs chan data1 }
      some (MPU_Interrupt_forward s data status chan data1 data2, 2)
    else if status &&& 0xF0 = 0xB0 then do
      let s ← MPU_Control s idx chan data1 data2
      some (s, 3)
    else if status &&& 0xF0 = 0xA0 then
      some (MPU_Interrupt_forward s data status chan data1 data2, 3)
    else MPU_NoteOn s idx
  match getData r.1 idx with
  | none => some r.1
  | some data => some (setData r.1 idx { data with sound := data.sound + r.2 })

/-- The `do ... while (data->playing == 1)` loop of `MPU_Interrupt`.  A slot
emptied by the deferred clear holds a track whose `playing` is 2. -/
def MPU_Interrupt_events : Nat → MPU → Nat → Option MPU
  | 0, _, _ => none
  | fuel + 1, s, idx => do
    let data ← getData s idx
    let status := byteAt data.file data.sound
    if status < 0x80 then
      some (setData s idx { data with sound := data.sound + 1, delay := status })
    else do
      let s ← MPU_Interrupt_event s idx
      match getData s idx with
      | none => some s
      | some data => if data.playing = 1 then MPU_Interrupt_events fuel s idx else some s

/-- The `while (data->variable_0030 >= 0x64)` loop of `MPU_Interrupt`; `n` bounds
the number of passes. -/
def MPU_Interrupt_units (fuel : Nat) : Nat → MPU → Nat → Option MPU
  | 0, s, _ => some s
  | n + 1, s, idx => do
    let data ← getData s idx
    if data.variable_0030 < 0x64 then some s else
      let data := { data with variable_0030 := data.variable_0030 - 0x64 }
      let value : Nat := (data.variable_0048 + data.variable_0044) % 4294967296
      let data :=
        if toInt32 (value : Int) ≥ toInt32 (data.variable_004C : Int) then
          let value : Nat := (value + 4294967296 - data.variable_004C % 4294967296) % 4294967296
          let e := (data.variable_003E + 1) % 65536
          if e ≥ data.variable_0042 then
            { data with variable_0048 := value, variable_003E := 0,
                        variable_0040 := (data.variable_0040 + 1) % 65536 }
          else { data with variable_0048 := value, variable_003E := e }
        else { data with variable_0048 := value }
      let r := MPU_Interrupt_notes 32 0 (data, s)
      let data := { r.1 with delay := toInt16 (r.1.delay - 1) }
      let s := setData r.2 idx data
      let s ← if data.delay ≤ 0 then MPU_Interrupt_events fuel s idx else some s
      match getData s idx with
      | none => some s
      | some data => if data.playing ≠ 1 then some s else MPU_Interrupt_units fuel n s idx

/-- The `do ... while ((int32)v >= 0)` loop shared by the two ramps of
`MPU_Interrupt`: from `v`, the threshold `step` and the counter `i` to the final
counter and the value left in the accumulator. -/
def MPU_Interrupt_ramp : Nat → Nat → Nat → Nat → Option (Nat × Nat)
  | 0, _, _, _ => none
  | fuel + 1, v, step, i =>
    let i := (i + 1) % 65536
    let acc := v
    let v := (v + 4294967296 - step % 4294967296) % 4294967296
    if toInt32 v ≥ 0 then MPU_Interrupt_ramp fuel v step i else some (i, acc)

/-- The step `max(cur - i, target)` or `min(cur + i, target)` of a ramp, as `uint16`. -/
def MPU_Interrupt_rampStep (cur target i : Nat) : Nat :=
  if cur ≥ target then (max ((cur : Int) - i) target).toNat % 65536
  else (min (cur + i) target) % 65536

/-- The work of `MPU_Interrupt` on the track in slot `idx`. -/
def MPU_Interrupt_track (fuel : Nat) (s : MPU) (idx : Nat) : Option MPU := do
  let data ← getData s idx
  if data.playing ≠ 1 then some s else
    let data := { data with variable_0030 := (data.variable_0030 + data.variable_0032) % 65536 }
    let s ← MPU_Interrupt_units fuel (data.variable_0030 / 0x64 + 1) (setData s idx data) idx
    match getData s idx with
    | none => some s
    | some data =>
      if data.playing ≠ 1 then some s else do
        let data ←
          if data.variable_0032 ≠ data.variable_0034 then do
            let r ← MPU_Interrupt_ramp fuel ((data.variable_0036 + 0x53) % 4294967296)
              data.variable_003A 0xFFFF
            let data := { data with variable_0036 := r.2 }
            if r.1 ≠ 0 then
              some { data with variable_0032 :=
                MPU_Interrupt_rampStep data.variable_0032 data.variable_0034 r.1 }
            else some data
          else some data
        if data.variable_0024 ≠ data.variable_0026 then do
          let r ← MPU_Interrupt_ramp fuel ((data.variable_0028 + 0x53) % 4294967296)
            data.variable_002C 0xFFFF
          let data := { data with variable_0028 := r.2 }
          if r.1 ≠ 0 then
            let data := { data with variable_0024 :=
              MPU_Interrupt_rampStep data.variable_0024 data.variable_0026 r.1 }
            some (MPU_ApplyVolume (setData s idx data) data)
          else some (setData s idx data)
        else some (setData s idx data)

/-- The slot scan `do { s_mpu_msdataCurrent++; } while (index < 8 && s_mpu_msdata[index] ==
NULL)` started from `start`. -/
def MPU_Interrupt_scan (s : MPU) (start : Nat) : Nat :=
  ((List.range 8).find? (fun i => start ≤ i ∧ (getData s i).isSome)).getD (max start 8)

/-- The `while (count-- != 0)` loop of `MPU_Interrupt` over the loaded tracks. -/
def MPU_Interrupt_tracks (fuel : Nat) : Nat → MPU → Option MPU
  | 0, s => some s
  | count + 1, s =>
    let index := MPU_Interrupt_scan s ((s.msdataCurrent + 1) % 65536)
    let s := { s with msdataCurrent := index }
    if index ≥ 8 then some s else do
      let s ← MPU_Interrupt_track fuel s index
      MPU_Interrupt_tracks fuel count s

/-- `MPU_Interrupt`, entered with the guards `s_mpuIgnore` and `locked` clear.
`fuel` bounds each event loop and each ramp loop. -/
def MPU_Interrupt (fuel : Nat) (s : MPU) : Option MPU :=
  MPU_Interrupt_tracks fuel s.msdataSize { s with msdataCurrent := 0xFFFF }

/-! ## Loading a track -/

/-- `BETOH32(*(uint32 *)(file + off))`: the big endian 32 bit word at `off`. -/
def be32 (file : List Nat) (off : Nat) : Nat :=
  byteAt file off * 16777216 + byteAt file (off + 1) * 65536 + byteAt file (off + 2) * 256
    + byteAt file (off + 3)

/-- Modelled from the spec: the chunk tag `CC_CAT` of `multichar.h`, a header that is not among
the sources, taken as the big endian ASCII code of `CAT `. -/
def CC_CAT : Nat := 0x43415420

/-- Modelled from the spec: the chunk tag `CC_FORM` of `multichar.h`, taken as the big endian
ASCII code of `FORM`. -/
def CC_FORM : Nat := 0x464F524D

/-- Modelled from the spec: the chunk tag `CC_XMID` of `multichar.h`, taken as the big endian
ASCII code of `XMID`. -/
def CC_XMID : Nat := 0x584D4944

/-- Modelled from the spec: the chunk tag `CC_EVNT` of `multichar.h`, taken as the big endian
ASCII code of `EVNT`. -/
def CC_EVNT : Nat := 0x45564E54

/-- First loop of `MPU_FindSoundStart`: `some none` for `return NULL`, otherwise the
position, header and size at the `break`. -/
def MPU_FindSoundStart_outer (mem : List Nat) : Nat → Nat → Option (Option (Nat × Nat × Nat))
  | 0, _ => none
  | fuel + 1, file =>
    let header := be32 mem file
    let size := be32 mem (file + 4)
    if header ≠ CC_CAT ∧ header ≠ CC_FORM then some none
    else if be32 mem (file + 8) = CC_XMID then some (some (file, header, size))
    else MPU_FindSoundStart_outer mem fuel (file + 8 + size)

/-- Second loop of `MPU_FindSoundStart`. -/
def MPU_FindSoundStart_inner (mem : List Nat) : Nat → Nat → Nat → Nat → Option (Option Nat)
  | 0, _, _, _ => none
  | fuel + 1, file, index, total =>
    let size := be32 mem (file + 4)
    let isXmid := be32 mem (file + 8) = CC_XMID
    let index := if isXmid then (index + 65535) % 65536 else index
    if isXmid ∧ index = 0 then some (some file)
    else
      let size := (size + 8) % 4294967296
      let total := (total + 4294967296 - size) % 4294967296
      if toInt32 total < 0 then some none
      else MPU_FindSoundStart_inner mem fuel (file + size) index total

/-- `MPU_FindSoundStart`: `some none` for `NULL`. -/
def MPU_FindSoundStart (fuel : Nat) (mem : List Nat) (index : Nat) : Option (Option Nat) := do
  let index := (index + 1) % 65536
  let r ← MPU_FindSoundStart_outer mem fuel 0
  match r with
  | none => some none
  | some (file, header, size) =>
    let total := (size + 4294967296 - 5) % 4294967296
    if header = CC_FORM then some (if index = 1 then some file else none)
    else MPU_FindSoundStart_inner mem fuel (file + 12) index total

/-- The `while (header != CC_EVNT)` loop of `MPU_SetData`: the position of the
`EVNT` chunk. -/
def MPU_SetData_evnt (mem : List Nat) : Nat → Nat → Nat → Option Nat
  | 0, _, _ => none
  | fuel + 1, file, size =>
    if be32 mem file = CC_EVNT then some file
    else MPU_SetData_evnt mem fuel (file + size) ((be32 mem (file + size + 4) + 8) % 4294967296)

/-- `MPU_SetData(file, index, msdata)`: `file` is `none` for `NULL`, `msdata` is the
content of the caller's block; returns the new state and the handle. -/
def MPU_SetData (fuel : Nat) (s : MPU) (file : Option (List Nat)) (index : Nat) (msdata : MSData) :
    Option (MPU × Nat) :=
  match file with
  | none => some (s, 0xFFFF)
  | some mem =>
    match (List.range 8).find? (fun i => (getData s i).isNone) with
    | none => some (s, 0xFFFF)
    | some i => do
      let r ← MPU_FindSoundStart fuel mem index
      match r with
      | none => some (s, 0xFFFF)
      | some start =>
        let evnt ← MPU_SetData_evnt mem fuel start 12
        let data := { msdata with file := mem, EVNT := evnt, playing := 0, delayedClear := false }
        some ({ setData s i (MPU_InitData data) with msdataSize := (s.msdataSize + 1) % 65536 }, i)

/-! ## Initialisation -/

/-- The table `defaultPrograms` of `MPU_Init`. -/
def defaultPrograms : List Nat := [68, 48, 95, 78, 41, 3, 110, 122, 255]

/-- Body of the `for` loop of `MPU_Init` for index `i`. -/
def MPU_Init_chan (s : MPU) (i : Nat) : MPU :=
  let chan := (i + 1) % 256
  let c : Controls :=
    { volume := 127, modulation := 0, panpot := 64, expression := 127, sustain := 0,
      patch_bank_sel := 0, chan_lock := 0, chan_protect := 0, voice_protect := 0 }
  let s := { s with controls := modC s.controls chan (fun _ => c) }
  let s := MPU_Send s (0xB0 ||| chan) 7 c.volume
  let s := MPU_Send s (0xB0 ||| chan) 1 c.modulation
  let s := MPU_Send s (0xB0 ||| chan) 10 c.panpot
  let s := MPU_Send s (0xB0 ||| chan) 11 c.expression
  let s := MPU_Send s (0xB0 ||| chan) 64 c.sustain
  let s := MPU_Send s (0xB0 ||| chan) 114 c.patch_bank_sel
  let s := MPU_Send s (0xB0 ||| chan) 110 c.chan_lock
  let s := MPU_Send s (0xB0 ||| chan) 111 c.chan_protect
  let s := MPU_Send s (0xB0 ||| chan) 112 c.voice_protect
  let s := { s with pitchWheel := wr s.pitchWheel chan 0x4000 }
  let s := MPU_Send s (0xE0 ||| chan) 0x00 0x40
  if rd defaultPrograms i = 0xFF then s else
    let s := { s with programs := wr s.programs chan (rd defaultPrograms i) }
    MPU_Send s (0xC0 ||| chan) 0 (rd defaultPrograms i)

/-- `MPU_Init` on a platform without the timer thread; `midi_init` is the result
of the transport's `midi_init()`. -/
def MPU_Init (s : MPU) (midi_init : Bool) : MPU × Bool :=
  if midi_init = false then (s, false) else
    let s := { s with
      msdataSize := 0
      msdataCurrent := 0
      msdata := List.replicate 8 none
      controls := List.replicate 16 Controls.unset
      programs := List.replicate 16 0xFF
      pitchWheel := List.replicate 16 0xFFFF
      noteOnCount := List.replicate 16 0
      lockStatus := List.replicate 16 0
      out := s.out ++ [Out.reset] }
    let s := (List.range 9).foldl MPU_Init_chan s
    ({ s with initialized := true }, true)

/-- The zero initialised file scope variables at program start. -/
def MPU.start : MPU :=
  { msdata := List.replicate 8 none, msdataSize := 0, msdataCurrent := 0,
    controls := List.replicate 16
      { volume := 0, modulation := 0, panpot := 0, expression := 0, sustain := 0,
        patch_bank_sel := 0, chan_lock := 0, chan_protect := 0, voice_protect := 0 },
    programs := List.replicate 16 0, pitchWheel := List.replicate 16 0,
    noteOnCount := List.replicate 16 0, lockStatus := List.replicate 16 0,
    initialized := false, out := [] }

/-- A zero filled caller block for `MPU_SetData`. -/
def MSData.zero : MSData :=
  { file := [], EVNT := 0, sound := 0, playing := 0, delayedClear := false, delay := 0,
    noteOnCount := 0, variable_0022 := 0, variable_0024 := 0, variable_0026 := 0,
    variable_0028 := 0, variable_002C := 0, variable_0030 := 0, variable_0032 := 0,
    variable_0034 := 0, variable_0036 := 0, variable_003A := 0, variable_003E := 0,
    variable_0040 := 0, variable_0042 := 0, variable_0044 := 0, variable_0048 := 0,
    variable_004C := 0, variable_0050 := List.replicate 4 0, variable_0060 := List.replicate 4 0,
    chanMaps := List.replicate 16 0,
    controls := List.replicate 16
      { volume := 0, modulation := 0, panpot := 0, expression := 0, sustain := 0,
        patch_bank_sel := 0, chan_lock := 0, chan_protect := 0, voice_protect := 0 },
    noteOnChans := List.replicate 32 0, noteOnNotes := List.replicate 32 0,
    noteOnDuration := List.replicate 32 0 }

/-- An XMIDI file made of one `FORM XMID` group holding one `EVNT` chunk with the
given event bytes. -/
def xmidFile (events : List Nat) : List Nat :=
  [0x46, 0x4F, 0x52, 0x4D, 0, 0, (events.length + 12) / 256 % 256, (events.length + 12) % 256,
   0x58, 0x4D, 0x49, 0x44,
   0x45, 0x56, 0x4E, 0x54, 0, 0, events.length / 256 % 256, events.length % 256] ++ events

/-! ## Specification vocabulary and sample states -/

/-- Channel `c` is the highest indexed channel of least `s_mpu_noteOnCount` among the
channels `j < 16` with `(s_mpu_lockStatus[j] & flag) == 0`. -/
def leastUsed (s : MPU) (flag c : Nat) : Prop :=
  c < 16 ∧ rd s.lockStatus c &&& flag = 0 ∧
  ∀ j < 16, rd s.lockStatus j &&& flag = 0 →
    rd s.noteOnCount c ≤ rd s.noteOnCount j ∧ (rd s.noteOnCount j = rd s.noteOnCount c → j ≤ c)

/-- The part of a track that `MPU_FlushChannel` does not write. -/
def MSData.sansNotes (d : MSData) : MSData := { d with noteOnChans := [], noteOnCount := 0 }

/-- The part of the global state that `MPU_FlushChannel` does not write. -/
def MPU.sansNotes (s : MPU) : MPU := { s with msdata := [], noteOnCount := [], out := [] }

/-- `MPU_FlushChannel` may have turned `s` into `t`: only note tables, note counters and the
transport log differ. -/
def flushFrame (s t : MPU) : Prop :=
  t.sansNotes = s.sansNotes ∧ t.msdata.length = s.msdata.length ∧
  t.noteOnCount.length = s.noteOnCount.length ∧
  ∀ j, (getData t j).map MSData.sansNotes = (getData s j).map MSData.sansNotes

/-- The state after a successful `MPU_Init`. -/
def MPU.boot : MPU := (MPU_Init MPU.start true).1

/-- One track with the given event bytes, loaded into the booted engine and started. -/
def bootPlay (events : List Nat) : Option MPU := do
  let r ← MPU_SetData 64 MPU.boot (some (xmidFile events)) 0 MSData.zero
  MPU_Play r.1 r.2

/-- Two tracks loaded into the booted engine and started, in slots 0 and 1. -/
def bootPlay2 (events0 events1 : List Nat) : Option MPU := do
  let r0 ← MPU_SetData 64 MPU.boot (some (xmidFile events0)) 0 MSData.zero
  let r1 ← MPU_SetData 64 r0.1 (some (xmidFile events1)) 0 MSData.zero
  let s ← MPU_Play r1.1 r0.2
  MPU_Play s r1.2

/-- A state of the arbiter with locked, protected and busy channels. -/
def MPU.busy : MPU :=
  { MPU.boot with
    lockStatus := [0, 0, 0x40, 0, 0x80, 0, 0, 0, 0, 0, 0, 0, 0, 0, 0x40, 0xC0]
    noteOnCount := [2, 1, 0, 1, 0, 3, 1, 2, 1, 1, 1, 1, 1, 1, 0, 0] }

/-- A run of one track within one tick: lock logical channel 3 (physical channel 15 is
acquired), start a note on logical channel 3 (it sounds on 15), release physical channel 15
through logical channel 15 (this zeroes `s_mpu_noteOnCount[15]`), release logical channel 3
(its flush takes `s_mpu_noteOnCount[15]` from 0 to 255), then request a lock fifteen times
(channels 14 down to 0 are acquired). -/
def wrapRun : Option MPU := do
  let s ← bootPlay ([0xB3, 0x6E, 0x7F, 0x93, 0x40, 0x60, 0x01, 0xBF, 0x6E, 0x00, 0xB3, 0x6E, 0x00]
    ++ (List.replicate 15 [0xB0, 0x6E, 0x7F]).flatten ++ [0x7F])
  MPU_Interrupt 64 s

/-- The message list of one replay slot of a release: the message when the cached value is
not the unset value, nothing otherwise. -/
def replayed (cached unsetVal status data1 data2 : Nat) : List Out :=
  if cached ≠ unsetVal then [Out.msg status data1 data2] else []

/-- The engine after boot with one playing track whose events are a single delay byte. -/
def MPU.idle : MPU := (bootPlay [0x7F]).getD MPU.start

/-- The track in slot 0 of `MPU.idle`. -/
def MPU.idleTrack : MSData := (getData MPU.idle 0).getD MSData.zero

/-- The sum over the loaded tracks of the per track `noteOnCount`. -/
def trackNoteSum (s : MPU) : Nat :=
  (s.msdata.map (fun o => match o with
    | none => 0
    | some d => d.noteOnCount)).sum

/-- The sum over the 16 physical channels of `s_mpu_noteOnCount[p]`. -/
def physNoteSum (s : MPU) : Nat := ((List.range 16).map (rd s.noteOnCount)).sum

/-- Event bytes of one note on each of the logical channels 0 to 15 (note `0x40`, velocity
`0x60`, duration 127) followed by a delay byte. -/
def sixteenNotes : List Nat :=
  ((List.range 16).map (fun c => [0x90 + c, 0x40, 0x60, 0x7F])).flatten ++ [0x7F]

/-- The engine after the first event of a track that locks its logical channel 2 (physical
channel 15 is then hard locked); the cursor is on a note event for logical channel 15. -/
def MPU.lockedDemo : MPU :=
  ((bootPlay [0xB2, 0x6E, 0x7F, 0x9F, 0x40, 0x60, 0x05, 0x7F]).bind
    (fun s => MPU_Interrupt_event s 0)).getD MPU.start

/-- The track in slot 0 of `MPU.lockedDemo`. -/
def MPU.lockedDemoTrack : MSData := (getData MPU.lockedDemo 0).getD MSData.zero

/-! ## Vocabulary and sample states for the later claims -/

/-- Specification: the continuation bytes of the canonical variable length encoding of a
number whose seven bit groups above the last one make up `n`: most significant group first,
each with the high bit set. -/
def vlqPrefix : Nat → Nat → List Nat
  | 0, _ => []
  | k + 1, n => if n = 0 then [] else vlqPrefix k (n / 128) ++ [n % 128 + 128]

/-- Specification: the canonical variable length encoding of `n`, seven bits per byte, most
significant group first, the high bit set on every byte but the last. -/
def vlqEncode (n : Nat) : List Nat := vlqPrefix n (n / 128) ++ [n % 128]

/-- A started track whose first event is the time signature meta event `FF 58 04 06 03 18 08`
(numerator 6, exponent 3). -/
def MPU.timeSigDemo : MPU := (bootPlay [0xFF, 0x58, 0x04, 0x06, 0x03, 0x18, 0x08, 0x7F]).getD MPU.start

/-- The track in slot 0 of `MPU.timeSigDemo`. -/
def MPU.timeSigDemoTrack : MSData := (getData MPU.timeSigDemo 0).getD MSData.zero

/-- The part of a track that the channel bookkeeping (`MPU_FlushChannel`, `MPU_289D`,
`MPU_281A` and the unlock of `MPU_16B7`) does not write: the note table, the note counter and
the channel map are blanked. -/
def MSData.sansChannel (d : MSData) : MSData :=
  { d with noteOnChans := [], noteOnCount := 0, chanMaps := [] }

/-- The part of a track that no event of the stream writes: the file, the clear request, and
the fields of the two ramps. -/
def MSData.sansEvents (d : MSData) : MSData :=
  { d with sound := 0, playing := 0, delay := 0, noteOnCount := 0, variable_0030 := 0,
           variable_003E := 0, variable_0040 := 0, variable_0042 := 0, variable_0044 := 0,
           variable_0048 := 0, variable_004C := 0, variable_0050 := [], variable_0060 := [],
           chanMaps := [], controls := [], noteOnChans := [], noteOnNotes := [],
           noteOnDuration := [] }

/-- Work on the track in slot `j` may have turned `s` into `t`: the table keeps its length,
`s_mpu_msdataCurrent` is kept, and every other slot differs at most in its note table and
note counter. -/
def othersFrame (j : Nat) (s t : MPU) : Prop :=
  t.msdata.length = s.msdata.length ∧ t.msdataCurrent = s.msdataCurrent ∧
  ∀ i, i ≠ j → (getData t i).map MSData.sansNotes = (getData s i).map MSData.sansNotes

/-- The channel bookkeeping for the track in slot `j` may have turned `s` into `t`. -/
def chanFrame (j : Nat) (s t : MPU) : Prop :=
  othersFrame j s t ∧ t.msdataSize = s.msdataSize ∧
  (getData t j).map MSData.sansChannel = (getData s j).map MSData.sansChannel

/-- Events of the track in slot `j` may have turned `s` into `t`: either the slot was emptied
by the deferred clear and the count of loaded tracks went down by one, or the slot and the
count are kept and the track differs only in fields that events write. -/
def eventFrame (j : Nat) (s t : MPU) : Prop :=
  othersFrame j s t ∧
  ((getData t j = none ∧ t.msdataSize = (s.msdataSize + 65535) % 65536) ∨
   (t.msdataSize = s.msdataSize ∧ (getData t j).isSome ∧
    (getData t j).map MSData.sansEvents = (getData s j).map MSData.sansEvents))

/-- The engine with one playing track in slot 0 that is the current track, whose cursor is on
an end of track meta event `FF 2F 00`, after `MPU_ClearData` was called on it. -/
def MPU.clearDemo : MPU :=
  ((bootPlay [0xFF, 0x2F, 0x00]).bind
    (fun s => MPU_ClearData { s with msdataCurrent := 0 } 0)).getD MPU.start

/-- The track in slot 0 of `MPU.clearDemo`. -/
def MPU.clearDemoTrack : MSData := (getData MPU.clearDemo 0).getD MSData.zero

/-- What a control change `(control, value)` on logical channel `chan` may do to the channel
map and to the controller shadows of its track: the entries of the other channels are kept;
the Channel Lock controller 110 stores `value` in the Channel Lock shadow of `chan` and, for a
value below 64, maps `chan` to itself; every other controller keeps the map entry and the
Channel Lock shadow of `chan`. -/
def controlStep (chan control value : Nat) (d d' : MSData) : Prop :=
  d'.chanMaps.length = d.chanMaps.length ∧ d'.controls.length = d.controls.length ∧
  (∀ c, c ≠ chan → rd d'.chanMaps c = rd d.chanMaps c) ∧
  (∀ c, c ≠ chan → rdC d'.controls c = rdC d.controls c) ∧
  ((control = 110 ∧ (chan < d.controls.length → (rdC d'.controls chan).chan_lock = value) ∧
      (value < 64 → chan < d.chanMaps.length → rd d'.chanMaps chan = chan)) ∨
   (control ≠ 110 ∧ rd d'.chanMaps chan = rd d.chanMaps chan ∧
      (rdC d'.controls chan).chan_lock = (rdC d.controls chan).chan_lock))

/-- The channel map of a track agrees with its Channel Lock shadows: the map and the shadows
have 16 entries, and a logical channel that is not mapped to itself has its Channel Lock shadow
engaged (a value from 64 up that is not the unset value `0xFF`). -/
def lockConsistent (d : MSData) : Prop :=
  d.chanMaps.length = 16 ∧ d.controls.length = 16 ∧
  ∀ c, c < 16 → rd d.chanMaps c ≠ c →
    (rdC d.controls c).chan_lock ≠ 0xFF ∧ (rdC d.controls c).chan_lock ≥ 64

/-- The states in which the track in slot `idx` has been started by `MPU_Play` and the engine
has since seen only control changes: those of the track itself carry data values 0..127, those
of the tracks in other slots are arbitrary. -/
inductive ControlReachable (idx : Nat) : MPU → Prop
  | play (s t : MPU) : idx ≠ 0xFFFF → MPU_Play s idx = some t → ControlReachable idx t
  | control (s t : MPU) (chan control value : Nat) : ControlReachable idx s → value ≤ 127 →
      MPU_Control s idx chan control value = some t → ControlReachable idx t
  | other (s t : MPU) (j chan control value : Nat) : ControlReachable idx s → j ≠ idx →
      MPU_Control s j chan control value = some t → ControlReachable idx t

/-- The booted engine with one track loaded into slot 0 and not yet started. -/
def MPU.loadedDemo : MPU :=
  ((MPU_SetData 64 MPU.boot (some (xmidFile [0x7F])) 0 MSData.zero).map Prod.fst).getD MPU.start

/-- The idle engine after its track has locked logical channel 3: physical channel 15 is
acquired and hard locked. -/
def MPU.mapDemo : MPU := (MPU_Control MPU.idle 0 3 110 127).getD MPU.start

/-- The head of one pass of the `while (data->variable_0030 >= 0x64)` loop of `MPU_Interrupt`
for the track `d` in slot `idx`: the tempo bookkeeping, the note service and `--data->delay`.
It yields the track as stored and the state holding it. -/
def MPU_Interrupt_unitHead (s : MPU) (idx : Nat) (d : MSData) : MSData × MPU :=
  let data := { d with variable_0030 := d.variable_0030 - 0x64 }
  let value : Nat := (data.variable_0048 + data.variable_0044) % 4294967296
  let data :=
    if toInt32 (value : Int) ≥ toInt32 (data.variable_004C : Int) then
      let value : Nat := (value + 4294967296 - data.variable_004C % 4294967296) % 4294967296
      let e := (data.variable_003E + 1) % 65536
      if e ≥ data.variable_0042 then
        { data with variable_0048 := value, variable_003E := 0,
                    variable_0040 := (data.variable_0040 + 1) % 65536 }
      else { data with variable_0048 := value, variable_003E := e }
    else { data with variable_0048 := value }
  let r := MPU_Interrupt_notes 32 0 (data, s)
  let data := { r.1 with delay := toInt16 (r.1.delay - 1) }
  (data, setData r.2 idx data)

/-- The loop stack of `d` holds exactly `e` entries: the entries below `e` are in use and the
entries from `e` on are free (`0xFFFF`). -/
def loopDepth (d : MSData) (e : Nat) : Prop :=
  e ≤ 4 ∧ d.variable_0060.length = 4 ∧ d.variable_0050.length = 4 ∧
  (∀ j, j < e → rd d.variable_0060 j ≠ 0xFFFF) ∧
  (∀ j, j < 4 → e ≤ j → rd d.variable_0060 j = 0xFFFF)

/-- Entry `e` is the topmost entry of the loop stack of `d`; it holds the count `m` and the
return cursor `c`. -/
def loopTop (d : MSData) (e m c : Nat) : Prop :=
  loopDepth d (e + 1) ∧ rd d.variable_0060 e = m ∧ rd d.variable_0050 e = c

/-- A started track whose events are `FOR_LOOP 2`, a program change, `NEXT_LOOP` and a delay. -/
def MPU.loopDemo : MPU :=
  (bootPlay [0xB0, 116, 2, 0xC0, 5, 0xB0, 117, 127, 0x7F]).getD MPU.start

/-- The track in slot 0 of `MPU.loopDemo`. -/
def MPU.loopDemoTrack : MSData := (getData MPU.loopDemo 0).getD MSData.zero

/-- The number of note slots of `d` whose channel byte is not the free value `0xFF`. -/
def activeNotes (d : MSData) : Nat := d.noteOnChans.countP (fun c => c ≠ 0xFF)

/-- The note counter of `d` agrees with its note table of 32 slots. -/
def noteCountOk (d : MSData) : Prop :=
  d.noteOnChans.length = 32 ∧ d.noteOnCount = activeNotes d

/-- Every loaded track of `s` has a note counter that agrees with its note table. -/
def notesOk (s : MPU) : Prop := ∀ j d, getData s j = some d → noteCountOk d

/-- The engine after the track of `MPU.idle` has started 16 notes, one per channel. -/
def MPU.notesDemo : MPU := ((bootPlay sixteenNotes).bind (MPU_Interrupt 64)).getD MPU.start

/-- The track in slot 0 of `MPU.notesDemo`. -/
def MPU.notesDemoTrack : MSData := (getData MPU.notesDemo 0).getD MSData.zero

/-! ## The volume ramp over ticks -/

/-- What one tick does to the volume ramp of a track that it leaves in its slot: `d` is the
track before the tick and `d'` after it.  The target and the threshold are kept; when the
track is still playing and off its target the ramp loop ran and moved the volume by its step
count, otherwise the volume and the accumulator are kept. -/
def volumeTick (fuel : Nat) (d d' : MSData) : Prop :=
  d'.variable_0026 = d.variable_0026 ∧ d'.variable_002C = d.variable_002C ∧
  ((d'.playing = 1 ∧ d.variable_0024 ≠ d.variable_0026 ∧
    ∃ r, MPU_Interrupt_ramp fuel ((d.variable_0028 + 0x53) % 4294967296)
        d.variable_002C 0xFFFF = some r ∧
      d'.variable_0028 = r.2 ∧
      d'.variable_0024 =
        if r.1 ≠ 0 then MPU_Interrupt_rampStep d.variable_0024 d.variable_0026 r.1
        else d.variable_0024) ∨
   ((d'.playing ≠ 1 ∨ d.variable_0024 = d.variable_0026) ∧
    d'.variable_0024 = d.variable_0024 ∧ d'.variable_0028 = d.variable_0028))

/-- The number of loaded tracks in the slots `p` to 7. -/
def loadedFrom (s : MPU) (p : Nat) : Nat :=
  (List.range 8).countP (fun i => p ≤ i ∧ (getData s i).isSome)

/-- The master volume `variable_0024` of the track in slot `idx`, 0 for an empty slot. -/
def masterVolume (s : MPU) (idx : Nat) : Nat :=
  ((getData s idx).map MSData.variable_0024).getD 0

/-- The number of steps that the ramp loop of the next tick takes out of the volume
accumulator of the track in slot `idx`. -/
def rampSteps (fuel : Nat) (s : MPU) (idx : Nat) : Nat :=
  (((getData s idx).bind (fun d => MPU_Interrupt_ramp fuel
    ((d.variable_0028 + 0x53) % 4294967296) d.variable_002C 0xFFFF)).map Prod.fst).getD 0

/-- The idle engine of `MPU.idle` after `MPU_SetVolume(0, 0, 0)`: the master volume of its
track is 0. -/
def MPU.rampStart : MPU := (MPU_SetVolume MPU.idle 0 0 0).getD MPU.start

/-- The track of `MPU.rampStart`. -/
def MPU.rampStartTrack : MSData := (getData MPU.rampStart 0).getD MSData.zero

/-- The engine of `MPU.rampStart` after `MPU_SetVolume(0, 100, 10)` and then `k` ticks. -/
def MPU.rampDemo : Nat → MPU
  | 0 => (MPU_SetVolume MPU.rampStart 0 100 10).getD MPU.start
  | k + 1 => (MPU_Interrupt 100 (MPU.rampDemo k)).getD MPU.start

/-! ## The countdown of a note -/

/-- Slot `x` of the note table of `d` is in use and its countdown runs out in the next note
service: the decremented `int32` duration is negative. -/
def noteExpires (d : MSData) (x : Nat) : Prop :=
  rd d.noteOnChans x ≠ 0xFF ∧ toInt32 (rdI d.noteOnDuration x - 1) < 0

instance (d : MSData) (x : Nat) : Decidable (noteExpires d x) := by
  unfold noteExpires
  infer_instance

/-- The physical channel `data->chanMaps[data->noteOnChans[x]]` of the note in slot `x`. -/
def notePhys (d : MSData) (x : Nat) : Nat := rd d.chanMaps (rd d.noteOnChans x)

/-- The Note-Off message of the note in slot `x`, as `MPU_Send` hands it to the transport. -/
def noteOffMsg (d : MSData) (x : Nat) : Out :=
  Out.msg ((0x80 ||| notePhys d x) % 256) (rd d.noteOnNotes x % 256) 0

/-- The slots below `m` whose notes run out in the next note service, in ascending order. -/
def expiredBelow (d : MSData) (m : Nat) : List Nat :=
  (List.range m).filter (fun x => noteExpires d x)

/-- The decrement `s_mpu_noteOnCount[chan]--` for the note in slot `x` of `d`. -/
def noteCountDown (d : MSData) (l : List Nat) (x : Nat) : List Nat :=
  wr l (notePhys d x) ((rd l (notePhys d x) + 255) % 256)

/-- The note service of a time unit has passed the slots below `m`: `acc` is what it has made
of the track `d` and the state `s`. -/
def notesInv (d : MSData) (s : MPU) (m : Nat) (acc : MSData × MPU) : Prop :=
  noteCountOk acc.1 ∧ acc.1.noteOnDuration.length = 32 ∧
  acc.1.noteOnNotes = d.noteOnNotes ∧ acc.1.chanMaps = d.chanMaps ∧
  acc.1.noteOnCount + (expiredBelow d m).length = d.noteOnCount ∧
  (∀ x, rd acc.1.noteOnChans x = if x < m ∧ noteExpires d x then 0xFF else rd d.noteOnChans x) ∧
  (∀ x, rdI acc.1.noteOnDuration x =
    if x < m ∧ rd d.noteOnChans x ≠ 0xFF then toInt32 (rdI d.noteOnDuration x - 1)
    else rdI d.noteOnDuration x) ∧
  acc.2.out = s.out ++ (expiredBelow d m).map (noteOffMsg d) ∧
  acc.2.noteOnCount = (expiredBelow d m).foldl (noteCountDown d) s.noteOnCount

/-- The tracks `a` and `b` hold the same note in slot `i`. -/
def sameNote (i : Nat) (a b : MSData) : Prop :=
  rd a.noteOnChans i = rd b.noteOnChans i ∧ rd a.noteOnNotes i = rd b.noteOnNotes i ∧
  rdI a.noteOnDuration i = rdI b.noteOnDuration i

/-- The logical channel `status & 0xF` of the note event under the cursor of `data`. -/
def MPU_NoteOn_chan (data : MSData) : Nat := byteAt data.file data.sound &&& 0xF

/-- The note number `sound[1]` of the note event under the cursor of `data`. -/
def MPU_NoteOn_note (data : MSData) : Nat := byteAt data.file (data.sound + 1)

/-- The duration that `MPU_NoteOn` decodes from the note event under the cursor of `data`. -/
def MPU_NoteOn_decoded (data : MSData) : Nat :=
  (MPU_NoteOn_duration (data.file.drop (data.sound + 3)) 0 0).1

/-- A started track whose first event is a note on channel 0 with the duration 2. -/
def MPU.shortNoteStart : MPU := (bootPlay [0x90, 60, 100, 0x02, 0x7F]).getD MPU.start

/-- The track of `MPU.shortNoteStart`, its cursor on the note event. -/
def MPU.shortNoteStartTrack : MSData := (getData MPU.shortNoteStart 0).getD MSData.zero

/-- The engine of `MPU.shortNoteStart` after `MPU_NoteOn` has started the note. -/
def MPU.shortNote : MPU := ((MPU_NoteOn MPU.shortNoteStart 0).map Prod.fst).getD MPU.start

/-- The note services that follow `MPU.shortNote`: entry `j` is the track and the engine before
the service of the `j`-th time unit after the note on. -/
def MPU.shortNoteRun : Nat → MSData × MPU
  | 0 => ((getData MPU.shortNote 0).getD MSData.zero, MPU.shortNote)
  | 1 => ((getData MPU.shortNote 0).getD MSData.zero, MPU.shortNote)
  | j + 1 => MPU_Interrupt_notes 32 0 (MPU.shortNoteRun j)

/-- A started track whose first event is a note on channel 0 with the five byte duration
`88 80 80 80 02`, which decodes to `2^31 + 2`. -/
def MPU.longNote : MPU :=
  (bootPlay [0x90, 60, 100, 0x88, 0x80, 0x80, 0x80, 0x02, 0x7F]).getD MPU.start

/-- The track of `MPU.longNote`, its cursor on the note event. -/
def MPU.longNoteTrack : MSData := (getData MPU.longNote 0).getD MSData.zero

/-- The engine of `MPU.longNote` after `MPU_NoteOn` has started the note. -/
def MPU.longNoteOn : MPU := ((MPU_NoteOn MPU.longNote 0).map Prod.fst).getD MPU.start

/-- The track of `MPU.longNoteOn`. -/
def MPU.longNoteOnTrack : MSData := (getData MPU.longNoteOn 0).getD MSData.zero

set_option maxRecDepth 100000

/-! ## Basic facts about the array model -/

theorem rd_wr_same (l : List Nat) (i v : Nat) (h : i < l.length) : rd (wr l i v) i = v := by
  simp [rd, wr, List.getD_eq_getElem?_getD, List.getElem?_set, h]

theorem rd_wr_ne (l : List Nat) (i j v : Nat) (h : i ≠ j) : rd (wr l i v) j = rd l j := by
  simp [rd, wr, List.getD_eq_getElem?_getD, List.getElem?_set, h]

theorem wr_length (l : List Nat) (i v : Nat) : (wr l i v).length = l.length := by
  simp [wr]

theorem getData_setData_same (s : MPU) (i : Nat) (d : MSData) (h : i < s.msdata.length) :
    getData (setData s i d) i = some d := by
  simp [getData, setData, List.getD_eq_getElem?_getD, List.getElem?_set, h]

theorem getData_setData_ne (s : MPU) (i j : Nat) (d : MSData) (h : i ≠ j) :
    getData (setData s i d) j = getData s j := by
  simp [getData, setData, List.getD_eq_getElem?_getD, List.getElem?_set, h]

theorem getData_lt (s : MPU) (i : Nat) (d : MSData) (h : getData s i = some d) :
    i < s.msdata.length := by
  by_contra hc
  have : s.msdata[i]? = none := List.getElem?_eq_none (by omega)
  simp [getData, List.getD_eq_getElem?_getD, this] at h

theorem setData_getData (s : MPU) (i : Nat) (d : MSData) (h : getData s i = some d) :
    setData s i d = s := by
  have hlt := getData_lt s i d h
  have hget : s.msdata[i]? = some (some d) := by
    simp only [getData, List.getD_eq_getElem?_getD] at h
    cases hx : s.msdata[i]? with
    | none => exact absurd hx (by simp [List.getElem?_eq_none_iff]; omega)
    | some x => rw [hx] at h; simp at h; rw [h]
  have : s.msdata.set i (some d) = s.msdata := by
    apply List.ext_getElem?
    intro j
    rw [List.getElem?_set]
    by_cases hij : i = j
    · subst hij; simp [hlt, hget]
    · simp [hij]
  cases s
  simp only [setData] at *
  simp [this]

theorem and_C0_of_and_80 (x : Nat) (h : x &&& 0x80 ≠ 0) : x &&& 0xC0 ≠ 0 := by
  intro hc
  apply h
  have h1 : x &&& 0x80 = (x &&& 0xC0) &&& 0x80 := by
    rw [Nat.land_assoc]; rfl
  rw [h1, hc]; simp

theorem and_40_of_and_C0 (x : Nat) (h : x &&& 0xC0 = 0) : x &&& 0x40 = 0 := by
  have h1 : x &&& 0x40 = (x &&& 0xC0) &&& 0x40 := by
    rw [Nat.land_assoc]; rfl
  rw [h1, h]; simp

theorem and_80_of_and_C0 (x : Nat) (h : x &&& 0xC0 = 0) : x &&& 0x80 = 0 := by
  have h1 : x &&& 0x80 = (x &&& 0xC0) &&& 0x80 := by
    rw [Nat.land_assoc]; rfl
  rw [h1, h]; simp

/-! ## The search of `MPU_281A` -/

/-- The step function folded by `MPU_281A_pass`. -/
theorem MPU_281A_pass_range (s : MPU) (flag : Nat) (acc : Nat × Nat) (n : Nat) :
    let r := (List.range n).foldl
      (fun (a : Nat × Nat) i =>
        if rd s.lockStatus (15 - i) &&& flag = 0 ∧ rd s.noteOnCount (15 - i) < a.2 then
          (15 - i, rd s.noteOnCount (15 - i))
        else a) acc
    (r = acc ∧ ∀ i < n, rd s.lockStatus (15 - i) &&& flag = 0 → acc.2 ≤ rd s.noteOnCount (15 - i)) ∨
    (∃ i < n, r.1 = 15 - i ∧ rd s.lockStatus (15 - i) &&& flag = 0 ∧
      r.2 = rd s.noteOnCount (15 - i) ∧ r.2 < acc.2 ∧
      ∀ k < n, rd s.lockStatus (15 - k) &&& flag = 0 →
        r.2 ≤ rd s.noteOnCount (15 - k) ∧ (rd s.noteOnCount (15 - k) = r.2 → i ≤ k)) := by
  induction n with
  | zero => left; simp
  | succ n ih =>
    simp only [List.range_succ, List.foldl_append, List.foldl_cons, List.foldl_nil]
    simp only at ih
    generalize (List.range n).foldl
      (fun (a : Nat × Nat) i =>
        if rd s.lockStatus (15 - i) &&& flag = 0 ∧ rd s.noteOnCount (15 - i) < a.2 then
          (15 - i, rd s.noteOnCount (15 - i))
        else a) acc = r at ih ⊢
    by_cases hc : rd s.lockStatus (15 - n) &&& flag = 0 ∧ rd s.noteOnCount (15 - n) < r.2
    · rw [if_pos hc]
      right
      refine ⟨n, Nat.lt_succ_self n, rfl, hc.1, rfl, ?_, ?_⟩
      · rcases ih with ⟨h1, _⟩ | ⟨i, _, _, _, _, h5, _⟩
        · rw [h1] at hc; exact hc.2
        · exact lt_trans hc.2 h5
      · intro k hk hel
        rcases Nat.lt_succ_iff_lt_or_eq.mp hk with hk | hk
        · have hle : r.2 ≤ rd s.noteOnCount (15 - k) := by
            rcases ih with ⟨h1, h2⟩ | ⟨i, _, _, _, _, _, h6⟩
            · rw [h1]; exact h2 k hk hel
            · exact (h6 k hk hel).1
          constructor
          · exact le_of_lt (lt_of_lt_of_le hc.2 hle)
          · intro heq
            have := hc.2
            omega
        · subst hk
          exact ⟨le_refl _, fun _ => le_refl _⟩
    · rw [if_neg hc]
      have hn : rd s.lockStatus (15 - n) &&& flag = 0 → r.2 ≤ rd s.noteOnCount (15 - n) := by
        intro h
        by_contra hlt
        exact hc ⟨h, by omega⟩
      rcases ih with ⟨h1, h2⟩ | ⟨i, hi, h3, h4, h5, h6, h7⟩
      · left
        refine ⟨h1, ?_⟩
        intro k hk hel
        rcases Nat.lt_succ_iff_lt_or_eq.mp hk with hk | hk
        · exact h2 k hk hel
        · subst hk; rw [← h1]; exact hn hel
      · right
        refine ⟨i, Nat.lt_succ_of_lt hi, h3, h4, h5, h6, ?_⟩
        intro k hk hel
        rcases Nat.lt_succ_iff_lt_or_eq.mp hk with hk | hk
        · exact h7 k hk hel
        · subst hk
          exact ⟨hn hel, fun _ => le_of_lt hi⟩

/-- What one pass of `MPU_281A` started from `(0xFF, 0xFF)` returns, in terms of channels. -/
theorem MPU_281A_pass_spec (s : MPU) (flag : Nat) :
    (MPU_281A_pass s flag (0xFF, 0xFF) = (0xFF, 0xFF) ∧
      ∀ j < 16, rd s.lockStatus j &&& flag = 0 → 255 ≤ rd s.noteOnCount j) ∨
    ((MPU_281A_pass s flag (0xFF, 0xFF)).1 < 16 ∧
      rd s.lockStatus (MPU_281A_pass s flag (0xFF, 0xFF)).1 &&& flag = 0 ∧
      rd s.noteOnCount (MPU_281A_pass s flag (0xFF, 0xFF)).1 < 255 ∧
      ∀ j < 16, rd s.lockStatus j &&& flag = 0 →
        rd s.noteOnCount (MPU_281A_pass s flag (0xFF, 0xFF)).1 ≤ rd s.noteOnCount j ∧
        (rd s.noteOnCount j = rd s.noteOnCount (MPU_281A_pass s flag (0xFF, 0xFF)).1 →
          j ≤ (MPU_281A_pass s flag (0xFF, 0xFF)).1)) := by
  have h := MPU_281A_pass_range s flag (0xFF, 0xFF) 16
  simp only at h
  unfold MPU_281A_pass
  generalize (List.range 16).foldl
      (fun (a : Nat × Nat) i =>
        if rd s.lockStatus (15 - i) &&& flag = 0 ∧ rd s.noteOnCount (15 - i) < a.2 then
          (15 - i, rd s.noteOnCount (15 - i))
        else a) (0xFF, 0xFF) = r at h ⊢
  rcases h with ⟨h1, h2⟩ | ⟨i, hi, h3, h4, h5, h6, h7⟩
  · left
    refine ⟨h1, ?_⟩
    intro j hj hel
    have := h2 (15 - j) (by omega)
    rw [show 15 - (15 - j) = j by omega] at this
    exact this hel
  · right
    rw [h3]
    refine ⟨by omega, h4, by rw [← h5]; exact h6, ?_⟩
    intro j hj hel
    have := h7 (15 - j) (by omega)
    rw [show 15 - (15 - j) = j by omega] at this
    have h8 := this hel
    rw [← h5]
    exact ⟨h8.1, fun he => by have := h8.2 he; omega⟩

/-- `MPU_Control` on a loaded slot is the dispatch on the controller number. -/
theorem MPU_Control_eq (s : MPU) (idx : Nat) (data : MSData) (chan control value : Nat)
    (hd : getData s idx = some data) :
    MPU_Control s idx chan control value =
      if control = 1 then
        some (MPU_Control_store s idx data chan control value (fun c => { c with modulation := value }))
      else if control = 7 then some (MPU_Control_volume s data chan control value)
      else if control = 10 then
        some (MPU_Control_store s idx data chan control value (fun c => { c with panpot := value }))
      else if control = 11 then
        some (MPU_Control_store s idx data chan control value (fun c => { c with expression := value }))
      else if control = 64 then
        some (MPU_Control_store s idx data chan control value (fun c => { c with sustain := value }))
      else if control = 110 then MPU_Control_lock s idx data chan value
      else if control = 111 then some (MPU_Control_protect s idx data chan value)
      else if control = 112 then
        some (MPU_Control_store s idx data chan control value (fun c => { c with voice_protect := value }))
      else if control = 114 then
        some (MPU_Control_store s idx data chan control value (fun c => { c with patch_bank_sel := value }))
      else if control = 115 then none
      else if control = 116 then some (setData s idx (MPU_Control_forLoop data value))
      else if control = 117 then
        if value < 64 then some s else some (setData s idx (MPU_Control_nextLoop data))
      else if control = 118 ∨ control = 119 then none
      else some (MPU_Control_send s data chan control value) := by
  unfold MPU_Control
  rw [hd]
  rfl

/-! ## What `MPU_FlushChannel` touches -/

theorem foldl_fixed {α β : Type} (f : α → β → α) (a : α) (l : List β)
    (h : ∀ x ∈ l, f a x = a) : l.foldl f a = a := by
  induction l with
  | nil => rfl
  | cons x xs ih =>
    rw [List.foldl_cons, h x (List.mem_cons_self x xs)]
    exact ih (fun y hy => h y (List.mem_cons_of_mem x hy))

theorem foldl_invariant {α β : Type} (P : α → Prop) (f : α → β → α) (l : List β) (a : α)
    (h0 : P a) (hstep : ∀ a x, P a → P (f a x)) : P (l.foldl f a) := by
  induction l generalizing a with
  | nil => exact h0
  | cons x xs ih => exact ih (f a x) (hstep a x h0)

theorem flushFrame_refl (s : MPU) : flushFrame s s := ⟨rfl, rfl, rfl, fun _ => rfl⟩

theorem flushFrame_trans {s t u : MPU} (h1 : flushFrame s t) (h2 : flushFrame t u) :
    flushFrame s u :=
  ⟨h2.1.trans h1.1, h2.2.1.trans h1.2.1, h2.2.2.1.trans h1.2.2.1,
    fun j => (h2.2.2.2 j).trans (h1.2.2.2 j)⟩

theorem flushFrame_lockStatus {s t : MPU} (h : flushFrame s t) : t.lockStatus = s.lockStatus := by
  have := congrArg MPU.lockStatus h.1
  simpa [MPU.sansNotes] using this

theorem flushFrame_msdataSize {s t : MPU} (h : flushFrame s t) : t.msdataSize = s.msdataSize := by
  have := congrArg MPU.msdataSize h.1
  simpa [MPU.sansNotes] using this

theorem flushFrame_getData {s t : MPU} (h : flushFrame s t) (j : Nat) (d : MSData)
    (hd : getData s j = some d) :
    ∃ d', getData t j = some d' ∧ d'.sansNotes = d.sansNotes := by
  have := h.2.2.2 j
  rw [hd] at this
  cases ht : getData t j with
  | none => rw [ht] at this; simp at this
  | some d' => rw [ht] at this; simp at this; exact ⟨d', rfl, this⟩

theorem sansNotes_chanMaps {d d' : MSData} (h : d'.sansNotes = d.sansNotes) :
    d'.chanMaps = d.chanMaps := by
  have := congrArg MSData.chanMaps h
  simpa [MSData.sansNotes] using this

/-- One step of the note loop of `MPU_FlushChannel` keeps the frame. -/
theorem MPU_FlushChannel_note_frame (channel : Nat) (d0 : MSData) (s0 : MPU)
    (acc : MSData × MPU) (i : Nat)
    (h : acc.1.sansNotes = d0.sansNotes ∧ acc.2.sansNotes = s0.sansNotes ∧
      acc.2.msdata = s0.msdata ∧ acc.2.noteOnCount.length = s0.noteOnCount.length) :
    (MPU_FlushChannel_note channel acc i).1.sansNotes = d0.sansNotes ∧
    (MPU_FlushChannel_note channel acc i).2.sansNotes = s0.sansNotes ∧
    (MPU_FlushChannel_note channel acc i).2.msdata = s0.msdata ∧
    (MPU_FlushChannel_note channel acc i).2.noteOnCount.length = s0.noteOnCount.length := by
  obtain ⟨h1, h2, h3, h4⟩ := h
  simp only [MPU_FlushChannel_note]
  by_cases hc : rd acc.1.noteOnChans i ≠ channel
  · rw [if_pos hc]; exact ⟨h1, h2, h3, h4⟩
  · rw [if_neg hc]
    refine ⟨?_, ?_, h3, ?_⟩
    · simp only [MSData.sansNotes] at h1 ⊢; exact h1
    · simp only [MPU.sansNotes, MPU_Send] at h2 ⊢; exact h2
    · simp [MPU_Send, wr_length, h4]

theorem setData_frame (s0 s : MPU) (d0 d : MSData) (index : Nat)
    (hd0 : getData s0 index = some d0)
    (h : d.sansNotes = d0.sansNotes ∧ s.sansNotes = s0.sansNotes ∧
      s.msdata = s0.msdata ∧ s.noteOnCount.length = s0.noteOnCount.length) :
    flushFrame s0 (setData s index d) := by
  obtain ⟨h1, h2, h3, h4⟩ := h
  have hlt := getData_lt s0 index d0 hd0
  refine ⟨?_, ?_, ?_, ?_⟩
  · rw [← h2]; rfl
  · simp [setData, h3]
  · simpa [setData] using h4
  · intro j
    by_cases hj : index = j
    · subst hj
      rw [getData_setData_same s index d (by rw [h3]; exact hlt), hd0]
      simp [h1]
    · rw [getData_setData_ne s index j d hj]
      simp [getData, h3]

theorem MPU_FlushChannel_scan_some (s : MPU) (index : Nat)
    (h : ∃ i, index ≤ i ∧ (getData s i).isSome) :
    ∃ k d, MPU_FlushChannel_scan s index = some k ∧ index ≤ k ∧ getData s k = some d := by
  obtain ⟨i, hi, hs⟩ := h
  obtain ⟨d, hd⟩ := Option.isSome_iff_exists.mp hs
  have hlt := getData_lt s i d hd
  cases hf : MPU_FlushChannel_scan s index with
  | none =>
    unfold MPU_FlushChannel_scan at hf
    rw [List.find?_eq_none] at hf
    have := hf i (List.mem_range.mpr hlt)
    simp [hi, hs] at this
  | some k =>
    unfold MPU_FlushChannel_scan at hf
    have := List.find?_some hf
    simp at this
    obtain ⟨d', hd'⟩ := Option.isSome_iff_exists.mp this.2
    exact ⟨k, d', rfl, this.1, hd'⟩

/-- The loop of `MPU_FlushChannel` returns, and only touches note tables and counters. -/
theorem MPU_FlushChannel_loop_frame (channel : Nat) (count : Nat) :
    ∀ (index : Nat) (s : MPU), (∃ i, index ≤ i ∧ (getData s i).isSome) →
      ∃ t, MPU_FlushChannel_loop channel count index s = some t ∧ flushFrame s t := by
  induction count with
  | zero => intro index s _; exact ⟨s, rfl, flushFrame_refl s⟩
  | succ n ih =>
    intro index s h
    obtain ⟨k, d, hk, hik, hd⟩ := MPU_FlushChannel_scan_some s index h
    simp only [MPU_FlushChannel_loop, hk, hd, Option.bind_eq_bind, Option.some_bind]
    by_cases h0 : d.noteOnCount = 0
    · simp only [h0, if_true]
      exact ih k s ⟨k, le_refl k, by simp [hd]⟩
    · simp only [h0, if_false]
      have hinv := foldl_invariant
        (fun acc : MSData × MPU => acc.1.sansNotes = d.sansNotes ∧ acc.2.sansNotes = s.sansNotes ∧
          acc.2.msdata = s.msdata ∧ acc.2.noteOnCount.length = s.noteOnCount.length)
        (MPU_FlushChannel_note channel) (List.range 32) (d, s) ⟨rfl, rfl, rfl, rfl⟩
        (fun a x ha => MPU_FlushChannel_note_frame channel d s a x ha)
      have hfr := setData_frame s _ d _ k hd hinv
      obtain ⟨d', hd', _⟩ := flushFrame_getData hfr k d hd
      obtain ⟨t, ht, hft⟩ := ih k _ ⟨k, le_refl k, Option.isSome_iff_exists.mpr ⟨d', hd'⟩⟩
      exact ⟨t, ht, flushFrame_trans hfr hft⟩

/-- `MPU_FlushChannel` returns whenever a track is loaded or none is counted. -/
theorem MPU_FlushChannel_frame (s : MPU) (channel : Nat)
    (h : s.msdataSize = 0 ∨ ∃ i, (getData s i).isSome) :
    ∃ t, MPU_FlushChannel s channel = some t ∧ flushFrame s t := by
  unfold MPU_FlushChannel
  rcases h with h | ⟨i, hi⟩
  · rw [h]; exact ⟨s, rfl, flushFrame_refl s⟩
  · exact MPU_FlushChannel_loop_frame channel s.msdataSize 0 s ⟨i, Nat.zero_le i, hi⟩

/-- The loop of `MPU_FlushChannel` changes nothing when no note slot holds `channel`. -/
theorem MPU_FlushChannel_loop_idle (channel : Nat) (count : Nat) (s : MPU)
    (hnone : ∀ j d, getData s j = some d → ∀ k < 32, rd d.noteOnChans k ≠ channel) :
    ∀ (index : Nat), (∃ i, index ≤ i ∧ (getData s i).isSome) →
      MPU_FlushChannel_loop channel count index s = some s := by
  induction count with
  | zero => intro index _; rfl
  | succ n ih =>
    intro index h
    obtain ⟨k, d, hk, hik, hd⟩ := MPU_FlushChannel_scan_some s index h
    simp only [MPU_FlushChannel_loop, hk, hd, Option.bind_eq_bind, Option.some_bind]
    have hfix : (List.range 32).foldl (MPU_FlushChannel_note channel) (d, s) = (d, s) := by
      apply foldl_fixed
      intro x hx
      have := hnone k d hd x (List.mem_range.mp hx)
      simp [MPU_FlushChannel_note, this]
    have hk' : ∃ i, k ≤ i ∧ (getData s i).isSome := ⟨k, le_refl k, by simp [hd]⟩
    split
    · exact ih k hk'
    · rw [hfix]
      show MPU_FlushChannel_loop channel n k (setData s k d) = some s
      rw [setData_getData s k d hd]
      exact ih k hk'

theorem MPU_FlushChannel_idle (s : MPU) (channel : Nat)
    (h : s.msdataSize = 0 ∨ ∃ i, (getData s i).isSome)
    (hnone : ∀ j d, getData s j = some d → ∀ k < 32, rd d.noteOnChans k ≠ channel) :
    MPU_FlushChannel s channel = some s := by
  unfold MPU_FlushChannel
  rcases h with h | ⟨i, hi⟩
  · rw [h]; rfl
  · exact MPU_FlushChannel_loop_idle channel s.msdataSize s hnone 0 ⟨i, Nat.zero_le i, hi⟩

/-! ## The result of `MPU_281A` -/

theorem MPU_281A_search_cases (s : MPU) :
    (MPU_281A_search s = 0xFF ∧
      (∀ j < 16, rd s.lockStatus j &&& 0xC0 = 0 → 255 ≤ rd s.noteOnCount j) ∧
      (∀ j < 16, rd s.lockStatus j &&& 0x80 = 0 → 255 ≤ rd s.noteOnCount j)) ∨
    ((∀ j < 16, rd s.lockStatus j &&& 0xC0 = 0 → 255 ≤ rd s.noteOnCount j) ∧
      leastUsed s 0x80 (MPU_281A_search s) ∧ rd s.noteOnCount (MPU_281A_search s) < 255) ∨
    (leastUsed s 0xC0 (MPU_281A_search s) ∧ rd s.noteOnCount (MPU_281A_search s) < 255) := by
  unfold MPU_281A_search
  rcases MPU_281A_pass_spec s 0xC0 with ⟨h1, h2⟩ | ⟨h1, h2, h3, h4⟩
  · simp only [h1]
    rcases MPU_281A_pass_spec s 0x80 with ⟨g1, g2⟩ | ⟨g1, g2, g3, g4⟩
    · left
      simp only [g1]
      exact ⟨by simp, h2, g2⟩
    · right; left
      refine ⟨h2, ?_, ?_⟩
      · simpa using ⟨g1, g2, g4⟩
      · simpa using g3
  · right; right
    have hne : (MPU_281A_pass s 0xC0 (0xFF, 0xFF)).1 ≠ 0xFF := by omega
    simp only [hne, ne_eq, not_false_eq_true, if_true]
    exact ⟨⟨h1, h2, h4⟩, h3⟩

theorem MPU_281A_search_congr (s t : MPU) (h1 : t.lockStatus = s.lockStatus)
    (h2 : t.noteOnCount = s.noteOnCount) : MPU_281A_search t = MPU_281A_search s := by
  simp [MPU_281A_search, MPU_281A_pass, h1, h2]

/-- `MPU_281A` returns; on success the flush has run and the channel is zeroed and locked. -/
theorem MPU_281A_result (s : MPU) (hload : s.msdataSize = 0 ∨ ∃ i, (getData s i).isSome) :
    ∃ s', MPU_281A s = some (MPU_281A_search s, s') ∧
      (MPU_281A_search s = 0xFF → s' = s) ∧
      (MPU_281A_search s ≠ 0xFF → ∃ t,
        MPU_FlushChannel (MPU_Send s (0xB0 ||| MPU_281A_search s) 64 0) (MPU_281A_search s) = some t ∧
        flushFrame (MPU_Send s (0xB0 ||| MPU_281A_search s) 64 0) t ∧
        s' = { t with
          noteOnCount := wr t.noteOnCount (MPU_281A_search s) 0
          lockStatus := wr t.lockStatus (MPU_281A_search s)
            (rd t.lockStatus (MPU_281A_search s) ||| 0x80) }) := by
  by_cases h : MPU_281A_search s = 0xFF
  · refine ⟨s, ?_, fun _ => rfl, fun hne => absurd h hne⟩
    simp [MPU_281A, h]
  · obtain ⟨t, ht, hfr⟩ := MPU_FlushChannel_frame (MPU_Send s (0xB0 ||| MPU_281A_search s) 64 0)
      (MPU_281A_search s) hload
    refine ⟨_, ?_, fun he => absurd he h, fun _ => ⟨t, ht, hfr, rfl⟩⟩
    simp only [MPU_281A, h, if_false, ht, Option.bind_eq_bind, Option.some_bind]

/-! ## Channel selection and exhaustion -/

/-- C4. Two pass selection of `MPU_281A`: when every `s_mpu_noteOnCount` is below 255, the
returned channel is the highest indexed channel of least note count among the channels with
neither bit `0x80` nor bit `0x40` set, if there is one; otherwise it is the highest indexed
channel of least note count among the channels with bit `0x80` clear; and a protected channel
is not returned while an unlocked unprotected channel exists. -/
theorem MPU_281A_two_pass_selection (s : MPU)
    (hload : s.msdataSize = 0 ∨ ∃ i, (getData s i).isSome)
    (hcnt : ∀ j < 16, rd s.noteOnCount j < 255) :
    ∃ r, MPU_281A s = some r ∧
      ((∃ j < 16, rd s.lockStatus j &&& 0xC0 = 0) → leastUsed s 0xC0 r.1) ∧
      ((¬ ∃ j < 16, rd s.lockStatus j &&& 0xC0 = 0) →
        (∃ j < 16, rd s.lockStatus j &&& 0x80 = 0) → leastUsed s 0x80 r.1) ∧
      ((∃ j < 16, rd s.lockStatus j &&& 0xC0 = 0) → rd s.lockStatus r.1 &&& 0x40 = 0) := by
  obtain ⟨s', hs', _, _⟩ := MPU_281A_result s hload
  refine ⟨_, hs', ?_⟩
  show (_ → leastUsed s 0xC0 (MPU_281A_search s)) ∧ (_ → _ → leastUsed s 0x80 (MPU_281A_search s)) ∧
    (_ → rd s.lockStatus (MPU_281A_search s) &&& 0x40 = 0)
  rcases MPU_281A_search_cases s with ⟨_, h2, h3⟩ | ⟨h1, h2, _⟩ | ⟨h1, _⟩
  · refine ⟨?_, ?_, ?_⟩
    · rintro ⟨j, hj, he⟩; have := h2 j hj he; have := hcnt j hj; omega
    · rintro _ ⟨j, hj, he⟩; have := h3 j hj he; have := hcnt j hj; omega
    · rintro ⟨j, hj, he⟩; have := h2 j hj he; have := hcnt j hj; omega
  · refine ⟨?_, fun _ _ => h2, ?_⟩
    · rintro ⟨j, hj, he⟩; have := h1 j hj he; have := hcnt j hj; omega
    · rintro ⟨j, hj, he⟩; have := h1 j hj he; have := hcnt j hj; omega
  · refine ⟨fun _ => h1, fun hn => absurd ⟨_, h1.1, h1.2.1⟩ hn, fun _ => and_40_of_and_C0 _ h1.2.1⟩

/-- Witness of C4 on a state with locked, protected and busy channels. -/
theorem MPU_281A_two_pass_selection_witness :
    ∃ r, MPU_281A MPU.busy = some r ∧
      ((∃ j < 16, rd MPU.busy.lockStatus j &&& 0xC0 = 0) → leastUsed MPU.busy 0xC0 r.1) ∧
      ((¬ ∃ j < 16, rd MPU.busy.lockStatus j &&& 0xC0 = 0) →
        (∃ j < 16, rd MPU.busy.lockStatus j &&& 0x80 = 0) → leastUsed MPU.busy 0x80 r.1) ∧
      ((∃ j < 16, rd MPU.busy.lockStatus j &&& 0xC0 = 0) →
        rd MPU.busy.lockStatus r.1 &&& 0x40 = 0) :=
  MPU_281A_two_pass_selection MPU.busy (Or.inl (by decide)) (by decide)

/-- C5, counterexample. In the state reached by `wrapRun` physical channel 15 is not hard
locked, yet `MPU_281A` returns `0xFF`: the note count of channel 15 is 255. -/
theorem MPU_281A_fails_with_unlocked_channel :
    wrapRun.map (fun (s : MPU) => ((MPU_281A s).map Prod.fst, decide (∀ j < (16 : Nat), hardLocked s j),
      decide (hardLocked s 15), rd s.noteOnCount 15)) = some (some 0xFF, false, false, 255) := by
  decide

/-- C5, amended. When every `s_mpu_noteOnCount` is below 255, `MPU_281A` returns `0xFF` if and
only if every one of the 16 physical channels is hard locked. -/
theorem MPU_281A_fails_iff_all_locked (s : MPU)
    (hload : s.msdataSize = 0 ∨ ∃ i, (getData s i).isSome)
    (hcnt : ∀ j < 16, rd s.noteOnCount j < 255) :
    ∃ r, MPU_281A s = some r ∧ (r.1 = 0xFF ↔ ∀ j < 16, hardLocked s j) := by
  obtain ⟨s', hs', _, _⟩ := MPU_281A_result s hload
  refine ⟨_, hs', ?_⟩
  show MPU_281A_search s = 0xFF ↔ ∀ j < 16, hardLocked s j
  rcases MPU_281A_search_cases s with ⟨h1, _, h3⟩ | ⟨_, h2, _⟩ | ⟨h1, _⟩
  · refine ⟨fun _ j hj hz => ?_, fun _ => h1⟩
    have := h3 j hj hz; have := hcnt j hj; omega
  · constructor
    · intro h; have := h2.1; omega
    · intro h; exact absurd h2.2.1 (h _ h2.1)
  · constructor
    · intro h; have := h1.1; omega
    · intro h; exact absurd (and_80_of_and_C0 _ h1.2.1) (h _ h1.1)

/-- Witness of the amended C5. -/
theorem MPU_281A_fails_iff_all_locked_witness :
    ∃ r, MPU_281A MPU.busy = some r ∧ (r.1 = 0xFF ↔ ∀ j < 16, hardLocked MPU.busy j) :=
  MPU_281A_fails_iff_all_locked MPU.busy (Or.inl (by decide)) (by decide)

/-! ## Release -/

theorem MPU_289D_replay_eq (s : MPU) (cached unsetVal status data1 data2 : Nat) :
    MPU_289D_replay s cached unsetVal status data1 data2 =
      { s with out := s.out ++ replayed cached unsetVal (status % 256) (data1 % 256) (data2 % 256) } := by
  unfold MPU_289D_replay replayed MPU_Send
  by_cases h : cached ≠ unsetVal
  · rw [if_pos h, if_pos h]
  · rw [if_neg h, if_neg h, List.append_nil]

theorem status_nibble (hi p : Nat) (hp : p < 16) (h : hi ∈ [0x80, 0x90, 0xA0, 0xB0, 0xC0, 0xD0, 0xE0]) :
    (hi ||| p) % 256 = hi + p := by
  simp only [List.mem_cons, List.mem_singleton, List.not_mem_nil, or_false] at h
  rcases h with h | h | h | h | h | h | h <;> subst h <;> interval_cases p <;> rfl

theorem and_7F_and_80 (x : Nat) : (x &&& 0x7F) &&& 0x80 = 0 := by
  rw [Nat.land_assoc]; exact Nat.and_zero x

theorem and_7F_and_40 (x : Nat) : (x &&& 0x7F) &&& 0x40 = x &&& 0x40 := by
  rw [Nat.land_assoc]; rfl

/-- C6. Release `MPU_289D` of a physical channel `p`: when `p` is not hard locked nothing
is sent and the state is unchanged; when `p` is hard locked, bit 7 of `s_mpu_lockStatus[p]`
is cleared and the other bits (the protect bit among them) are kept, `s_mpu_noteOnCount[p]`
becomes 0, no other entry and no track changes, and the messages sent are Sustain Off, All
Notes Off and then, once each and in this order, the cached controllers 7, 1, 10, 11, 64, 114,
110, 111, 112, the program and the pitch bend of `p` that are not unset. -/
theorem MPU_289D_release (s : MPU) (p : Nat) (hp : p < 16)
    (hl : s.lockStatus.length = 16) (hn : s.noteOnCount.length = 16) :
    (¬ hardLocked s p → MPU_289D s p = s) ∧
    (hardLocked s p →
      rd (MPU_289D s p).lockStatus p = rd s.lockStatus p &&& 0x7F ∧
      ¬ hardLocked (MPU_289D s p) p ∧
      rd (MPU_289D s p).lockStatus p &&& 0x40 = rd s.lockStatus p &&& 0x40 ∧
      (∀ q, q ≠ p → rd (MPU_289D s p).lockStatus q = rd s.lockStatus q) ∧
      rd (MPU_289D s p).noteOnCount p = 0 ∧
      (∀ q, q ≠ p → rd (MPU_289D s p).noteOnCount q = rd s.noteOnCount q) ∧
      (MPU_289D s p).msdata = s.msdata ∧
      (MPU_289D s p).controls = s.controls ∧
      (MPU_289D s p).programs = s.programs ∧
      (MPU_289D s p).pitchWheel = s.pitchWheel ∧
      (MPU_289D s p).out = s.out ++
        [Out.msg (0xB0 + p) 64 0, Out.msg (0xB0 + p) 123 0] ++
        replayed (rdC s.controls p).volume 0xFF (0xB0 + p) 7 ((rdC s.controls p).volume % 256) ++
        replayed (rdC s.controls p).modulation 0xFF (0xB0 + p) 1 ((rdC s.controls p).modulation % 256) ++
        replayed (rdC s.controls p).panpot 0xFF (0xB0 + p) 10 ((rdC s.controls p).panpot % 256) ++
        replayed (rdC s.controls p).expression 0xFF (0xB0 + p) 11 ((rdC s.controls p).expression % 256) ++
        replayed (rdC s.controls p).sustain 0xFF (0xB0 + p) 64 ((rdC s.controls p).sustain % 256) ++
        replayed (rdC s.controls p).patch_bank_sel 0xFF (0xB0 + p) 114
          ((rdC s.controls p).patch_bank_sel % 256) ++
        replayed (rdC s.controls p).chan_lock 0xFF (0xB0 + p) 110 ((rdC s.controls p).chan_lock % 256) ++
        replayed (rdC s.controls p).chan_protect 0xFF (0xB0 + p) 111
          ((rdC s.controls p).chan_protect % 256) ++
        replayed (rdC s.controls p).voice_protect 0xFF (0xB0 + p) 112
          ((rdC s.controls p).voice_protect % 256) ++
        replayed (rd s.programs p) 0xFF (0xC0 + p) (rd s.programs p % 256) 0 ++
        replayed (rd s.pitchWheel p) 0xFFFF (0xE0 + p) ((rd s.pitchWheel p &&& 0xFF) % 256)
          ((rd s.pitchWheel p >>> 8) % 256)) := by
  constructor
  · intro h
    unfold hardLocked at h
    simp only [ne_eq, not_not] at h
    simp [MPU_289D, h]
  · intro h
    unfold hardLocked at h
    have hB := status_nibble 0xB0 p hp (by simp)
    have hC := status_nibble 0xC0 p hp (by simp)
    have hE := status_nibble 0xE0 p hp (by simp)
    have hne : ¬ (rd s.lockStatus p &&& 0x80 = 0) := h
    simp only [MPU_289D, hne, if_false, MPU_289D_replay_eq, MPU_Send, hB, hC, hE]
    refine ⟨?_, ?_, ?_, ?_, ?_, ?_, trivial, trivial, trivial, trivial, ?_⟩
    · exact rd_wr_same _ _ _ (by omega)
    · unfold hardLocked
      simp only [ne_eq, not_not]
      rw [rd_wr_same _ _ _ (by omega)]
      exact and_7F_and_80 _
    · rw [rd_wr_same _ _ _ (by omega)]
      exact and_7F_and_40 _
    · intro q hq
      exact rd_wr_ne _ _ _ _ (Ne.symm hq)
    · exact rd_wr_same _ _ _ (by omega)
    · intro q hq
      exact rd_wr_ne _ _ _ _ (Ne.symm hq)
    · simp only [List.append_assoc, List.cons_append, List.nil_append, Nat.reduceMod]

/-- Witness of C6 on the hard locked channel 4 of `MPU.busy`. -/
theorem MPU_289D_release_witness :
    hardLocked MPU.busy 4 ∧
    (MPU_289D MPU.busy 4).out = MPU.busy.out ++
      [Out.msg 0xB4 64 0, Out.msg 0xB4 123 0, Out.msg 0xB4 7 127, Out.msg 0xB4 1 0,
       Out.msg 0xB4 10 64, Out.msg 0xB4 11 127, Out.msg 0xB4 64 0, Out.msg 0xB4 114 0,
       Out.msg 0xB4 110 0, Out.msg 0xB4 111 0, Out.msg 0xB4 112 0, Out.msg 0xC4 78 0,
       Out.msg 0xE4 0 0x40] :=
  ⟨by decide,
    ((MPU_289D_release MPU.busy 4 (by decide) (by decide) (by decide)).2 (by decide)).2.2.2.2.2.2.2.2.2.2.trans
      (by decide)⟩

/-! ## The Channel Lock controller -/

theorem MPU_Control_lock_eq (s : MPU) (idx : Nat) (data : MSData) (c v : Nat)
    (hd : getData s idx = some data) (hv : 64 ≤ v) :
    MPU_Control s idx c 110 v =
      (MPU_281A (MPU_Control_lockShadows s idx data c v)).bind (fun r =>
        (getData r.2 idx).bind (fun d =>
          some (setData r.2 idx
            { d with chanMaps := wr d.chanMaps c (if r.1 = 0xFF then c else r.1) }))) := by
  have hv' : ¬ v < 64 := by omega
  rw [MPU_Control_eq s idx data c 110 v hd]
  simp only [show ¬ ((110 : Nat) = 1) by decide, show ¬ ((110 : Nat) = 7) by decide,
    show ¬ ((110 : Nat) = 10) by decide, show ¬ ((110 : Nat) = 11) by decide,
    show ¬ ((110 : Nat) = 64) by decide, if_false, if_true, MPU_Control_lock, if_neg hv']
  rfl

theorem lockShadows_getData_same (s : MPU) (idx : Nat) (data : MSData) (c v : Nat)
    (hd : getData s idx = some data) :
    getData (MPU_Control_lockShadows s idx data c v) idx =
      some { data with controls := modC data.controls c (fun x => { x with chan_lock := v }) } :=
  getData_setData_same _ idx _ (getData_lt s idx data hd)

theorem lockShadows_getData_ne (s : MPU) (idx j : Nat) (data : MSData) (c v : Nat) (h : idx ≠ j) :
    getData (MPU_Control_lockShadows s idx data c v) j = getData s j :=
  getData_setData_ne _ idx j _ h

theorem lockShadows_search (s : MPU) (idx : Nat) (data : MSData) (c v : Nat) :
    MPU_281A_search (MPU_Control_lockShadows s idx data c v) = MPU_281A_search s :=
  MPU_281A_search_congr s _ rfl rfl

/-- What one Channel Lock request with `value >= 64` does to the lock table and to the map. -/
theorem MPU_Control_lock_step (s : MPU) (idx : Nat) (data : MSData) (c v : Nat)
    (hd : getData s idx = some data) (hv : 64 ≤ v) (hc : c < 16)
    (hl : s.lockStatus.length = 16) (hm : data.chanMaps.length = 16) :
    ∃ s' d', MPU_Control s idx c 110 v = some s' ∧ getData s' idx = some d' ∧
      s'.lockStatus.length = 16 ∧ d'.chanMaps.length = 16 ∧
      (∀ c', c' ≠ c → rd d'.chanMaps c' = rd data.chanMaps c') ∧
      (∀ q, hardLocked s q → hardLocked s' q) ∧
      ((MPU_281A_search s = 0xFF ∧ s'.lockStatus = s.lockStatus ∧ rd d'.chanMaps c = c) ∨
       (∃ p < 16, MPU_281A_search s = p ∧ ¬ hardLocked s p ∧ hardLocked s' p ∧
          rd d'.chanMaps c = p ∧ ∀ q, q ≠ p → rd s'.lockStatus q = rd s.lockStatus q)) := by
  rw [MPU_Control_lock_eq s idx data c v hd hv]
  have hd0 := lockShadows_getData_same s idx data c v hd
  have hlt := getData_lt _ idx _ hd0
  obtain ⟨s1, hs1, hA, hB⟩ := MPU_281A_result (MPU_Control_lockShadows s idx data c v)
    (Or.inr ⟨idx, by rw [hd0]; rfl⟩)
  rw [lockShadows_search] at hs1 hA hB
  rw [hs1]
  by_cases hF : MPU_281A_search s = 0xFF
  · have h1 := hA hF
    subst h1
    simp only [Option.bind_eq_bind, Option.some_bind, hd0, if_pos hF]
    refine ⟨_, _, rfl, getData_setData_same _ idx _ hlt, hl, by simp [wr_length, hm], ?_, ?_, ?_⟩
    · intro c' hc'; exact rd_wr_ne _ _ _ _ (Ne.symm hc')
    · intro q hq; exact hq
    · left; exact ⟨hF, rfl, rd_wr_same _ _ _ (by omega)⟩
  · obtain ⟨t, _, hfr, hs1'⟩ := hB hF
    have hp16 : MPU_281A_search s < 16 ∧ rd s.lockStatus (MPU_281A_search s) &&& 0x80 = 0 := by
      rcases MPU_281A_search_cases s with ⟨h, _⟩ | ⟨_, h, _⟩ | ⟨h, _⟩
      · exact absurd h hF
      · exact ⟨h.1, h.2.1⟩
      · exact ⟨h.1, and_80_of_and_C0 _ h.2.1⟩
    have htl : t.lockStatus = s.lockStatus := (flushFrame_lockStatus hfr).trans rfl
    obtain ⟨d1, hd1, hsn⟩ := flushFrame_getData hfr idx _ hd0
    have hd1' : getData s1 idx = some d1 := by rw [hs1']; exact hd1
    have hmaps := sansNotes_chanMaps hsn
    change d1.chanMaps = data.chanMaps at hmaps
    have hlt1 := getData_lt _ idx _ hd1'
    have hlock1 : s1.lockStatus = wr s.lockStatus (MPU_281A_search s)
        (rd s.lockStatus (MPU_281A_search s) ||| 0x80) := by
      rw [hs1']; simp only [htl]
    simp only [Option.bind_eq_bind, Option.some_bind, hd1', if_neg hF]
    have hnew : rd s1.lockStatus (MPU_281A_search s) &&& 0x80 ≠ 0 := by
      rw [hlock1, rd_wr_same _ _ _ (by omega), Nat.and_distrib_right, hp16.2]
      decide
    refine ⟨_, _, rfl, getData_setData_same _ idx _ hlt1, by simp [setData, hlock1, wr_length, hl],
      by simp [wr_length, hmaps, hm], ?_, ?_, ?_⟩
    · intro c' hc'
      show rd (wr d1.chanMaps c _) c' = _
      rw [rd_wr_ne _ _ _ _ (Ne.symm hc'), hmaps]
    · intro q hq
      show rd s1.lockStatus q &&& 0x80 ≠ 0
      by_cases hqp : q = MPU_281A_search s
      · subst hqp; exact absurd hp16.2 hq
      · rw [hlock1, rd_wr_ne _ _ _ _ (Ne.symm hqp)]; exact hq
    · right
      refine ⟨_, hp16.1, rfl, fun h => h hp16.2, ?_, ?_, ?_⟩
      · exact hnew
      · show rd (wr d1.chanMaps c _) c = _
        exact rd_wr_same _ _ _ (by rw [hmaps, hm]; exact hc)
      · intro q hq
        show rd s1.lockStatus q = _
        rw [hlock1, rd_wr_ne _ _ _ _ (Ne.symm hq)]

/-! ## Repeated lock requests and the idle device -/

theorem bootPlay_idle : bootPlay [0x7F] = some MPU.idle := by decide

theorem idle_getData : getData MPU.idle 0 = some MPU.idleTrack := by decide

/-- C7, counterexample. On the idle engine a second Channel Lock request on logical channel 3
hard locks physical channel 14 in addition to 15 and moves `chanMaps[3]` from 15 to 14. -/
theorem MPU_Control_lock_twice_reserves_two :
    (do
      let s1 ← MPU_Control MPU.idle 0 3 110 127
      let s2 ← MPU_Control s1 0 3 110 127
      pure (s1.lockStatus, (getData s1 0).map (fun d => rd d.chanMaps 3),
        s2.lockStatus, (getData s2 0).map (fun d => rd d.chanMaps 3))) =
    some ([0, 0, 0, 0, 0, 0, 0, 0, 0, 0, 0, 0, 0, 0, 0, 0x80], some 15,
      [0, 0, 0, 0, 0, 0, 0, 0, 0, 0, 0, 0, 0, 0, 0x80, 0x80], some 14) := by
  decide

/-- C7, amended. Two Channel Lock requests with values `>= 64` on the same logical channel `c`
both run the search of `MPU_281A`: every channel hard locked after the first request is still
hard locked after the second; when the second search finds no channel the lock table is
unchanged and `chanMaps[c]` is reset to `c`; otherwise one further channel `p`, not hard locked
after the first request, is hard locked, `chanMaps[c]` becomes `p`, no other lock entry changes,
and a channel that the first request had reserved for `c` stays hard locked and is no longer
the image of `c`. -/
theorem MPU_Control_lock_twice (s : MPU) (idx : Nat) (data : MSData) (c v1 v2 : Nat)
    (hd : getData s idx = some data) (hv1 : 64 ≤ v1) (hv2 : 64 ≤ v2) (hc : c < 16)
    (hl : s.lockStatus.length = 16) (hm : data.chanMaps.length = 16) :
    ∃ s1 s2 d1 d2, MPU_Control s idx c 110 v1 = some s1 ∧ MPU_Control s1 idx c 110 v2 = some s2 ∧
      getData s1 idx = some d1 ∧ getData s2 idx = some d2 ∧
      (∀ q, hardLocked s1 q → hardLocked s2 q) ∧
      ((MPU_281A_search s1 = 0xFF ∧ s2.lockStatus = s1.lockStatus ∧ rd d2.chanMaps c = c) ∨
       (∃ p < 16, ¬ hardLocked s1 p ∧ hardLocked s2 p ∧ rd d2.chanMaps c = p ∧
          (∀ q, q ≠ p → rd s2.lockStatus q = rd s1.lockStatus q) ∧
          (hardLocked s1 (rd d1.chanMaps c) →
            rd d2.chanMaps c ≠ rd d1.chanMaps c ∧ hardLocked s2 (rd d1.chanMaps c)))) := by
  obtain ⟨s1, d1, h1, hd1, hl1, hm1, _, _, _⟩ := MPU_Control_lock_step s idx data c v1 hd hv1 hc hl hm
  obtain ⟨s2, d2, h2, hd2, _, _, _, hkeep, hcase⟩ :=
    MPU_Control_lock_step s1 idx d1 c v2 hd1 hv2 hc hl1 hm1
  refine ⟨s1, s2, d1, d2, h1, h2, hd1, hd2, hkeep, ?_⟩
  rcases hcase with h | ⟨p, hp, _, hnl, hl2, hmap, hrest⟩
  · left; exact h
  · right
    refine ⟨p, hp, hnl, hl2, hmap, hrest, fun hold => ⟨?_, hkeep _ hold⟩⟩
    intro he
    rw [hmap] at he
    rw [← he] at hold
    exact hnl hold

/-- Witness of the amended C7 on the idle engine, logical channel 3. -/
theorem MPU_Control_lock_twice_witness :
    ∃ s1 s2 d1 d2, MPU_Control MPU.idle 0 3 110 127 = some s1 ∧
      MPU_Control s1 0 3 110 100 = some s2 ∧
      getData s1 0 = some d1 ∧ getData s2 0 = some d2 ∧
      (∀ q, hardLocked s1 q → hardLocked s2 q) ∧
      ((MPU_281A_search s1 = 0xFF ∧ s2.lockStatus = s1.lockStatus ∧ rd d2.chanMaps 3 = 3) ∨
       (∃ p < 16, ¬ hardLocked s1 p ∧ hardLocked s2 p ∧ rd d2.chanMaps 3 = p ∧
          (∀ q, q ≠ p → rd s2.lockStatus q = rd s1.lockStatus q) ∧
          (hardLocked s1 (rd d1.chanMaps 3) →
            rd d2.chanMaps 3 ≠ rd d1.chanMaps 3 ∧ hardLocked s2 (rd d1.chanMaps 3)))) :=
  MPU_Control_lock_twice MPU.idle 0 MPU.idleTrack 3 127 100 idle_getData (by decide) (by decide)
    (by decide) (by decide) (by decide)

/-- C8. Channel Lock on an idle device: when every physical channel has note count 0 and
neither lock nor protect bit and no track holds a note, a Channel Lock request with
`value >= 64` on logical channel `c` hard locks exactly one physical channel `p`, maps `c` to
`p`, leaves every other map entry, every other lock entry and every other track unchanged,
and sends nothing but a Sustain Off on `p` (no Note Off). -/
theorem MPU_Control_lock_on_idle_device (s : MPU) (idx : Nat) (data : MSData) (c v : Nat)
    (hd : getData s idx = some data) (hv : 64 ≤ v) (hc : c < 16)
    (hl : s.lockStatus.length = 16) (hm : data.chanMaps.length = 16)
    (hcnt : ∀ p < 16, rd s.noteOnCount p = 0)
    (hlock : ∀ p < 16, rd s.lockStatus p &&& 0xC0 = 0)
    (hsil : ∀ j d, getData s j = some d → ∀ k < 32, rd d.noteOnChans k = 0xFF) :
    ∃ s' d' p, p < 16 ∧ MPU_Control s idx c 110 v = some s' ∧ getData s' idx = some d' ∧
      (∀ q < 16, hardLocked s' q ↔ q = p) ∧
      (∀ q, q ≠ p → rd s'.lockStatus q = rd s.lockStatus q) ∧
      rd d'.chanMaps c = p ∧
      (∀ c', c' ≠ c → rd d'.chanMaps c' = rd data.chanMaps c') ∧
      (∀ j, j ≠ idx → getData s' j = getData s j) ∧
      s'.out = s.out ++ [Out.msg (0xB0 + p) 64 0] := by
  have hsearch : MPU_281A_search s = 15 := by
    rcases MPU_281A_search_cases s with ⟨_, h, _⟩ | ⟨h, _, _⟩ | ⟨h, _⟩
    · have := h 0 (by omega) (hlock 0 (by omega)); have := hcnt 0 (by omega); omega
    · have := h 0 (by omega) (hlock 0 (by omega)); have := hcnt 0 (by omega); omega
    · have h15 := h.2.2 15 (by omega) (hlock 15 (by omega))
      have := hcnt 15 (by omega)
      have := hcnt _ h.1
      have := h.1
      have := h15.2 (by omega)
      omega
  rw [MPU_Control_lock_eq s idx data c v hd hv]
  have hd0 := lockShadows_getData_same s idx data c v hd
  have hidle : MPU_FlushChannel (MPU_Send (MPU_Control_lockShadows s idx data c v) (0xB0 ||| 15) 64 0) 15
      = some (MPU_Send (MPU_Control_lockShadows s idx data c v) (0xB0 ||| 15) 64 0) := by
    refine MPU_FlushChannel_idle (MPU_Send (MPU_Control_lockShadows s idx data c v) (0xB0 ||| 15) 64 0) 15
      (Or.inr ⟨idx, Option.isSome_iff_exists.mpr ⟨_, hd0⟩⟩) ?_
    intro j d hj k hk
    change getData (MPU_Control_lockShadows s idx data c v) j = some d at hj
    by_cases hji : idx = j
    · subst hji
      rw [hd0] at hj
      have := hsil idx data hd k hk
      simp only [Option.some.injEq] at hj
      rw [← hj]
      show rd data.noteOnChans k ≠ 15
      omega
    · rw [lockShadows_getData_ne s idx j data c v hji] at hj
      have := hsil j d hj k hk
      omega
  have h281 : MPU_281A (MPU_Control_lockShadows s idx data c v) =
      some (15, { MPU_Send (MPU_Control_lockShadows s idx data c v) (0xB0 ||| 15) 64 0 with
        noteOnCount := wr s.noteOnCount 15 0
        lockStatus := wr s.lockStatus 15 (rd s.lockStatus 15 ||| 0x80) }) := by
    have hs0 := lockShadows_search s idx data c v
    unfold MPU_281A
    simp only [hs0, hsearch]
    simp only [show ¬ (15 = 255) by decide, if_false, hidle, Option.bind_eq_bind, Option.some_bind]
    rfl
  rw [h281]
  have hlt := getData_lt _ idx _ hd0
  simp only [Option.bind_eq_bind, Option.some_bind]
  have hd1 : getData { MPU_Send (MPU_Control_lockShadows s idx data c v) (0xB0 ||| 15) 64 0 with
        noteOnCount := wr s.noteOnCount 15 0
        lockStatus := wr s.lockStatus 15 (rd s.lockStatus 15 ||| 0x80) } idx = _ := hd0
  rw [hd1]
  simp only [Option.some_bind, show ¬ (15 = 255) by decide, if_false]
  refine ⟨_, _, 15, by omega, rfl, getData_setData_same _ idx _ hlt, ?_, ?_, ?_, ?_, ?_, ?_⟩
  · intro q hq
    show rd (wr s.lockStatus 15 _) q &&& 0x80 ≠ 0 ↔ q = 15
    constructor
    · intro h
      by_contra hne
      rw [rd_wr_ne _ _ _ _ (Ne.symm hne)] at h
      exact h (and_80_of_and_C0 _ (hlock q hq))
    · intro h
      subst h
      rw [rd_wr_same _ _ _ (by omega), Nat.and_distrib_right,
        and_80_of_and_C0 _ (hlock 15 (by omega))]
      decide
  · intro q hq
    exact rd_wr_ne _ _ _ _ (Ne.symm hq)
  · exact rd_wr_same _ _ _ (by show c < data.chanMaps.length; omega)
  · intro c' hc'
    exact rd_wr_ne _ _ _ _ (Ne.symm hc')
  · intro j hj
    rw [getData_setData_ne _ idx j _ (Ne.symm hj)]
    exact lockShadows_getData_ne s idx j data c v (Ne.symm hj)
  · rfl

/-- Witness of C8: Channel Lock with value 127 on logical channel 3 of the idle engine. -/
theorem MPU_Control_lock_on_idle_device_witness :
    ∃ s' d' p, p < 16 ∧ MPU_Control MPU.idle 0 3 110 127 = some s' ∧ getData s' 0 = some d' ∧
      (∀ q < 16, hardLocked s' q ↔ q = p) ∧
      (∀ q, q ≠ p → rd s'.lockStatus q = rd MPU.idle.lockStatus q) ∧
      rd d'.chanMaps 3 = p ∧
      (∀ c', c' ≠ 3 → rd d'.chanMaps c' = rd MPU.idleTrack.chanMaps c') ∧
      (∀ j, j ≠ 0 → getData s' j = getData MPU.idle j) ∧
      s'.out = MPU.idle.out ++ [Out.msg (0xB0 + p) 64 0] :=
  MPU_Control_lock_on_idle_device MPU.idle 0 MPU.idleTrack 3 127 idle_getData (by decide)
    (by decide) (by decide) (by decide) (by decide) (by decide)
    (by
      intro j d hj k hk
      have h8 : j < 8 := getData_lt MPU.idle j d hj
      have h := (show ∀ j < 8, ∀ k < 32,
        ((getData MPU.idle j).map (fun d => rd d.noteOnChans k)).getD 0xFF = 0xFF by decide) j h8 k hk
      rw [hj] at h
      exact h)

/-! ## Evaluations at concrete inputs -/

/-- C1, evaluation at the failing input. One track plays a note on channel 0 during a tick;
both sums are 1. `MPU_Stop` then sends the Note Off and sets the track count to 0 but leaves
`s_mpu_noteOnCount[0]` at 1, so the sums are 0 and 1. -/
theorem MPU_Stop_breaks_note_accounting :
    (do
      let s0 ← bootPlay [0x90, 0x40, 0x60, 0x05, 0x7F]
      let s1 ← MPU_Interrupt 8 s0
      let s2 ← MPU_Stop s1 0
      pure ((trackNoteSum s1, physNoteSum s1), (trackNoteSum s2, physNoteSum s2),
        s2.out.drop s0.out.length)) =
    some ((1, 1), (0, 1), [Out.msg 0x90 0x40 0x60, Out.msg 0x80 0x40 0]) := by
  decide

/-- C2, evaluation at the failing input. Two tracks are loaded; the track in slot 1 holds one
note on each channel. `MPU_281A` then returns channel 15, zeroes its counter and sends only the
Sustain Off: note slot 15 of the track in slot 1 still holds logical channel 15, mapped to
physical channel 15, and no Note Off was sent. -/
theorem MPU_281A_skips_second_track :
    (do
      let s0 ← bootPlay2 [0x7F] sixteenNotes
      let s1 ← MPU_Interrupt 32 s0
      let r ← MPU_281A s1
      let d ← getData r.2 1
      pure ([rd s1.noteOnCount 15, r.1, rd d.noteOnChans 15, rd d.chanMaps 15, d.noteOnCount,
        rd r.2.noteOnCount 15], r.2.out.drop s1.out.length)) =
    some ([1, 15, 15, 15, 16, 0], [Out.msg 0xBF 64 0]) := by
  decide

/-- C9, evaluation at the failing input. Channel Protect with value 127 on channel 3 sets bit
`0x40` of `s_mpu_lockStatus[3]`; Channel Protect with value 0 then stores 0 in both shadows and
leaves the bit set. -/
theorem MPU_Control_protect_not_cleared :
    (do
      let s1 ← MPU_Control MPU.idle 0 3 111 127
      let s2 ← MPU_Control s1 0 3 111 0
      pure (rd MPU.idle.lockStatus 3, rd s1.lockStatus 3, rd s2.lockStatus 3,
        (rdC s2.controls 3).chan_protect)) =
    some (0, 0x40, 0x40, 0) := by
  decide

/-- C10, counterexample. With the master volume of the track at 100 a channel volume change
to 64 on the unlocked channel 3 changes no state and sends nothing: the volume shadow of
channel 3 keeps the value 127 written by `MPU_Init`. -/
theorem MPU_Control_volume_dropped_at_100 :
    (do
      let s ← MPU_SetVolume MPU.idle 0 100 0
      let d ← getData s 0
      let s' ← MPU_Control s 0 3 7 64
      pure (d.variable_0024, decide (hardLocked s 3), decide (s' = s), (rdC s'.controls 3).volume,
        s'.out.drop s.out.length)) =
    some (100, false, true, 127, []) := by
  decide

theorem rdC_modC_same (l : List Controls) (i : Nat) (f : Controls → Controls) (h : i < l.length) :
    rdC (modC l i f) i = f (rdC l i) := by
  simp [rdC, modC, List.getD_eq_getElem?_getD, List.getElem?_set, h]

/-- C10, amended. A channel volume control change (CC 7) with value `v` on a logical channel
`c` that is not hard locked, on a track whose master volume `m` is not 100, stores
`min (m * v / 100) 127` in the volume shadow `s_mpu_controls[c].volume` and sends a CC 7 message
with that value on `chanMaps[c]`; when `m` is 100 the control change is ignored: the state is
unchanged and nothing is sent. -/
theorem MPU_Control_volume_scaling (s : MPU) (idx : Nat) (data : MSData) (c v : Nat)
    (hd : getData s idx = some data) (hl : ¬ hardLocked s c) (hc : c < 16)
    (hlen : s.controls.length = 16) (hmap : rd data.chanMaps c < 16) :
    ∃ s', MPU_Control s idx c 7 v = some s' ∧
      (data.variable_0024 ≠ 100 →
        (rdC s'.controls c).volume = min (data.variable_0024 * v / 100) 127 ∧
        s'.out = s.out ++
          [Out.msg (0xB0 + rd data.chanMaps c) 7 (min (data.variable_0024 * v / 100) 127)]) ∧
      (data.variable_0024 = 100 → s' = s) := by
  have hz : rd s.lockStatus c &&& 0x80 = 0 := by
    unfold hardLocked at hl
    simpa using hl
  rw [MPU_Control_eq s idx data c 7 v hd]
  simp only [show ¬ ((7 : Nat) = 1) by decide, if_false, if_true]
  refine ⟨_, rfl, ?_, ?_⟩
  · intro hm
    have hst := status_nibble 0xB0 (rd data.chanMaps c) hmap (by simp)
    have hle : min (data.variable_0024 * v / 100) 127 % 256 = min (data.variable_0024 * v / 100) 127 :=
      Nat.mod_eq_of_lt (by omega)
    simp only [MPU_Control_volume, if_neg hm, MPU_Control_send, hz, if_true, MPU_Send, hst, hle]
    exact ⟨by rw [rdC_modC_same _ _ _ (by omega)], trivial⟩
  · intro hm
    simp only [MPU_Control_volume, if_pos hm]

/-- Witness of the amended C10: master volume 90, value 64 on channel 3 of the idle engine. -/
theorem MPU_Control_volume_scaling_witness :
    ∃ s', MPU_Control MPU.idle 0 3 7 64 = some s' ∧
      (MPU.idleTrack.variable_0024 ≠ 100 →
        (rdC s'.controls 3).volume = min (MPU.idleTrack.variable_0024 * 64 / 100) 127 ∧
        s'.out = MPU.idle.out ++
          [Out.msg (0xB0 + rd MPU.idleTrack.chanMaps 3) 7
            (min (MPU.idleTrack.variable_0024 * 64 / 100) 127)]) ∧
      (MPU.idleTrack.variable_0024 = 100 → s' = MPU.idle) :=
  MPU_Control_volume_scaling MPU.idle 0 MPU.idleTrack 3 64 idle_getData (by decide) (by decide)
    (by decide) (by decide)

/-! ## The hard lock gate -/

theorem MPU_Control_send_locked (s : MPU) (data : MSData) (chan control value : Nat)
    (h : hardLocked s chan) : MPU_Control_send s data chan control value = s := by
  unfold MPU_Control_send
  rw [if_neg h]

/-- A controller other than 110 on a hard locked logical channel sends nothing. -/
theorem MPU_Control_silent (s : MPU) (idx : Nat) (data : MSData) (chan control value : Nat)
    (hd : getData s idx = some data) (hlock : hardLocked s chan)
    (hctl : control ∉ [110, 115, 118, 119]) :
    ∃ s', MPU_Control s idx chan control value = some s' ∧ s'.out = s.out := by
  simp only [List.mem_cons, List.mem_singleton, List.not_mem_nil, or_false, not_or] at hctl
  obtain ⟨h110, h115, h118, h119⟩ := hctl
  have hl : ¬ (rd s.lockStatus chan &&& 0x80 = 0) := hlock
  have hstore : ∀ f, (MPU_Control_store s idx data chan control value f).out = s.out := by
    intro f
    simp only [MPU_Control_store, MPU_Control_send, hl, if_false, setData]
  rw [MPU_Control_eq s idx data chan control value hd]
  by_cases h1 : control = 1
  · rw [if_pos h1]; exact ⟨_, rfl, hstore _⟩
  rw [if_neg h1]
  by_cases h7 : control = 7
  · rw [if_pos h7]
    refine ⟨_, rfl, ?_⟩
    unfold MPU_Control_volume
    by_cases hv : data.variable_0024 = 100
    · rw [if_pos hv]
    · rw [if_neg hv]; simp only [MPU_Control_send, hl, if_false]
  rw [if_neg h7]
  by_cases h10 : control = 10
  · rw [if_pos h10]; exact ⟨_, rfl, hstore _⟩
  rw [if_neg h10]
  by_cases h11 : control = 11
  · rw [if_pos h11]; exact ⟨_, rfl, hstore _⟩
  rw [if_neg h11]
  by_cases h64 : control = 64
  · rw [if_pos h64]; exact ⟨_, rfl, hstore _⟩
  rw [if_neg h64, if_neg h110]
  by_cases h111 : control = 111
  · rw [if_pos h111]
    refine ⟨_, rfl, ?_⟩
    unfold MPU_Control_protect
    by_cases hv : value ≥ 64
    · simp only [hv, if_true, setData]
    · simp only [hv, if_false, setData]
  rw [if_neg h111]
  by_cases h112 : control = 112
  · rw [if_pos h112]; exact ⟨_, rfl, hstore _⟩
  rw [if_neg h112]
  by_cases h114 : control = 114
  · rw [if_pos h114]; exact ⟨_, rfl, hstore _⟩
  rw [if_neg h114, if_neg h115]
  by_cases h116 : control = 116
  · rw [if_pos h116]; exact ⟨_, rfl, rfl⟩
  rw [if_neg h116]
  by_cases h117 : control = 117
  · rw [if_pos h117]
    by_cases hv : value < 64
    · rw [if_pos hv]; exact ⟨_, rfl, rfl⟩
    · rw [if_neg hv]; exact ⟨_, rfl, rfl⟩
  rw [if_neg h117, if_neg (not_or.mpr ⟨h118, h119⟩)]
  refine ⟨_, rfl, ?_⟩
  simp only [MPU_Control_send, hl, if_false]

/-- C3, counterexample. The track locks its logical channel 2: physical channel 15 is hard
locked and `chanMaps[2]` is 15. The next event of the same `MPU_Interrupt` pass, a note on
logical channel 2, sends a Note On with status `0x9F` while channel 15 is hard locked before
and after the event. -/
theorem MPU_Interrupt_note_on_to_hard_locked_channel :
    (do
      let s0 ← bootPlay [0xB2, 0x6E, 0x7F, 0x92, 0x40, 0x60, 0x05, 0x7F]
      let s1 ← MPU_Interrupt_event s0 0
      let s2 ← MPU_Interrupt_event s1 0
      let s3 ← MPU_Interrupt 8 s0
      pure (decide (hardLocked s1 15), s2.out.drop s1.out.length, decide (hardLocked s2 15),
        s3.out.drop s0.out.length)) =
    some (true, [Out.msg 0x9F 0x40 0x60], true, [Out.msg 0xBF 64 0, Out.msg 0x9F 0x40 0x60]) := by
  decide

/-- C3, amended. While bit 7 of `s_mpu_lockStatus[p]` is set, an event of `MPU_Interrupt` whose
logical channel (the low nibble of its status byte) is `p` sends nothing, for every track, when
it is a note, key pressure, program change, channel pressure or pitch bend event or a control
change of a controller other than the Channel Lock controller 110. -/
theorem MPU_Interrupt_event_silent_on_locked_channel (s : MPU) (idx : Nat) (data : MSData)
    (hd : getData s idx = some data)
    (hlock : hardLocked s (byteAt data.file data.sound &&& 0xF))
    (hvoice : byteAt data.file data.sound &&& 0xF0 ≠ 0xF0)
    (hctl : byteAt data.file data.sound &&& 0xF0 = 0xB0 →
      byteAt data.file (data.sound + 1) ∉ [110, 115, 118, 119]) :
    ∃ s', MPU_Interrupt_event s idx = some s' ∧ s'.out = s.out := by
  have hl : ¬ (rd s.lockStatus (byteAt data.file data.sound &&& 0xF) &&& 0x80 = 0) := hlock
  have hfin : ∀ r : MPU × Nat, r.1.out = s.out →
      ∃ s', (match getData r.1 idx with
        | none => some r.1
        | some data => some (setData r.1 idx { data with sound := data.sound + r.2 })) = some s' ∧
        s'.out = s.out := by
    intro r hr
    cases getData r.1 idx with
    | none => exact ⟨_, rfl, hr⟩
    | some d => exact ⟨_, rfl, hr⟩
  unfold MPU_Interrupt_event
  simp only [hd, Option.bind_eq_bind, Option.some_bind, hvoice, if_false]
  by_cases hE : byteAt data.file data.sound &&& 0xF0 = 0xE0
  · simp only [hE, if_true, MPU_Interrupt_forward, hl, if_false, Option.some_bind]
    exact hfin (_, 3) rfl
  by_cases hD : byteAt data.file data.sound &&& 0xF0 = 0xD0
  · simp only [hD, if_true, MPU_Interrupt_forward, hl, if_false, Option.some_bind,
      show ¬ ((208 : Nat) = 224) by decide]
    exact hfin (_, 2) rfl
  by_cases hC : byteAt data.file data.sound &&& 0xF0 = 0xC0
  · simp only [hC, if_true, MPU_Interrupt_forward, hl, if_false, Option.some_bind,
      show ¬ ((192 : Nat) = 224) by decide, show ¬ ((192 : Nat) = 208) by decide]
    exact hfin (_, 2) rfl
  by_cases hB : byteAt data.file data.sound &&& 0xF0 = 0xB0
  · obtain ⟨s1, hs1, hout⟩ := MPU_Control_silent s idx data _ _
      (byteAt data.file (data.sound + 2)) hd hlock (hctl hB)
    simp only [hB, if_true, hs1, Option.some_bind,
      show ¬ ((176 : Nat) = 224) by decide, show ¬ ((176 : Nat) = 208) by decide,
      show ¬ ((176 : Nat) = 192) by decide, if_false]
    exact hfin (s1, 3) hout
  by_cases hA : byteAt data.file data.sound &&& 0xF0 = 0xA0
  · simp only [hA, if_true, MPU_Interrupt_forward, hl, if_false, Option.some_bind,
      show ¬ ((160 : Nat) = 224) by decide, show ¬ ((160 : Nat) = 208) by decide,
      show ¬ ((160 : Nat) = 192) by decide, show ¬ ((160 : Nat) = 176) by decide]
    exact hfin (_, 3) rfl
  · simp only [hE, hD, hC, hB, hA, if_false]
    have hN : MPU_NoteOn s idx = some (s, (3 + (MPU_NoteOn_duration
        (data.file.drop (data.sound + 3)) 0 0).2) % 65536) := by
      unfold MPU_NoteOn
      simp only [hd, Option.bind_eq_bind, Option.some_bind]
      have hl' : rd s.lockStatus (byteAt data.file data.sound &&& 0xF) &&& 0x80 ≠ 0 := hlock
      rw [if_pos hl']
    rw [hN]
    exact hfin (s, _) rfl

theorem lockedDemo_run :
    (bootPlay [0xB2, 0x6E, 0x7F, 0x9F, 0x40, 0x60, 0x05, 0x7F]).bind
      (fun s => MPU_Interrupt_event s 0) = some MPU.lockedDemo := by
  decide

/-- Witness of the amended C3: a note event for logical channel 15 while physical channel 15 is
hard locked. -/
theorem MPU_Interrupt_event_silent_on_locked_channel_witness :
    hardLocked MPU.lockedDemo 15 ∧
    byteAt MPU.lockedDemoTrack.file MPU.lockedDemoTrack.sound = 0x9F ∧
    ∃ s', MPU_Interrupt_event MPU.lockedDemo 0 = some s' ∧ s'.out = MPU.lockedDemo.out :=
  ⟨by decide, by decide,
    MPU_Interrupt_event_silent_on_locked_channel MPU.lockedDemo 0 MPU.lockedDemoTrack
      (by decide) (by decide) (by decide) (by decide)⟩

/-! ## What the channel bookkeeping and the event loop touch -/

theorem map_proj {α β γ : Type} (f : α → β) (g : α → γ) (k : β → γ) (hk : ∀ a, k (f a) = g a)
    {o o' : Option α} (h : o'.map f = o.map f) : o'.map g = o.map g := by
  have hkf : k ∘ f = g := funext hk
  have := congrArg (Option.map k) h
  rw [Option.map_map, Option.map_map, hkf] at this
  exact this

theorem sansChannel_sansNotes (d : MSData) : d.sansNotes.sansChannel = d.sansChannel := rfl

theorem sansEvents_sansNotes (d : MSData) : d.sansNotes.sansEvents = d.sansEvents := rfl

theorem sansEvents_sansChannel (d : MSData) : d.sansChannel.sansEvents = d.sansEvents := rfl

theorem getData_congr {s t : MPU} (h : t.msdata = s.msdata) (i : Nat) :
    getData t i = getData s i := by
  simp [getData, h]

theorem othersFrame_refl (j : Nat) (s : MPU) : othersFrame j s s := ⟨rfl, rfl, fun _ _ => rfl⟩

theorem othersFrame_trans {j : Nat} {s t u : MPU} (h1 : othersFrame j s t)
    (h2 : othersFrame j t u) : othersFrame j s u :=
  ⟨h2.1.trans h1.1, h2.2.1.trans h1.2.1, fun i hi => (h2.2.2 i hi).trans (h1.2.2 i hi)⟩

theorem othersFrame_of_eq {j : Nat} {s t : MPU} (h1 : t.msdata = s.msdata)
    (h2 : t.msdataCurrent = s.msdataCurrent) : othersFrame j s t :=
  ⟨by rw [h1], h2, fun i _ => by rw [getData_congr h1]⟩

theorem othersFrame_setData (j : Nat) (s : MPU) (d : MSData) : othersFrame j s (setData s j d) :=
  ⟨by simp [setData], rfl, fun i hi => by rw [getData_setData_ne s j i d (Ne.symm hi)]⟩

theorem othersFrame_of_flushFrame {j : Nat} {s t : MPU} (h : flushFrame s t) :
    othersFrame j s t := by
  refine ⟨h.2.1, ?_, fun i _ => h.2.2.2 i⟩
  have := congrArg MPU.msdataCurrent h.1
  simpa [MPU.sansNotes] using this

theorem chanFrame_refl (j : Nat) (s : MPU) : chanFrame j s s := ⟨othersFrame_refl j s, rfl, rfl⟩

theorem chanFrame_trans {j : Nat} {s t u : MPU} (h1 : chanFrame j s t) (h2 : chanFrame j t u) :
    chanFrame j s u :=
  ⟨othersFrame_trans h1.1 h2.1, h2.2.1.trans h1.2.1, h2.2.2.trans h1.2.2⟩

theorem chanFrame_of_eq {j : Nat} {s t : MPU} (h1 : t.msdata = s.msdata)
    (h2 : t.msdataCurrent = s.msdataCurrent) (h3 : t.msdataSize = s.msdataSize) :
    chanFrame j s t :=
  ⟨othersFrame_of_eq h1 h2, h3, by rw [getData_congr h1]⟩

theorem chanFrame_of_flushFrame {j : Nat} {s t : MPU} (h : flushFrame s t) : chanFrame j s t :=
  ⟨othersFrame_of_flushFrame h, flushFrame_msdataSize h,
    map_proj MSData.sansNotes MSData.sansChannel MSData.sansChannel sansChannel_sansNotes
      (h.2.2.2 j)⟩

theorem chanFrame_setData (j : Nat) (s : MPU) (d d' : MSData) (hd : getData s j = some d)
    (h : d'.sansChannel = d.sansChannel) : chanFrame j s (setData s j d') := by
  refine ⟨othersFrame_setData j s d', rfl, ?_⟩
  rw [getData_setData_same s j d' (getData_lt s j d hd), hd]
  simp [h]

theorem chanFrame_getData {j : Nat} {s t : MPU} (h : chanFrame j s t) (d : MSData)
    (hd : getData s j = some d) :
    ∃ d', getData t j = some d' ∧ d'.sansChannel = d.sansChannel := by
  have := h.2.2
  rw [hd] at this
  cases ht : getData t j with
  | none => rw [ht] at this; simp at this
  | some d' => rw [ht] at this; simp at this; exact ⟨d', rfl, this⟩

theorem sansChannel_controls {d d' : MSData} (h : d'.sansChannel = d.sansChannel) :
    d'.controls = d.controls := by
  have := congrArg MSData.controls h
  simpa [MSData.sansChannel] using this

theorem sansChannel_delayedClear {d d' : MSData} (h : d'.sansChannel = d.sansChannel) :
    d'.delayedClear = d.delayedClear := by
  have := congrArg MSData.delayedClear h
  simpa [MSData.sansChannel] using this

theorem sansChannel_playing {d d' : MSData} (h : d'.sansChannel = d.sansChannel) :
    d'.playing = d.playing := by
  have := congrArg MSData.playing h
  simpa [MSData.sansChannel] using this

theorem eventFrame_refl (j : Nat) (s : MPU) (h : (getData s j).isSome) : eventFrame j s s :=
  ⟨othersFrame_refl j s, Or.inr ⟨rfl, h, rfl⟩⟩

theorem eventFrame_trans {j : Nat} {s t u : MPU} (h1 : eventFrame j s t)
    (ht : (getData t j).isSome) (h2 : eventFrame j t u) : eventFrame j s u := by
  refine ⟨othersFrame_trans h1.1 h2.1, ?_⟩
  rcases h1.2 with ⟨hn, _⟩ | ⟨hs1, _, he1⟩
  · rw [hn] at ht; simp at ht
  · rcases h2.2 with ⟨hn, hs2⟩ | ⟨hs2, hl2, he2⟩
    · exact Or.inl ⟨hn, by rw [hs2, hs1]⟩
    · exact Or.inr ⟨hs2.trans hs1, hl2, he2.trans he1⟩

theorem eventFrame_of_chanFrame {j : Nat} {s t : MPU} (h : chanFrame j s t)
    (hs : (getData s j).isSome) : eventFrame j s t := by
  obtain ⟨d, hd⟩ := Option.isSome_iff_exists.mp hs
  obtain ⟨d', hd', _⟩ := chanFrame_getData h d hd
  exact ⟨h.1, Or.inr ⟨h.2.1, by simp [hd'],
    map_proj MSData.sansChannel MSData.sansEvents MSData.sansEvents sansEvents_sansChannel h.2.2⟩⟩

theorem eventFrame_setData (j : Nat) (s : MPU) (d d' : MSData) (hd : getData s j = some d)
    (h : d'.sansEvents = d.sansEvents) : eventFrame j s (setData s j d') := by
  have hg := getData_setData_same s j d' (getData_lt s j d hd)
  refine ⟨othersFrame_setData j s d', Or.inr ⟨rfl, by simp [hg], ?_⟩⟩
  rw [hg, hd]
  simp [h]

theorem eventFrame_of_eq {j : Nat} {s t : MPU} (h1 : t.msdata = s.msdata)
    (h2 : t.msdataCurrent = s.msdataCurrent) (h3 : t.msdataSize = s.msdataSize)
    (hs : (getData s j).isSome) : eventFrame j s t :=
  eventFrame_of_chanFrame (chanFrame_of_eq h1 h2 h3) hs

/-! ## The release of a channel and the cleanup at the end of a track -/

theorem MPU_289D_fields (s : MPU) (p : Nat) :
    (MPU_289D s p).msdata = s.msdata ∧ (MPU_289D s p).msdataSize = s.msdataSize ∧
    (MPU_289D s p).msdataCurrent = s.msdataCurrent ∧
    (MPU_289D s p).lockStatus =
      (if rd s.lockStatus p &&& 0x80 = 0 then s.lockStatus
       else wr s.lockStatus p (rd s.lockStatus p &&& 0x7F)) := by
  unfold MPU_289D
  by_cases h : rd s.lockStatus p &&& 0x80 = 0
  · rw [if_pos h, if_pos h]; exact ⟨rfl, rfl, rfl, rfl⟩
  · rw [if_neg h, if_neg h]
    simp only [MPU_289D_replay_eq, MPU_Send]
    exact ⟨trivial, trivial, trivial, trivial⟩

theorem MPU_289D_chanFrame (j : Nat) (s : MPU) (p : Nat) : chanFrame j s (MPU_289D s p) :=
  chanFrame_of_eq (MPU_289D_fields s p).1 (MPU_289D_fields s p).2.2.1 (MPU_289D_fields s p).2.1

theorem MPU_289D_unlocks (s : MPU) (p : Nat) : ¬ hardLocked (MPU_289D s p) p := by
  unfold hardLocked
  rw [(MPU_289D_fields s p).2.2.2]
  by_cases h : rd s.lockStatus p &&& 0x80 = 0
  · rw [if_pos h]; exact not_not.mpr h
  · rw [if_neg h]
    have hp : p < s.lockStatus.length := by
      by_contra hc
      apply h
      have : rd s.lockStatus p = 0 := by
        simp [rd, List.getD_eq_getElem?_getD, List.getElem?_eq_none (Nat.le_of_not_lt hc)]
      rw [this]; rfl
    rw [rd_wr_same _ _ _ hp]
    exact not_not.mpr (and_7F_and_80 _)

theorem MPU_289D_locks_only_fewer (s : MPU) (p q : Nat) (h : hardLocked (MPU_289D s p) q) :
    hardLocked s q := by
  by_cases hq : q = p
  · subst hq; exact absurd h (MPU_289D_unlocks s q)
  · unfold hardLocked at h ⊢
    rw [(MPU_289D_fields s p).2.2.2] at h
    by_cases h0 : rd s.lockStatus p &&& 0x80 = 0
    · rw [if_pos h0] at h; exact h
    · rw [if_neg h0, rd_wr_ne _ _ _ _ (Ne.symm hq)] at h; exact h

/-- The unlock sequence `MPU_FlushChannel(chan); MPU_289D(data->chanMaps[chan]);
data->chanMaps[chan] = chan;` returns on a loaded slot, and this is what it leaves. -/
theorem unlock_result (s : MPU) (idx chan : Nat) (d : MSData) (hd : getData s idx = some d) :
    ∃ f d1, MPU_FlushChannel s chan = some f ∧ getData f idx = some d1 ∧
      d1.chanMaps = d.chanMaps ∧
      getData (MPU_289D f (rd d.chanMaps chan)) idx = some d1 ∧
      chanFrame idx s
        (setData (MPU_289D f (rd d.chanMaps chan)) idx
          { d1 with chanMaps := wr d1.chanMaps chan chan }) ∧
      (∀ q, hardLocked (MPU_289D f (rd d.chanMaps chan)) q → hardLocked s q) ∧
      d1.sansNotes = d.sansNotes := by
  obtain ⟨f, hf, hfr⟩ := MPU_FlushChannel_frame s chan
    (Or.inr ⟨idx, by simp [hd]⟩)
  obtain ⟨d1, hd1, hsn⟩ := flushFrame_getData hfr idx d hd
  have hg : getData (MPU_289D f (rd d.chanMaps chan)) idx = some d1 := by
    rw [getData_congr (MPU_289D_fields f _).1]; exact hd1
  refine ⟨f, d1, hf, hd1, sansNotes_chanMaps hsn, hg, ?_, ?_, hsn⟩
  · refine chanFrame_trans (chanFrame_of_flushFrame hfr)
      (chanFrame_trans (MPU_289D_chanFrame idx f _) (chanFrame_setData idx _ d1 _ hg rfl))
  · intro q hq
    have := MPU_289D_locks_only_fewer f _ q hq
    unfold hardLocked at this ⊢
    rw [flushFrame_lockStatus hfr] at this
    exact this

theorem hardLocked_congr {s t : MPU} (h : t.lockStatus = s.lockStatus) (q : Nat) :
    hardLocked t q ↔ hardLocked s q := by
  unfold hardLocked; rw [h]

theorem and_BF_and_80 (x : Nat) : (x &&& 0xBF) &&& 0x80 = x &&& 0x80 := by
  rw [Nat.land_assoc]; rfl

theorem hardLocked_clear_protect (s : MPU) (chan q : Nat)
    (h : hardLocked { s with lockStatus := wr s.lockStatus chan (rd s.lockStatus chan &&& 0xBF) } q) :
    hardLocked s q := by
  unfold hardLocked at h ⊢
  simp only at h
  by_cases hq : q = chan
  · subst hq
    by_cases hl : q < s.lockStatus.length
    · rw [rd_wr_same _ _ _ hl, and_BF_and_80] at h; exact h
    · have : wr s.lockStatus q (rd s.lockStatus q &&& 0xBF) = s.lockStatus := by
        simp [wr, List.set_eq_of_length_le (Nat.le_of_not_lt hl)]
      rw [this] at h; exact h
  · rw [rd_wr_ne _ _ _ _ (Ne.symm hq)] at h; exact h

/-- The part of the loop body of `MPU_16B7` that follows the unlock. -/
theorem MPU_16B7_chan_tail (idx : Nat) (s2 : MPU) (chan : Nat) (d2 : MSData)
    (hd2 : getData s2 idx = some d2) :
    ∃ t, ((getData s2 idx).bind fun data =>
        some
          (if (rdC data.controls chan).voice_protect ≠ 0xFF ∧ (rdC data.controls chan).voice_protect ≥ 64 then
            MPU_Send
              (if (rdC data.controls chan).chan_protect ≠ 0xFF ∧ (rdC data.controls chan).chan_protect ≥ 64 then
                { s2 with lockStatus := wr s2.lockStatus chan (rd s2.lockStatus chan &&& 0xBF) }
              else s2)
              (0xB0 ||| chan) 112 0
          else
            if (rdC data.controls chan).chan_protect ≠ 0xFF ∧ (rdC data.controls chan).chan_protect ≥ 64 then
              { s2 with lockStatus := wr s2.lockStatus chan (rd s2.lockStatus chan &&& 0xBF) }
            else s2)) = some t ∧
      t.msdata = s2.msdata ∧ t.msdataCurrent = s2.msdataCurrent ∧ t.msdataSize = s2.msdataSize ∧
      (∀ q, hardLocked t q → hardLocked s2 q) := by
  rw [hd2]
  refine ⟨_, rfl, ?_⟩
  by_cases ha : (rdC d2.controls chan).chan_protect ≠ 0xFF ∧ (rdC d2.controls chan).chan_protect ≥ 64 <;>
    by_cases hb : (rdC d2.controls chan).voice_protect ≠ 0xFF ∧ (rdC d2.controls chan).voice_protect ≥ 64
  · rw [if_pos hb, if_pos ha]
    exact ⟨rfl, rfl, rfl, fun q hq => hardLocked_clear_protect s2 chan q hq⟩
  · rw [if_neg hb, if_pos ha]
    exact ⟨rfl, rfl, rfl, fun q hq => hardLocked_clear_protect s2 chan q hq⟩
  · rw [if_pos hb, if_neg ha]
    exact ⟨rfl, rfl, rfl, fun q hq => hq⟩
  · rw [if_neg hb, if_neg ha]
    exact ⟨rfl, rfl, rfl, fun q hq => hq⟩

/-- The part of the loop body of `MPU_16B7` that follows the sustain release. -/
theorem MPU_16B7_chan_rest (idx : Nat) (s : MPU) (chan : Nat) (d : MSData)
    (hd : getData s idx = some d) :
    ∃ t d', (do
        let s ←
          if (rdC d.controls chan).chan_lock ≠ 0xFF ∧ (rdC d.controls chan).chan_lock ≥ 64 then do
            let s ← MPU_FlushChannel s chan
            let data ← getData s idx
            let s := MPU_289D s (rd data.chanMaps chan)
            let data ← getData s idx
            some (setData s idx { data with chanMaps := wr data.chanMaps chan chan })
          else some s
        let data ← getData s idx
        let s :=
          if (rdC data.controls chan).chan_protect ≠ 0xFF ∧ (rdC data.controls chan).chan_protect ≥ 64 then
            { s with lockStatus := wr s.lockStatus chan (rd s.lockStatus chan &&& 0xBF) }
          else s
        let s :=
          if (rdC data.controls chan).voice_protect ≠ 0xFF ∧ (rdC data.controls chan).voice_protect ≥ 64 then
            MPU_Send s (0xB0 ||| chan) 112 0
          else s
        some s) = some t ∧
      chanFrame idx s t ∧ getData t idx = some d' ∧ d'.controls = d.controls ∧
      d'.chanMaps =
        (if (rdC d.controls chan).chan_lock ≠ 0xFF ∧ (rdC d.controls chan).chan_lock ≥ 64 then
          wr d.chanMaps chan chan else d.chanMaps) ∧
      (∀ q, hardLocked t q → hardLocked s q) ∧
      ((rdC d.controls chan).chan_lock ≠ 0xFF ∧ (rdC d.controls chan).chan_lock ≥ 64 →
        ¬ hardLocked t (rd d.chanMaps chan)) := by
  simp only [Option.bind_eq_bind]
  by_cases hc : (rdC d.controls chan).chan_lock ≠ 0xFF ∧ (rdC d.controls chan).chan_lock ≥ 64
  · obtain ⟨f, d1, hf, hd1, hcm, hg, hfr, hlk, _⟩ := unlock_result s idx chan d hd
    have hlt := getData_lt _ idx _ hg
    obtain ⟨d1', hd1', hsc⟩ := chanFrame_getData hfr d hd
    have hgs := getData_setData_same (MPU_289D f (rd d.chanMaps chan)) idx
      { d1 with chanMaps := wr d1.chanMaps chan chan } hlt
    obtain ⟨t, he, hm, hcur, hsz, hl4⟩ := MPU_16B7_chan_tail idx _ chan _ hgs
    refine ⟨t, _, ?_, chanFrame_trans hfr (chanFrame_of_eq hm hcur hsz),
      (getData_congr hm idx).trans hgs, ?_, ?_, ?_, ?_⟩
    · rw [if_pos hc]
      simp only [hf, hd1, hcm, hg, Option.some_bind]
      simp only [hcm] at he
      exact he
    · rw [hgs] at hd1'
      have := sansChannel_controls hsc
      rw [← Option.some.inj hd1'] at this
      exact this
    · rw [if_pos hc, hcm]
    · intro q hq
      exact hlk q ((hardLocked_congr (by simp [setData]) q).mp (hl4 q hq))
    · intro _ hq
      exact MPU_289D_unlocks f _ ((hardLocked_congr (by simp [setData]) _).mp (hl4 _ hq))
  · obtain ⟨t, he, hm, hcur, hsz, hl4⟩ := MPU_16B7_chan_tail idx s chan d hd
    refine ⟨t, d, ?_, chanFrame_of_eq hm hcur hsz, (getData_congr hm idx).trans hd, rfl, ?_,
      hl4, fun h => absurd h hc⟩
    · rw [if_neg hc]
      simp only [Option.some_bind]
      exact he
    · rw [if_neg hc]

/-- The loop body of `MPU_16B7` on a loaded slot returns; it leaves the controller shadows of
the track, resets the map entry of a locked channel, and sets no lock bit. -/
theorem MPU_16B7_chan_spec (idx : Nat) (s : MPU) (chan : Nat) (d : MSData)
    (hd : getData s idx = some d) :
    ∃ t d', MPU_16B7_chan idx s chan = some t ∧ chanFrame idx s t ∧ getData t idx = some d' ∧
      d'.controls = d.controls ∧
      d'.chanMaps =
        (if (rdC d.controls chan).chan_lock ≠ 0xFF ∧ (rdC d.controls chan).chan_lock ≥ 64 then
          wr d.chanMaps chan chan else d.chanMaps) ∧
      (∀ q, hardLocked t q → hardLocked s q) ∧
      ((rdC d.controls chan).chan_lock ≠ 0xFF ∧ (rdC d.controls chan).chan_lock ≥ 64 →
        ¬ hardLocked t (rd d.chanMaps chan)) := by
  have h1 : ∃ s1, s1 = (if (rdC d.controls chan).sustain ≠ 0xFF ∧ (rdC d.controls chan).sustain ≥ 64 then
      MPU_Send { s with controls := modC s.controls chan (fun c => { c with sustain := 0 }) }
        (0xB0 ||| chan) 64 0
    else s) ∧ s1.msdata = s.msdata ∧ s1.msdataCurrent = s.msdataCurrent ∧
      s1.msdataSize = s.msdataSize ∧ s1.lockStatus = s.lockStatus := by
    refine ⟨_, rfl, ?_⟩
    by_cases hc : (rdC d.controls chan).sustain ≠ 0xFF ∧ (rdC d.controls chan).sustain ≥ 64
    · rw [if_pos hc]; exact ⟨rfl, rfl, rfl, rfl⟩
    · rw [if_neg hc]; exact ⟨rfl, rfl, rfl, rfl⟩
  obtain ⟨s1, hs1, hm, hcur, hsz, hls⟩ := h1
  have hd1 : getData s1 idx = some d := by rw [getData_congr hm]; exact hd
  obtain ⟨t, d', he, hfr, hd', hctl, hcm, hlk, hun⟩ := MPU_16B7_chan_rest idx s1 chan d hd1
  refine ⟨t, d', ?_, chanFrame_trans (chanFrame_of_eq hm hcur hsz) hfr, hd', hctl, hcm,
    fun q hq => (hardLocked_congr hls q).mp (hlk q hq), hun⟩
  unfold MPU_16B7_chan
  simp only [hd, Option.bind_eq_bind, Option.some_bind]
  rw [← hs1]
  exact he

theorem foldlM_range_invariant {σ : Type} (f : σ → Nat → Option σ) (P : Nat → σ → Prop)
    (n : Nat) (s : σ) (h0 : P 0 s)
    (hstep : ∀ k, k < n → ∀ a, P k a → ∃ b, f a k = some b ∧ P (k + 1) b) :
    ∃ t, (List.range n).foldlM f s = some t ∧ P n t := by
  induction n with
  | zero => exact ⟨s, rfl, h0⟩
  | succ n ih =>
    obtain ⟨t, ht, hp⟩ := ih (fun k hk => hstep k (Nat.lt_succ_of_lt hk))
    obtain ⟨b, hb, hpb⟩ := hstep n (Nat.lt_succ_self n) t hp
    refine ⟨b, ?_, hpb⟩
    rw [List.range_succ, List.foldlM_append, ht]
    simp [hb]

/-- `MPU_16B7` on a loaded slot returns.  It keeps the slot, the count of loaded tracks and
the controller shadows of the track; every logical channel whose Channel Lock shadow is
engaged is mapped to itself and the physical channel it was mapped to is not hard locked
afterwards; the other map entries are kept and no lock bit is set. -/
theorem MPU_16B7_spec (s : MPU) (idx : Nat) (d : MSData) (hd : getData s idx = some d) :
    ∃ t d', MPU_16B7 s idx = some t ∧ chanFrame idx s t ∧ getData t idx = some d' ∧
      d'.controls = d.controls ∧ d'.chanMaps.length = d.chanMaps.length ∧
      (∀ c, c < 16 → c < d.chanMaps.length → rd d'.chanMaps c =
        if (rdC d.controls c).chan_lock ≠ 0xFF ∧ (rdC d.controls c).chan_lock ≥ 64 then c
        else rd d.chanMaps c) ∧
      (∀ q, hardLocked t q → hardLocked s q) ∧
      (∀ c, c < 16 → ((rdC d.controls c).chan_lock ≠ 0xFF ∧ (rdC d.controls c).chan_lock ≥ 64) →
        ¬ hardLocked t (rd d.chanMaps c)) := by
  have h := foldlM_range_invariant (MPU_16B7_chan idx)
    (fun k a => chanFrame idx s a ∧ ∃ d', getData a idx = some d' ∧
      d'.controls = d.controls ∧ d'.chanMaps.length = d.chanMaps.length ∧
      (∀ c, c < k → c < d.chanMaps.length → rd d'.chanMaps c =
        if (rdC d.controls c).chan_lock ≠ 0xFF ∧ (rdC d.controls c).chan_lock ≥ 64 then c
        else rd d.chanMaps c) ∧
      (∀ c, k ≤ c → rd d'.chanMaps c = rd d.chanMaps c) ∧
      (∀ q, hardLocked a q → hardLocked s q) ∧
      (∀ c, c < k → ((rdC d.controls c).chan_lock ≠ 0xFF ∧ (rdC d.controls c).chan_lock ≥ 64) →
        ¬ hardLocked a (rd d.chanMaps c))) 16 s
    ⟨chanFrame_refl idx s, d, hd, rfl, rfl, fun c hc => absurd hc (Nat.not_lt_zero c),
      fun _ _ => rfl, fun _ hq => hq, fun c hc => absurd hc (Nat.not_lt_zero c)⟩
    (by
      intro k _ a ⟨hfr, d1, hd1, hctl, hlen, hlow, hhigh, hmono, hun⟩
      obtain ⟨t, d2, he, hfr2, hd2, hctl2, hcm2, hmono2, hun2⟩ := MPU_16B7_chan_spec idx a k d1 hd1
      rw [hctl] at hcm2 hun2
      refine ⟨t, he, chanFrame_trans hfr hfr2, d2, hd2, hctl2.trans hctl, ?_, ?_, ?_,
        fun q hq => hmono q (hmono2 q hq), ?_⟩
      · rw [hcm2]; split
        · rw [wr_length]; exact hlen
        · exact hlen
      · intro c hc hcl
        by_cases hck : c = k
        · subst hck
          rw [hcm2]
          by_cases hl : (rdC d.controls c).chan_lock ≠ 0xFF ∧ (rdC d.controls c).chan_lock ≥ 64
          · rw [if_pos hl, if_pos hl, rd_wr_same _ _ _ (by rw [hlen]; exact hcl)]
          · rw [if_neg hl, if_neg hl]; exact hhigh c (Nat.le_refl c)
        · have hlt : c < k := by omega
          rw [← hlow c hlt hcl, hcm2]
          split
          · exact rd_wr_ne _ _ _ _ (Ne.symm hck)
          · rfl
      · intro c hc
        rw [hcm2, ← hhigh c (by omega)]
        split
        · exact rd_wr_ne _ _ _ _ (by omega)
        · rfl
      · intro c hc hl
        by_cases hck : c = k
        · subst hck
          rw [← hhigh c (Nat.le_refl c)]
          exact hun2 hl
        · exact fun hq => hun c (by omega) hl (hmono2 _ hq))
  obtain ⟨t, ht, hfr, d', hd', hctl, hlen, hlow, _, hmono, hun⟩ := h
  exact ⟨t, d', ht, hfr, hd', hctl, hlen, hlow, hmono, hun⟩

/-! ## The deferred clear -/

/-- The end of track case of `MPU_XMIDIMeta` on the current track: the cleanup `MPU_16B7` runs
on the loaded slot, then the track is marked finished, and a requested clear empties the slot. -/
theorem MPU_XMIDIMeta_endOfTrack (s : MPU) (idx : Nat) (d : MSData) (hd : getData s idx = some d)
    (hty : byteAt d.file (d.sound + 1) = 0x2F) (hcur : s.msdataCurrent = idx) (hidx : idx < 8) :
    ∃ t d', MPU_16B7 s idx = some t ∧ chanFrame idx s t ∧ getData t idx = some d' ∧
      d'.sansChannel = d.sansChannel ∧
      MPU_XMIDIMeta s idx = some
        (if d.delayedClear then
          { t with msdata := t.msdata.set idx none, msdataSize := (t.msdataSize + 65535) % 65536 }
         else setData t idx { d' with playing := 2 },
         ((MPU_XMIDIMeta_len (d.file.drop (d.sound + 2)) 0 0).1 +
           (2 + (MPU_XMIDIMeta_len (d.file.drop (d.sound + 2)) 0 0).2) % 65536) % 65536) := by
  obtain ⟨t, d', ht, hfr, hd', _⟩ := MPU_16B7_spec s idx d hd
  obtain ⟨d'', hd'', hsc⟩ := chanFrame_getData hfr d hd
  rw [hd'] at hd''
  rw [← Option.some.inj hd''] at hsc
  refine ⟨t, d', ht, hfr, hd', hsc, ?_⟩
  have hdc := sansChannel_delayedClear hsc
  have hlt := getData_lt t idx d' hd'
  have hcur' : (setData t idx { d' with playing := 2 }).msdataCurrent = idx := by
    show t.msdataCurrent = idx
    rw [hfr.1.2.1]; exact hcur
  unfold MPU_XMIDIMeta
  simp only [hd, Option.bind_eq_bind, Option.some_bind, hty, if_true, ht, hd']
  by_cases hc : d.delayedClear = true
  · have hc' : d'.delayedClear = true := by rw [hdc]; exact hc
    rw [if_pos hc', if_pos hc, hcur']
    have h1 : ¬ idx = 0xFFFF := by omega
    have h2 : ¬ 8 ≤ idx := by omega
    unfold MPU_ClearData
    rw [if_neg h1, if_neg h2, getData_setData_same t idx _ hlt]
    simp [setData]
  · have hc' : ¬ d'.delayedClear = true := by rw [hdc]; exact hc
    rw [if_neg hc', if_neg hc]

/-- C15. Deferred clear.  `MPU_ClearData` on an occupied slot whose track is playing keeps
the slot occupied and the count of loaded tracks unchanged, and only sets `delayedClear`; on an
occupied slot whose track is not playing it empties the slot and decrements the count at once.
When the current track has a clear request pending and processes its end of track meta event
`FF 2F` in `MPU_Interrupt`, the cleanup `MPU_16B7` runs first, on the still occupied slot with
the count unchanged, and the event ends with that slot emptied and the count decremented. -/
theorem MPU_ClearData_deferred (s : MPU) (idx : Nat) (d : MSData) (hidx : idx < 8)
    (hd : getData s idx = some d) :
    (d.playing = 1 →
      MPU_ClearData s idx = some (setData s idx { d with delayedClear := true }) ∧
      getData (setData s idx { d with delayedClear := true }) idx =
        some { d with delayedClear := true } ∧
      (setData s idx { d with delayedClear := true }).msdataSize = s.msdataSize) ∧
    (d.playing ≠ 1 →
      ∃ t, MPU_ClearData s idx = some t ∧ getData t idx = none ∧
        t.msdataSize = (s.msdataSize + 65535) % 65536 ∧
        ∀ i, i ≠ idx → getData t i = getData s i) ∧
    (d.delayedClear = true → s.msdataCurrent = idx →
      byteAt d.file d.sound = 0xFF → byteAt d.file (d.sound + 1) = 0x2F →
      ∃ c u, MPU_16B7 s idx = some c ∧ (getData c idx).isSome ∧ c.msdataSize = s.msdataSize ∧
        MPU_Interrupt_event s idx = some u ∧
        u = { c with msdata := c.msdata.set idx none,
                     msdataSize := (c.msdataSize + 65535) % 65536 } ∧
        getData u idx = none ∧ u.msdataSize = (s.msdataSize + 65535) % 65536 ∧
        (0 < s.msdataSize → s.msdataSize < 65536 → u.msdataSize + 1 = s.msdataSize)) := by
  have hlt := getData_lt s idx d hd
  have h1 : ¬ idx = 0xFFFF := by omega
  have h2 : ¬ 8 ≤ idx := by omega
  refine ⟨fun hp => ⟨?_, getData_setData_same s idx _ hlt, rfl⟩, fun hp => ?_, ?_⟩
  · unfold MPU_ClearData
    rw [if_neg h1, if_neg h2, hd]
    simp only [if_pos hp]
  · refine ⟨{ s with msdata := s.msdata.set idx none
                     msdataSize := (s.msdataSize + 65535) % 65536 }, ?_, ?_, rfl, ?_⟩
    · unfold MPU_ClearData
      rw [if_neg h1, if_neg h2, hd]
      simp only [if_neg hp]
    · simp [getData, List.getD_eq_getElem?_getD, List.getElem?_set, hlt]
    · intro i hi
      simp [getData, List.getD_eq_getElem?_getD, List.getElem?_set, Ne.symm hi]
  · intro hdc hcur hst hty
    obtain ⟨c, d', hc, hfr, hd', _, hmeta⟩ := MPU_XMIDIMeta_endOfTrack s idx d hd hty hcur hidx
    have hltc := getData_lt c idx d' hd'
    have hnone : getData { c with msdata := c.msdata.set idx none
                                  msdataSize := (c.msdataSize + 65535) % 65536 } idx = none := by
      simp [getData, List.getD_eq_getElem?_getD, List.getElem?_set, hltc]
    refine ⟨c, { c with msdata := c.msdata.set idx none
                        msdataSize := (c.msdataSize + 65535) % 65536 },
      hc, by simp [hd'], hfr.2.1, ?_, rfl, hnone, ?_, ?_⟩
    · unfold MPU_Interrupt_event
      simp only [hd, Option.bind_eq_bind, Option.some_bind, hst, hmeta, if_pos hdc,
        show (0xFF : Nat) &&& 0xF0 = 0xF0 by decide, show (0xFF : Nat) &&& 0xF = 0xF by decide,
        if_true]
      rw [hnone]
    · show (c.msdataSize + 65535) % 65536 = _
      rw [hfr.2.1]
    · intro h0 h65
      show (c.msdataSize + 65535) % 65536 + 1 = _
      rw [hfr.2.1]
      omega

/-- Witness of C15: the idle engine, whose track in slot 0 is playing, and the same engine
with a clear request pending and the cursor of the track on an end of track event. -/
theorem MPU_ClearData_deferred_witness :
    getData MPU.clearDemo 0 = some MPU.clearDemoTrack ∧
    MPU.clearDemoTrack.playing = 1 ∧ MPU.clearDemoTrack.delayedClear = true ∧
    (∃ c u, MPU_16B7 MPU.clearDemo 0 = some c ∧ (getData c 0).isSome ∧
      c.msdataSize = MPU.clearDemo.msdataSize ∧
      MPU_Interrupt_event MPU.clearDemo 0 = some u ∧
      u = { c with msdata := c.msdata.set 0 none,
                   msdataSize := (c.msdataSize + 65535) % 65536 } ∧
      getData u 0 = none ∧ u.msdataSize = (MPU.clearDemo.msdataSize + 65535) % 65536 ∧
      (0 < MPU.clearDemo.msdataSize → MPU.clearDemo.msdataSize < 65536 →
        u.msdataSize + 1 = MPU.clearDemo.msdataSize)) :=
  ⟨by decide, by decide, by decide,
    (MPU_ClearData_deferred MPU.clearDemo 0 MPU.clearDemoTrack (by decide) (by decide)).2.2
      (by decide) (by decide) (by decide) (by decide)⟩

/-! ## What a control change touches -/

theorem modC_length (l : List Controls) (i : Nat) (f : Controls → Controls) :
    (modC l i f).length = l.length := by
  simp [modC]

theorem rdC_modC_ne (l : List Controls) (i j : Nat) (f : Controls → Controls) (h : i ≠ j) :
    rdC (modC l i f) j = rdC l j := by
  simp [rdC, modC, List.getD_eq_getElem?_getD, List.getElem?_set, h]

theorem rdC_modC_chan_lock (l : List Controls) (i : Nat) (f : Controls → Controls)
    (hf : ∀ x, (f x).chan_lock = x.chan_lock) :
    (rdC (modC l i f) i).chan_lock = (rdC l i).chan_lock := by
  by_cases h : i < l.length
  · rw [rdC_modC_same l i f h, hf]
  · have : modC l i f = l := by
      simp [modC, List.set_eq_of_length_le (Nat.le_of_not_lt h)]
    rw [this]

theorem sansNotes_controls {d d' : MSData} (h : d'.sansNotes = d.sansNotes) :
    d'.controls = d.controls := by
  have := congrArg MSData.controls h
  simpa [MSData.sansNotes] using this

theorem controlStep_controls (chan control value : Nat) (d d' : MSData) (f : Controls → Controls)
    (hc : control ≠ 110) (hf : ∀ x, (f x).chan_lock = x.chan_lock)
    (h1 : d'.chanMaps = d.chanMaps) (h2 : d'.controls = modC d.controls chan f) :
    controlStep chan control value d d' := by
  refine ⟨by rw [h1], by rw [h2, modC_length], fun c _ => by rw [h1],
    fun c hcc => by rw [h2, rdC_modC_ne _ _ _ _ (Ne.symm hcc)], Or.inr ⟨hc, by rw [h1], ?_⟩⟩
  rw [h2, rdC_modC_chan_lock _ _ _ hf]

theorem controlStep_same (chan control value : Nat) (d d' : MSData) (hc : control ≠ 110)
    (h1 : d'.chanMaps = d.chanMaps) (h2 : d'.controls = d.controls) :
    controlStep chan control value d d' :=
  ⟨by rw [h1], by rw [h2], fun c _ => by rw [h1], fun c _ => by rw [h2],
    Or.inr ⟨hc, by rw [h1], by rw [h2]⟩⟩

theorem MPU_Control_send_fields (s : MPU) (data : MSData) (chan control value : Nat) :
    (MPU_Control_send s data chan control value).msdata = s.msdata ∧
    (MPU_Control_send s data chan control value).msdataCurrent = s.msdataCurrent ∧
    (MPU_Control_send s data chan control value).msdataSize = s.msdataSize ∧
    (MPU_Control_send s data chan control value).lockStatus = s.lockStatus := by
  unfold MPU_Control_send
  split
  · exact ⟨rfl, rfl, rfl, rfl⟩
  · exact ⟨rfl, rfl, rfl, rfl⟩

/-- A store into slot `j` after a change of file scope variables other than the track table
keeps the event frame. -/
theorem eventFrame_store (j : Nat) (s x : MPU) (d d' : MSData) (hd : getData s j = some d)
    (h1 : x.msdata = s.msdata) (h2 : x.msdataCurrent = s.msdataCurrent)
    (h3 : x.msdataSize = s.msdataSize) (h : d'.sansEvents = d.sansEvents) :
    eventFrame j s (setData x j d') := by
  have hx : getData x j = some d := by rw [getData_congr h1]; exact hd
  exact eventFrame_trans (eventFrame_of_eq h1 h2 h3 (by simp [hd])) (by simp [hx])
    (eventFrame_setData j x d d' hx h)

theorem setData_msdataSize (s : MPU) (j : Nat) (d : MSData) :
    (setData s j d).msdataSize = s.msdataSize := rfl

theorem MPU_Control_store_spec (s : MPU) (idx : Nat) (d : MSData) (chan control value : Nat)
    (f : Controls → Controls) (hd : getData s idx = some d) (hc : control ≠ 110)
    (hf : ∀ x, (f x).chan_lock = x.chan_lock) :
    eventFrame idx s (MPU_Control_store s idx d chan control value f) ∧
    (MPU_Control_store s idx d chan control value f).msdataSize = s.msdataSize ∧
    ∃ d', getData (MPU_Control_store s idx d chan control value f) idx = some d' ∧
      controlStep chan control value d d' := by
  have hlt := getData_lt s idx d hd
  unfold MPU_Control_store
  simp only
  have hs := MPU_Control_send_fields { s with controls := modC s.controls chan f }
    { d with controls := modC d.controls chan f } chan control value
  refine ⟨eventFrame_store idx s _ d _ hd hs.1 hs.2.1 hs.2.2.1 rfl, ?_, _,
    getData_setData_same _ idx _ (by rw [hs.1]; exact hlt),
    controlStep_controls chan control value d _ f hc hf rfl rfl⟩
  rw [setData_msdataSize, hs.2.2.1]

theorem controlStep_lock (chan value p : Nat) (d d' : MSData)
    (h1 : d'.chanMaps = wr d.chanMaps chan p)
    (h2 : d'.controls = modC d.controls chan (fun c => { c with chan_lock := value }))
    (hp : value < 64 → p = chan) : controlStep chan 110 value d d' := by
  refine ⟨by rw [h1, wr_length], by rw [h2, modC_length],
    fun c hc => by rw [h1, rd_wr_ne _ _ _ _ (Ne.symm hc)],
    fun c hc => by rw [h2, rdC_modC_ne _ _ _ _ (Ne.symm hc)], Or.inl ⟨rfl, ?_, ?_⟩⟩
  · intro hl
    rw [h2, rdC_modC_same _ _ _ hl]
  · intro hv hl
    rw [h1, hp hv, rd_wr_same _ _ _ hl]

theorem lockShadows_eventFrame (s : MPU) (idx : Nat) (d : MSData) (chan value : Nat)
    (hd : getData s idx = some d) :
    eventFrame idx s (MPU_Control_lockShadows s idx d chan value) :=
  eventFrame_store idx s _ d _ hd rfl rfl rfl rfl

/-- Case 110 of `MPU_Control`. -/
theorem MPU_Control_lock_spec (s : MPU) (idx : Nat) (d : MSData) (chan value : Nat) (t : MPU)
    (hd : getData s idx = some d) (h : MPU_Control_lock s idx d chan value = some t) :
    eventFrame idx s t ∧ t.msdataSize = s.msdataSize ∧
    ∃ d', getData t idx = some d' ∧ controlStep chan 110 value d d' := by
  have hd1 := lockShadows_getData_same s idx d chan value hd
  have hfr1 := lockShadows_eventFrame s idx d chan value hd
  have hsome1 : (getData (MPU_Control_lockShadows s idx d chan value) idx).isSome := by
    simp [hd1]
  have hsz1 : (MPU_Control_lockShadows s idx d chan value).msdataSize = s.msdataSize := rfl
  unfold MPU_Control_lock at h
  simp only at h
  by_cases hv : value < 64
  · rw [if_pos hv] at h
    obtain ⟨f, d2, hf, hd2, hcm, hg, hfr, _, hsn⟩ :=
      unlock_result (MPU_Control_lockShadows s idx d chan value) idx chan _ hd1
    simp only [hf, hd2, hcm, hg, Option.bind_eq_bind, Option.some_bind] at h
    simp only [hcm] at hfr
    have ht := Option.some.inj h
    subst ht
    refine ⟨eventFrame_trans hfr1 hsome1 (eventFrame_of_chanFrame hfr hsome1), ?_, _,
      getData_setData_same _ idx _ (getData_lt _ idx _ hg), ?_⟩
    · rw [hfr.2.1, hsz1]
    · exact controlStep_lock chan value chan d _ rfl (sansNotes_controls hsn) (fun _ => rfl)
  · rw [if_neg hv] at h
    obtain ⟨s', hr, h0, h1⟩ := MPU_281A_result (MPU_Control_lockShadows s idx d chan value)
      (Or.inr ⟨idx, hsome1⟩)
    have hs' : chanFrame idx (MPU_Control_lockShadows s idx d chan value) s' ∧
        ∃ d2, getData s' idx = some d2 ∧ d2.chanMaps = d.chanMaps ∧
          d2.controls = modC d.controls chan (fun c => { c with chan_lock := value }) := by
      by_cases hff : MPU_281A_search (MPU_Control_lockShadows s idx d chan value) = 0xFF
      · rw [h0 hff]
        exact ⟨chanFrame_refl idx _, _, hd1, rfl, rfl⟩
      · obtain ⟨u, _, hfu, hs'⟩ := h1 hff
        have hgu : getData (MPU_Send (MPU_Control_lockShadows s idx d chan value)
            (0xB0 ||| MPU_281A_search (MPU_Control_lockShadows s idx d chan value)) 64 0) idx =
            some _ := hd1
        obtain ⟨d2, hd2, hsn⟩ := flushFrame_getData hfu idx _ hgu
        have e1 := sansNotes_chanMaps hsn
        have e2 := sansNotes_controls hsn
        rw [hs']
        refine ⟨chanFrame_trans (chanFrame_trans (chanFrame_of_eq rfl rfl rfl)
          (chanFrame_of_flushFrame hfu)) (chanFrame_of_eq rfl rfl rfl), d2, ?_, e1, e2⟩
        rw [← hd2]
        exact getData_congr rfl idx
    obtain ⟨hfr, d2, hd2, hcm2, hctl2⟩ := hs'
    simp only [hr, hd2, Option.bind_eq_bind, Option.some_bind] at h
    have ht := Option.some.inj h
    subst ht
    refine ⟨eventFrame_trans hfr1 hsome1 (eventFrame_of_chanFrame
      (chanFrame_trans hfr (chanFrame_setData idx s' d2 _ hd2 rfl)) hsome1), ?_, _,
      getData_setData_same _ idx _ (getData_lt _ idx _ hd2), ?_⟩
    · rw [setData_msdataSize, hfr.2.1, hsz1]
    · exact controlStep_lock chan value _ d _ (by rw [← hcm2]) hctl2 (fun hlt => absurd hlt hv)

/-- A control change of the track in slot `idx` that returns keeps the slot and the count of
loaded tracks, touches the other tracks only in their note tables, and changes the channel
map and the Channel Lock shadows of its track as `controlStep` says. -/
theorem MPU_Control_spec (s : MPU) (idx chan control value : Nat) (t : MPU) (d : MSData)
    (hd : getData s idx = some d) (h : MPU_Control s idx chan control value = some t) :
    eventFrame idx s t ∧ t.msdataSize = s.msdataSize ∧
    ∃ d', getData t idx = some d' ∧ controlStep chan control value d d' := by
  have hlt := getData_lt s idx d hd
  have hsome : (getData s idx).isSome := by simp [hd]
  have hstore : ∀ f : Controls → Controls,
      some (MPU_Control_store s idx d chan control value f) = some t → control ≠ 110 →
      (∀ x, (f x).chan_lock = x.chan_lock) →
      eventFrame idx s t ∧ t.msdataSize = s.msdataSize ∧
      ∃ d', getData t idx = some d' ∧ controlStep chan control value d d' := by
    intro f he hc hf
    have ht := Option.some.inj he
    subst ht
    exact MPU_Control_store_spec s idx d chan control value f hd hc hf
  have hsame : ∀ x : MPU, control ≠ 110 → x.msdata = s.msdata →
      x.msdataCurrent = s.msdataCurrent → x.msdataSize = s.msdataSize →
      eventFrame idx s x ∧ x.msdataSize = s.msdataSize ∧
      ∃ d', getData x idx = some d' ∧ controlStep chan control value d d' := by
    intro x hc h1 h2 h3
    exact ⟨eventFrame_of_eq h1 h2 h3 hsome, h3, d, by rw [getData_congr h1]; exact hd,
      controlStep_same chan control value d d hc rfl rfl⟩
  rw [MPU_Control_eq s idx d chan control value hd] at h
  by_cases h1 : control = 1
  · rw [if_pos h1] at h; exact hstore _ h (by omega) (fun _ => rfl)
  rw [if_neg h1] at h
  by_cases h7 : control = 7
  · rw [if_pos h7] at h
    have ht := Option.some.inj h
    subst ht
    apply hsame _ (by omega)
    · unfold MPU_Control_volume; split
      · rfl
      · exact (MPU_Control_send_fields _ _ _ _ _).1
    · unfold MPU_Control_volume; split
      · rfl
      · exact (MPU_Control_send_fields _ _ _ _ _).2.1
    · unfold MPU_Control_volume; split
      · rfl
      · exact (MPU_Control_send_fields _ _ _ _ _).2.2.1
  rw [if_neg h7] at h
  by_cases h10 : control = 10
  · rw [if_pos h10] at h; exact hstore _ h (by omega) (fun _ => rfl)
  rw [if_neg h10] at h
  by_cases h11 : control = 11
  · rw [if_pos h11] at h; exact hstore _ h (by omega) (fun _ => rfl)
  rw [if_neg h11] at h
  by_cases h64 : control = 64
  · rw [if_pos h64] at h; exact hstore _ h (by omega) (fun _ => rfl)
  rw [if_neg h64] at h
  by_cases h110 : control = 110
  · rw [if_pos h110] at h
    subst h110
    exact MPU_Control_lock_spec s idx d chan value t hd h
  rw [if_neg h110] at h
  by_cases h111 : control = 111
  · rw [if_pos h111] at h
    have ht := Option.some.inj h
    subst ht
    unfold MPU_Control_protect
    simp only
    have hx : ∃ x : MPU, x = (if value ≥ 64 then
        { ({ s with controls := modC s.controls chan (fun c => { c with chan_protect := value }) } : MPU)
          with lockStatus := wr s.lockStatus chan (rd s.lockStatus chan ||| 0x40) }
        else { s with controls := modC s.controls chan (fun c => { c with chan_protect := value }) }) ∧
        x.msdata = s.msdata ∧ x.msdataCurrent = s.msdataCurrent ∧ x.msdataSize = s.msdataSize := by
      refine ⟨_, rfl, ?_⟩
      split
      · exact ⟨rfl, rfl, rfl⟩
      · exact ⟨rfl, rfl, rfl⟩
    obtain ⟨x, hxe, hx1, hx2, hx3⟩ := hx
    rw [← hxe]
    refine ⟨eventFrame_store idx s x d _ hd hx1 hx2 hx3 rfl, ?_, _,
      getData_setData_same _ idx _ (by rw [hx1]; exact hlt),
      controlStep_controls chan control value d _ (fun c => { c with chan_protect := value })
        h110 (fun _ => rfl) rfl rfl⟩
    rw [setData_msdataSize, hx3]
  rw [if_neg h111] at h
  by_cases h112 : control = 112
  · rw [if_pos h112] at h; exact hstore _ h (by omega) (fun _ => rfl)
  rw [if_neg h112] at h
  by_cases h114 : control = 114
  · rw [if_pos h114] at h; exact hstore _ h (by omega) (fun _ => rfl)
  rw [if_neg h114] at h
  by_cases h115 : control = 115
  · rw [if_pos h115] at h; exact absurd h (by simp)
  rw [if_neg h115] at h
  by_cases h116 : control = 116
  · rw [if_pos h116] at h
    have ht := Option.some.inj h
    subst ht
    have hfl : (MPU_Control_forLoop d value).sansEvents = d.sansEvents ∧
        (MPU_Control_forLoop d value).chanMaps = d.chanMaps ∧
        (MPU_Control_forLoop d value).controls = d.controls := by
      unfold MPU_Control_forLoop
      split
      · exact ⟨rfl, rfl, rfl⟩
      · exact ⟨rfl, rfl, rfl⟩
    exact ⟨eventFrame_setData idx s d _ hd hfl.1, rfl, _, getData_setData_same s idx _ hlt,
      controlStep_same chan control value d _ h110 hfl.2.1 hfl.2.2⟩
  rw [if_neg h116] at h
  by_cases h117 : control = 117
  · rw [if_pos h117] at h
    by_cases hv : value < 64
    · rw [if_pos hv] at h
      have ht := Option.some.inj h
      subst ht
      exact hsame _ h110 rfl rfl rfl
    · rw [if_neg hv] at h
      have ht := Option.some.inj h
      subst ht
      have hnl : (MPU_Control_nextLoop d).sansEvents = d.sansEvents ∧
          (MPU_Control_nextLoop d).chanMaps = d.chanMaps ∧
          (MPU_Control_nextLoop d).controls = d.controls := by
        unfold MPU_Control_nextLoop
        split
        · exact ⟨rfl, rfl, rfl⟩
        · simp only
          split
          · exact ⟨rfl, rfl, rfl⟩
          · split
            · exact ⟨rfl, rfl, rfl⟩
            · exact ⟨rfl, rfl, rfl⟩
      exact ⟨eventFrame_setData idx s d _ hd hnl.1, rfl, _, getData_setData_same s idx _ hlt,
        controlStep_same chan control value d _ h110 hnl.2.1 hnl.2.2⟩
  rw [if_neg h117] at h
  by_cases h118 : control = 118 ∨ control = 119
  · rw [if_pos h118] at h; exact absurd h (by simp)
  rw [if_neg h118] at h
  have ht := Option.some.inj h
  subst ht
  exact hsame _ h110 (MPU_Control_send_fields _ _ _ _ _).1 (MPU_Control_send_fields _ _ _ _ _).2.1
    (MPU_Control_send_fields _ _ _ _ _).2.2.1

/-! ## The end of track cleanup restores the channel map -/

theorem lockConsistent_controlStep (chan control value : Nat) (d d' : MSData)
    (hv : value ≤ 127) (h : lockConsistent d) (hs : controlStep chan control value d d') :
    lockConsistent d' := by
  obtain ⟨h1, h2, h3⟩ := h
  obtain ⟨s1, s2, s3, s4, s5⟩ := hs
  refine ⟨s1.trans h1, s2.trans h2, ?_⟩
  intro c hc hne
  by_cases hcc : c = chan
  · subst hcc
    rcases s5 with ⟨_, hlock, hself⟩ | ⟨_, hm, hl⟩
    · have hv64 : ¬ value < 64 := fun hlt => hne (hself hlt (by omega))
      rw [hlock (by omega)]
      exact ⟨by omega, by omega⟩
    · rw [hl]
      rw [hm] at hne
      exact h3 c hc hne
  · rw [s4 c hcc]
    rw [s3 c hcc] at hne
    exact h3 c hc hne

theorem lockConsistent_of_sansNotes (d d' : MSData) (h : d'.sansNotes = d.sansNotes)
    (hl : lockConsistent d) : lockConsistent d' := by
  unfold lockConsistent at hl ⊢
  rw [sansNotes_chanMaps h, sansNotes_controls h]
  exact hl

theorem rd_range (n c : Nat) (h : c < n) : rd (List.range n) c = c := by
  simp [rd, List.getD_eq_getElem?_getD, List.getElem?_range h]

theorem MPU_Play_lockConsistent (s t : MPU) (idx : Nat) (hne : idx ≠ 0xFFFF)
    (h : MPU_Play s idx = some t) : ∃ d, getData t idx = some d ∧ lockConsistent d := by
  have key : ∀ y : MPU, ((getData y idx).bind fun data => some (setData y idx
      { MPU_InitData data with sound := (MPU_InitData data).EVNT + 8, playing := 1 })) = some t →
      ∃ d, getData t idx = some d ∧ lockConsistent d := by
    intro y h
    obtain ⟨data', hd', h⟩ := Option.bind_eq_some.mp h
    have ht := Option.some.inj h
    subst ht
    refine ⟨_, getData_setData_same y idx _ (getData_lt y idx data' hd'), ?_⟩
    refine ⟨by simp [MPU_InitData], by simp [MPU_InitData], ?_⟩
    intro c hc hne
    exact absurd (rd_range 16 c hc) hne
  unfold MPU_Play at h
  rw [if_neg hne] at h
  simp only [Option.bind_eq_bind] at h
  obtain ⟨data, _, h⟩ := Option.bind_eq_some.mp h
  split at h
  · obtain ⟨y, _, h⟩ := Option.bind_eq_some.mp h
    exact key y h
  · obtain ⟨y, _, h⟩ := Option.bind_eq_some.mp h
    exact key y h

/-- In a control reachable state the track is loaded and its channel map agrees with its
Channel Lock shadows. -/
theorem ControlReachable_lockConsistent (idx : Nat) (s : MPU) (h : ControlReachable idx s) :
    ∃ d, getData s idx = some d ∧ lockConsistent d := by
  induction h with
  | play s t hne hp => exact MPU_Play_lockConsistent s t idx hne hp
  | control s t chan control value _ hv hc ih =>
    obtain ⟨d, hd, hl⟩ := ih
    obtain ⟨_, _, d', hd', hstep⟩ := MPU_Control_spec s idx chan control value t d hd hc
    exact ⟨d', hd', lockConsistent_controlStep chan control value d d' hv hl hstep⟩
  | other s t j chan control value _ hj hc ih =>
    obtain ⟨d, hd, hl⟩ := ih
    cases hdj : getData s j with
    | none =>
      unfold MPU_Control at hc
      rw [hdj] at hc
      exact absurd hc (by simp)
    | some dj =>
      obtain ⟨hfr, _⟩ := MPU_Control_spec s j chan control value t dj hdj hc
      have := hfr.1.2.2 idx (Ne.symm hj)
      rw [hd] at this
      cases ht : getData t idx with
      | none => rw [ht] at this; simp at this
      | some d' =>
        rw [ht] at this
        simp at this
        exact ⟨d', rfl, lockConsistent_of_sansNotes d d' this hl⟩

/-- C17. End of track cleanup restores the mapping.  In every state reachable from `MPU_Play`
of the track through control changes whose data values on that track are 0..127, `MPU_16B7`
on the track returns, afterwards every logical channel `c < 16` of the track has
`chanMaps[c] = c`, and every physical channel that was the image `chanMaps[c]` of a channel
with `chanMaps[c] ≠ c` right before the cleanup is not hard locked. -/
theorem MPU_16B7_restores_mapping (idx : Nat) (s : MPU) (h : ControlReachable idx s) :
    ∃ d t d', getData s idx = some d ∧ MPU_16B7 s idx = some t ∧ getData t idx = some d' ∧
      (∀ c, c < 16 → rd d'.chanMaps c = c) ∧
      (∀ c, c < 16 → rd d.chanMaps c ≠ c → ¬ hardLocked t (rd d.chanMaps c)) := by
  obtain ⟨d, hd, hlen, _, hinv⟩ := ControlReachable_lockConsistent idx s h
  obtain ⟨t, d', ht, _, hd', _, _, hmap, _, hun⟩ := MPU_16B7_spec s idx d hd
  refine ⟨d, t, d', hd, ht, hd', ?_, fun c hc hne => hun c hc (hinv c hc hne)⟩
  intro c hc
  rw [hmap c hc (by omega)]
  by_cases hl : (rdC d.controls c).chan_lock ≠ 0xFF ∧ (rdC d.controls c).chan_lock ≥ 64
  · rw [if_pos hl]
  · rw [if_neg hl]
    by_contra hne
    exact hl (hinv c hc hne)

/-- Witness of C17: the idle engine after its track has locked logical channel 3, which is
then mapped to the hard locked physical channel 15. -/
theorem MPU_16B7_restores_mapping_witness :
    ControlReachable 0 MPU.mapDemo ∧
    ((getData MPU.mapDemo 0).map (fun d => rd d.chanMaps 3)) = some 15 ∧
    hardLocked MPU.mapDemo 15 ∧
    ∃ d t d', getData MPU.mapDemo 0 = some d ∧ MPU_16B7 MPU.mapDemo 0 = some t ∧
      getData t 0 = some d' ∧ (∀ c, c < 16 → rd d'.chanMaps c = c) ∧
      (∀ c, c < 16 → rd d.chanMaps c ≠ c → ¬ hardLocked t (rd d.chanMaps c)) :=
  ⟨ControlReachable.control MPU.idle MPU.mapDemo 3 110 127
      (ControlReachable.play MPU.loadedDemo MPU.idle (by decide) (by decide)) (by decide)
      (by decide),
    by decide, by decide,
    MPU_16B7_restores_mapping 0 MPU.mapDemo
      (ControlReachable.control MPU.idle MPU.mapDemo 3 110 127
        (ControlReachable.play MPU.loadedDemo MPU.idle (by decide) (by decide)) (by decide)
        (by decide))⟩

/-! ## Variable length quantities -/

theorem vlq_byte_cont : ∀ g < 128, (g + 128) % 256 &&& 0x7F = g ∧ (g + 128) % 256 &&& 0x80 ≠ 0 := by
  decide

theorem vlq_byte_last : ∀ g < 128, g % 256 &&& 0x7F = g ∧ g % 256 &&& 0x80 = 0 := by
  decide

theorem mul128_or (a g : Nat) (hg : g < 128) : 128 * a ||| g = 128 * a + g :=
  (Nat.mul_add_lt_is_or (i := 7) hg a).symm

theorem div_mod_128 (m : Nat) : 128 * (m / 128) + m % 128 = m := Nat.div_add_mod m 128

/-- The duration loop of `MPU_NoteOn` on the continuation bytes of `m`. -/
theorem MPU_NoteOn_duration_groups (k : Nat) :
    ∀ (m c : Nat) (t : List Nat), m ≤ k → 128 * m < 4294967296 →
      MPU_NoteOn_duration (vlqPrefix k m ++ t) 0 c =
        MPU_NoteOn_duration t (128 * m) (c + (vlqPrefix k m).length) := by
  induction k with
  | zero =>
    intro m c t hm _
    have : m = 0 := by omega
    subst this
    simp [vlqPrefix]
  | succ k ih =>
    intro m c t hm hb
    by_cases h0 : m = 0
    · subst h0; simp [vlqPrefix]
    · have hg : m % 128 < 128 := Nat.mod_lt _ (by omega)
      have hdiv : m / 128 ≤ k := by omega
      have hc := vlq_byte_cont (m % 128) hg
      simp only [vlqPrefix, if_neg h0, List.append_assoc, List.length_append, List.length_singleton]
      rw [ih (m / 128) c _ hdiv (by omega)]
      simp only [List.singleton_append, MPU_NoteOn_duration, hc.1, if_neg hc.2]
      rw [mul128_or _ _ hg, div_mod_128, Nat.shiftLeft_eq, Nat.mod_eq_of_lt (by omega)]
      congr 1
      omega

/-- The length loop of `MPU_XMIDIMeta` on the continuation bytes of `m`. -/
theorem MPU_XMIDIMeta_len_groups (k : Nat) :
    ∀ (m c : Nat) (t : List Nat), m ≤ k → 128 * m < 65536 →
      MPU_XMIDIMeta_len (vlqPrefix k m ++ t) 0 c =
        MPU_XMIDIMeta_len t (128 * m) (c + (vlqPrefix k m).length) := by
  induction k with
  | zero =>
    intro m c t hm _
    have : m = 0 := by omega
    subst this
    simp [vlqPrefix]
  | succ k ih =>
    intro m c t hm hb
    by_cases h0 : m = 0
    · subst h0; simp [vlqPrefix]
    · have hg : m % 128 < 128 := Nat.mod_lt _ (by omega)
      have hdiv : m / 128 ≤ k := by omega
      have hc := vlq_byte_cont (m % 128) hg
      simp only [vlqPrefix, if_neg h0, List.append_assoc, List.length_append, List.length_singleton]
      rw [ih (m / 128) c _ hdiv (by omega)]
      simp only [List.singleton_append, MPU_XMIDIMeta_len, hc.1, if_neg hc.2]
      rw [mul128_or _ _ hg, div_mod_128, Nat.shiftLeft_eq, Nat.mod_eq_of_lt (by omega)]
      congr 1
      omega

/-- The size loop of the System Exclusive case on the continuation bytes of `m`. -/
theorem MPU_Interrupt_sysexLen_groups (k : Nat) :
    ∀ (m i : Nat) (t : List Nat), m ≤ k → m < 65536 →
      MPU_Interrupt_sysexLen (vlqPrefix k m ++ t) 0 i =
        MPU_Interrupt_sysexLen t m (i + (vlqPrefix k m).length) := by
  induction k with
  | zero =>
    intro m i t hm _
    have : m = 0 := by omega
    subst this
    simp [vlqPrefix]
  | succ k ih =>
    intro m i t hm hb
    by_cases h0 : m = 0
    · subst h0; simp [vlqPrefix]
    · have hg : m % 128 < 128 := Nat.mod_lt _ (by omega)
      have hdiv : m / 128 ≤ k := by omega
      have hc := vlq_byte_cont (m % 128) hg
      simp only [vlqPrefix, if_neg h0, List.append_assoc, List.length_append, List.length_singleton]
      rw [ih (m / 128) i _ hdiv (by omega)]
      simp only [List.singleton_append, MPU_Interrupt_sysexLen, hc.1, if_pos hc.2]
      rw [Nat.shiftLeft_eq, show m / 128 * 2 ^ 7 = 128 * (m / 128) by omega, mul128_or _ _ hg,
        div_mod_128, Nat.mod_eq_of_lt hb]
      congr 1

/-- C13. Round trip of the variable length quantity: on the canonical encoding of `n`
followed by any bytes, the duration decoder of `MPU_NoteOn` yields `n` for `n < 2^28`, and the
length decoder of `MPU_XMIDIMeta` and the size decoder of the System Exclusive case of
`MPU_Interrupt` yield `n` for `n < 2^16`; each reads exactly the bytes of the encoding (the
System Exclusive decoder starts its index at 1). -/
theorem vlq_round_trip (n : Nat) (rest : List Nat) :
    (n < 2 ^ 28 → MPU_NoteOn_duration (vlqEncode n ++ rest) 0 0 = (n, (vlqEncode n).length)) ∧
    (n < 2 ^ 16 →
      MPU_XMIDIMeta_len (vlqEncode n ++ rest) 0 0 = (n, (vlqEncode n).length) ∧
      MPU_Interrupt_sysexLen (vlqEncode n ++ rest) 0 1 = (n, 1 + (vlqEncode n).length)) := by
  have hg : n % 128 < 128 := Nat.mod_lt _ (by omega)
  have hl := vlq_byte_last (n % 128) hg
  constructor
  · intro hn
    simp only [vlqEncode, List.append_assoc, List.length_append, List.length_singleton]
    rw [MPU_NoteOn_duration_groups n (n / 128) 0 _ (Nat.div_le_self n 128) (by omega)]
    simp only [List.singleton_append, MPU_NoteOn_duration, hl.1, if_pos hl.2]
    rw [mul128_or _ _ hg, div_mod_128]
    simp
  · intro hn
    have hn' : n < 65536 := hn
    simp only [vlqEncode, List.append_assoc, List.length_append, List.length_singleton]
    constructor
    · rw [MPU_XMIDIMeta_len_groups n (n / 128) 0 _ (Nat.div_le_self n 128) (by omega)]
      simp only [List.singleton_append, MPU_XMIDIMeta_len, hl.1, if_pos hl.2]
      rw [mul128_or _ _ hg, div_mod_128]
      simp
    · rw [MPU_Interrupt_sysexLen_groups n (n / 128) 1 _ (Nat.div_le_self n 128) (by omega)]
      simp only [List.singleton_append, MPU_Interrupt_sysexLen, hl.1, hl.2, ne_eq, not_true_eq_false,
        if_false]
      rw [Nat.shiftLeft_eq, show n / 128 * 2 ^ 7 = 128 * (n / 128) by omega, mul128_or _ _ hg,
        div_mod_128, Nat.mod_eq_of_lt hn']
      congr 1

/-- Witness of C13 at the boundary values 0, 127, 128, 16383 and 16384, with their
encodings. -/
theorem vlq_round_trip_witness :
    (vlqEncode 0 = [0x00] ∧ vlqEncode 127 = [0x7F] ∧ vlqEncode 128 = [0x81, 0x00] ∧
      vlqEncode 16383 = [0xFF, 0x7F] ∧ vlqEncode 16384 = [0x81, 0x80, 0x00]) ∧
    MPU_NoteOn_duration (vlqEncode 0 ++ [0x7F]) 0 0 = (0, 1) ∧
    MPU_NoteOn_duration (vlqEncode 127 ++ [0x7F]) 0 0 = (127, 1) ∧
    MPU_NoteOn_duration (vlqEncode 128 ++ [0x7F]) 0 0 = (128, 2) ∧
    MPU_XMIDIMeta_len (vlqEncode 16383 ++ [0x7F]) 0 0 = (16383, 2) ∧
    MPU_Interrupt_sysexLen (vlqEncode 16384 ++ [0x7F]) 0 1 = (16384, 4) :=
  ⟨by decide,
    (vlq_round_trip 0 [0x7F]).1 (by decide),
    (vlq_round_trip 127 [0x7F]).1 (by decide),
    (vlq_round_trip 128 [0x7F]).1 (by decide),
    ((vlq_round_trip 16383 [0x7F]).2 (by decide)).1,
    ((vlq_round_trip 16384 [0x7F]).2 (by decide)).2⟩

/-! ## What the events of a track touch -/

theorem MPU_NoteOn_frame (s : MPU) (idx : Nat) (d : MSData) (r : MPU × Nat)
    (hd : getData s idx = some d) (h : MPU_NoteOn s idx = some r) : eventFrame idx s r.1 := by
  unfold MPU_NoteOn at h
  rw [hd] at h
  simp only [Option.bind_eq_bind, Option.some_bind] at h
  split at h
  · rw [← Option.some.inj h]
    exact eventFrame_refl idx s (by simp [hd])
  · rw [← Option.some.inj h]
    refine eventFrame_store idx s _ d _ hd rfl rfl rfl ?_
    split <;> rfl

theorem MPU_XMIDIMeta_frame (s : MPU) (idx : Nat) (d : MSData) (r : MPU × Nat)
    (hd : getData s idx = some d) (hcur : s.msdataCurrent = idx) (hidx : idx < 8)
    (h : MPU_XMIDIMeta s idx = some r) : eventFrame idx s r.1 := by
  have hsome : (getData s idx).isSome := by simp [hd]
  by_cases hty : byteAt d.file (d.sound + 1) = 0x2F
  · obtain ⟨c, d', _, hfr, hd', hsc, hmeta⟩ := MPU_XMIDIMeta_endOfTrack s idx d hd hty hcur hidx
    rw [hmeta] at h
    rw [← Option.some.inj h]
    have hltc := getData_lt c idx d' hd'
    by_cases hdc : d.delayedClear = true
    · simp only [if_pos hdc]
      refine ⟨othersFrame_trans hfr.1 ⟨by simp, rfl, fun i hi => ?_⟩, Or.inl ⟨?_, ?_⟩⟩
      · simp [getData, List.getD_eq_getElem?_getD, List.getElem?_set, Ne.symm hi]
      · simp [getData, List.getD_eq_getElem?_getD, List.getElem?_set, hltc]
      · show (c.msdataSize + 65535) % 65536 = _
        rw [hfr.2.1]
    · simp only [if_neg hdc]
      exact eventFrame_trans (eventFrame_of_chanFrame hfr hsome) (by simp [hd'])
        (eventFrame_setData idx c d' _ hd' rfl)
  · unfold MPU_XMIDIMeta at h
    rw [hd] at h
    simp only [Option.bind_eq_bind, Option.some_bind, if_neg hty] at h
    split at h
    · obtain ⟨v, _, h⟩ := Option.bind_eq_some.mp h
      rw [← Option.some.inj h]
      exact eventFrame_setData idx s d _ hd rfl
    · split at h
      · rw [← Option.some.inj h]
        exact eventFrame_setData idx s d _ hd rfl
      · rw [← Option.some.inj h]
        exact eventFrame_refl idx s hsome

theorem MPU_Interrupt_forward_fields (s : MPU) (data : MSData) (status chan data1 data2 : Nat) :
    (MPU_Interrupt_forward s data status chan data1 data2).msdata = s.msdata ∧
    (MPU_Interrupt_forward s data status chan data1 data2).msdataCurrent = s.msdataCurrent ∧
    (MPU_Interrupt_forward s data status chan data1 data2).msdataSize = s.msdataSize := by
  unfold MPU_Interrupt_forward
  split
  · exact ⟨rfl, rfl, rfl⟩
  · exact ⟨rfl, rfl, rfl⟩

/-- The cursor advance that ends an event keeps the event frame. -/
theorem MPU_Interrupt_event_advance (s : MPU) (idx : Nat) (r : MPU × Nat) (t : MPU)
    (hfr : eventFrame idx s r.1)
    (h : (match getData r.1 idx with
      | none => some r.1
      | some data => some (setData r.1 idx { data with sound := data.sound + r.2 })) = some t) :
    eventFrame idx s t := by
  cases hg : getData r.1 idx with
  | none =>
    rw [hg] at h
    rw [← Option.some.inj h]
    exact hfr
  | some d1 =>
    rw [hg] at h
    rw [← Option.some.inj h]
    exact eventFrame_trans hfr (by simp [hg]) (eventFrame_setData idx r.1 d1 _ hg rfl)

theorem MPU_Interrupt_event_frame (s : MPU) (idx : Nat) (t : MPU)
    (hcur : s.msdataCurrent = idx) (hidx : idx < 8)
    (h : MPU_Interrupt_event s idx = some t) : eventFrame idx s t := by
  cases hd : getData s idx with
  | none =>
    unfold MPU_Interrupt_event at h
    rw [hd] at h
    exact absurd h (by simp)
  | some d =>
    have hsome : (getData s idx).isSome := by simp [hd]
    have hfw : ∀ (x : MPU) (status chan data1 data2 : Nat), x.msdata = s.msdata →
        x.msdataCurrent = s.msdataCurrent → x.msdataSize = s.msdataSize →
        eventFrame idx s (MPU_Interrupt_forward x d status chan data1 data2) := by
      intro x status chan data1 data2 h1 h2 h3
      have hf := MPU_Interrupt_forward_fields x d status chan data1 data2
      exact eventFrame_of_eq (hf.1.trans h1) (hf.2.1.trans h2) (hf.2.2.trans h3) hsome
    unfold MPU_Interrupt_event at h
    rw [hd] at h
    simp only [Option.bind_eq_bind, Option.some_bind] at h
    by_cases hF : byteAt d.file d.sound &&& 0xF0 = 0xF0
    · rw [if_pos hF] at h
      by_cases hFF : byteAt d.file d.sound &&& 0xF = 0xF
      · rw [if_pos hFF] at h
        obtain ⟨r, hr, h⟩ := Option.bind_eq_some.mp h
        exact MPU_Interrupt_event_advance s idx r t
          (MPU_XMIDIMeta_frame s idx d r hd hcur hidx hr) h
      · rw [if_neg hFF] at h
        by_cases hF0 : byteAt d.file d.sound &&& 0xF = 0
        · rw [if_pos hF0] at h
          split at h
          · refine MPU_Interrupt_event_advance s idx (_, _) t ?_ h
            exact eventFrame_of_eq rfl rfl rfl hsome
          · exact absurd h (by simp)
        · rw [if_neg hF0] at h
          refine MPU_Interrupt_event_advance s idx (_, _) t ?_ h
          exact eventFrame_refl idx s hsome
    rw [if_neg hF] at h
    by_cases hE : byteAt d.file d.sound &&& 0xF0 = 0xE0
    · rw [if_pos hE] at h
      refine MPU_Interrupt_event_advance s idx (_, _) t ?_ h
      exact hfw _ _ _ _ _ rfl rfl rfl
    rw [if_neg hE] at h
    by_cases hD : byteAt d.file d.sound &&& 0xF0 = 0xD0
    · rw [if_pos hD] at h
      refine MPU_Interrupt_event_advance s idx (_, _) t ?_ h
      exact hfw _ _ _ _ _ rfl rfl rfl
    rw [if_neg hD] at h
    by_cases hC : byteAt d.file d.sound &&& 0xF0 = 0xC0
    · rw [if_pos hC] at h
      refine MPU_Interrupt_event_advance s idx (_, _) t ?_ h
      exact hfw _ _ _ _ _ rfl rfl rfl
    rw [if_neg hC] at h
    by_cases hB : byteAt d.file d.sound &&& 0xF0 = 0xB0
    · rw [if_pos hB] at h
      obtain ⟨x, hx, h⟩ := Option.bind_eq_some.mp h
      refine MPU_Interrupt_event_advance s idx (_, _) t ?_ h
      exact (MPU_Control_spec s idx _ _ _ x d hd hx).1
    rw [if_neg hB] at h
    by_cases hA : byteAt d.file d.sound &&& 0xF0 = 0xA0
    · rw [if_pos hA] at h
      refine MPU_Interrupt_event_advance s idx (_, _) t ?_ h
      exact hfw _ _ _ _ _ rfl rfl rfl
    rw [if_neg hA] at h
    obtain ⟨r, hr, h⟩ := Option.bind_eq_some.mp h
    exact MPU_Interrupt_event_advance s idx r t (MPU_NoteOn_frame s idx d r hd hr) h

theorem MPU_Interrupt_events_frame (idx : Nat) (hidx : idx < 8) (fuel : Nat) :
    ∀ (s t : MPU), s.msdataCurrent = idx → MPU_Interrupt_events fuel s idx = some t →
      eventFrame idx s t := by
  induction fuel with
  | zero =>
    intro s t _ h
    simp [MPU_Interrupt_events] at h
  | succ fuel ih =>
    intro s t hcur h
    unfold MPU_Interrupt_events at h
    cases hd : getData s idx with
    | none => rw [hd] at h; exact absurd h (by simp)
    | some d =>
      rw [hd] at h
      simp only [Option.bind_eq_bind, Option.some_bind] at h
      split at h
      · rw [← Option.some.inj h]
        exact eventFrame_setData idx s d _ hd rfl
      · obtain ⟨s1, hs1, h⟩ := Option.bind_eq_some.mp h
        have hf1 := MPU_Interrupt_event_frame s idx s1 hcur hidx hs1
        cases hg : getData s1 idx with
        | none =>
          rw [hg] at h
          rw [← Option.some.inj h]
          exact hf1
        | some d1 =>
          rw [hg] at h
          simp only at h
          split at h
          · exact eventFrame_trans hf1 (by simp [hg]) (ih s1 t (hf1.1.2.1.trans hcur) h)
          · rw [← Option.some.inj h]
            exact hf1

theorem MPU_Interrupt_notes_frame (d0 : MSData) (s0 : MPU) (n : Nat) :
    ∀ (index : Nat) (acc : MSData × MPU),
    acc.1.sansEvents = d0.sansEvents → acc.2.msdata = s0.msdata →
    acc.2.msdataCurrent = s0.msdataCurrent → acc.2.msdataSize = s0.msdataSize →
    (MPU_Interrupt_notes n index acc).1.sansEvents = d0.sansEvents ∧
    (MPU_Interrupt_notes n index acc).2.msdata = s0.msdata ∧
    (MPU_Interrupt_notes n index acc).2.msdataCurrent = s0.msdataCurrent ∧
    (MPU_Interrupt_notes n index acc).2.msdataSize = s0.msdataSize := by
  induction n with
  | zero =>
    intro index acc h1 h2 h3 h4
    exact ⟨h1, h2, h3, h4⟩
  | succ n ih =>
    intro index acc h1 h2 h3 h4
    unfold MPU_Interrupt_notes
    simp only
    split
    · exact ⟨h1, h2, h3, h4⟩
    · split
      · exact ih _ _ h1 h2 h3 h4
      · split
        · apply ih
          · simp only [MSData.sansEvents] at h1 ⊢; exact h1
          · exact h2
          · exact h3
          · exact h4
        · apply ih
          · simp only [MSData.sansEvents] at h1 ⊢; exact h1
          · exact h2
          · exact h3
          · exact h4

/-! ## Scenarios and evaluations for the later claims -/

/-- C11, evaluation at the failing input. A channel volume change to 64 on channel 3 of the
idle engine (master volume 90) stores the scaled value 57 in `s_mpu_controls[3].volume` and
leaves `data->controls[3].volume` unset (`0xFF`); a modulation change to 64 stores 64 in both
shadows. -/
theorem MPU_Control_volume_misses_track_shadow :
    (do
      let s1 ← MPU_Control MPU.idle 0 3 7 64
      let d1 ← getData s1 0
      let s2 ← MPU_Control MPU.idle 0 3 1 64
      let d2 ← getData s2 0
      pure ([(rdC s1.controls 3).volume, (rdC d1.controls 3).volume,
        (rdC s2.controls 3).modulation, (rdC d2.controls 3).modulation])) =
    some [57, 0xFF, 64, 64] := by
  decide

/-- C14, counterexample. With the event bytes `00 90 05 40 60 00` (followed by a delay byte)
the first tick sends nothing, the second sends a Note On with status `0x90` (channel 0), note
`0x05` and velocity `0x40`, whose stored countdown is `0x60 - 1`, and the third tick sends
nothing. -/
theorem MPU_Interrupt_spec_bytes_scenario :
    (do
      let s0 ← bootPlay [0x00, 0x90, 0x05, 0x40, 0x60, 0x00, 0x7F]
      let s1 ← MPU_Interrupt 8 s0
      let s2 ← MPU_Interrupt 8 s1
      let s3 ← MPU_Interrupt 8 s2
      let d2 ← getData s2 0
      pure ([s1.out.drop s0.out.length, s2.out.drop s1.out.length, s3.out.drop s2.out.length],
        rdI d2.noteOnDuration 0)) =
    some ([[], [Out.msg 0x90 0x05 0x40], []], 0x5F) := by
  decide

/-- C14, amended. With the event bytes `00 95 40 60 00` followed by a delay byte, on a freshly
initialised engine with one started track, the first tick reads the delay byte and sends
nothing, the second tick sends exactly one message, the Note On `95 40 60` (physical channel 5,
identity mapped, note `0x40`, velocity `0x60`) and registers one active note (track count 1,
`s_mpu_noteOnCount[5]` = 1, slot 0 holds channel 5), and the following tick sends exactly the
Note Off `85 40 00` and frees the note. -/
theorem MPU_Interrupt_note_scenario :
    (do
      let s0 ← bootPlay [0x00, 0x95, 0x40, 0x60, 0x00, 0x7F]
      let s1 ← MPU_Interrupt 8 s0
      let s2 ← MPU_Interrupt 8 s1
      let s3 ← MPU_Interrupt 8 s2
      let d2 ← getData s2 0
      let d3 ← getData s3 0
      pure ([s1.out.drop s0.out.length, s2.out.drop s1.out.length, s3.out.drop s2.out.length],
        [d2.noteOnCount, rd s2.noteOnCount 5, rd d2.noteOnChans 0, rd d2.chanMaps 5,
          d3.noteOnCount, rd s3.noteOnCount 5, rd d3.noteOnChans 0])) =
    some ([[], [Out.msg 0x95 0x40 0x60], [Out.msg 0x85 0x40 0]], [1, 1, 5, 5, 0, 0, 0xFF]) := by
  decide

/-- C16, evaluation at the failing input. On the booted engine slot 0 is free: `MPU_Stop` and
`MPU_ClearData` return with the state unchanged, while `MPU_Play`, `MPU_IsPlaying` and
`MPU_SetVolume` read through the `NULL` slot and have no result. With the handle `0xFFFF` all
five return with the state unchanged. -/
theorem MPU_free_slot_is_dereferenced :
    getData MPU.boot 0 = none ∧
    MPU_Stop MPU.boot 0 = some MPU.boot ∧ MPU_ClearData MPU.boot 0 = some MPU.boot ∧
    MPU_Play MPU.boot 0 = none ∧ MPU_IsPlaying MPU.boot 0 = none ∧
    MPU_SetVolume MPU.boot 0 100 0 = none ∧
    MPU_Play MPU.boot 0xFFFF = some MPU.boot ∧ MPU_Stop MPU.boot 0xFFFF = some MPU.boot ∧
    MPU_IsPlaying MPU.boot 0xFFFF = some 0xFFFF ∧ MPU_ClearData MPU.boot 0xFFFF = some MPU.boot ∧
    MPU_SetVolume MPU.boot 0xFFFF 100 0 = some MPU.boot := by
  decide

/-- C18, evaluation at the failing input. The track locks its logical channels 0 and 1
(physical channels 15 and 14 are acquired, `chanMaps[1]` is 14 and channel 1 is not hard
locked); the Program Change `C1 05` on logical channel 1 is then sent with status `0xCF`:
its low nibble is `1 | 14 = 15`, not 14. -/
theorem MPU_Interrupt_program_change_status :
    (do
      let s0 ← bootPlay [0xB0, 0x6E, 0x7F, 0xB1, 0x6E, 0x7F, 0xC1, 0x05, 0x7F]
      let s1 ← MPU_Interrupt 8 s0
      let d1 ← getData s1 0
      pure (rd d1.chanMaps 1, decide (hardLocked s1 1), s1.out.drop s0.out.length)) =
    some (14, false, [Out.msg 0xBF 64 0, Out.msg 0xBE 64 0, Out.msg 0xCF 0x05 0x7F]) := by
  decide

/-- C19, counterexample. The time signature event `FF 58 04 06 03 18 08` (numerator 6, exponent
3) stores 6 in `variable_0042` and `133333 << 1` in `variable_0044` and `variable_0048`, not
`133333 << 3`. -/
theorem MPU_XMIDIMeta_time_signature_exponent_3 :
    (do
      let r ← MPU_XMIDIMeta MPU.timeSigDemo 0
      let d ← getData r.1 0
      pure [d.variable_0042, d.variable_0044, d.variable_0048, 133333 <<< 1, 133333 <<< 3, r.2]) =
    some [6, 266666, 266666, 266666, 1066664, 7] := by
  decide

theorem MPU_XMIDIMeta_timeSig_cases : ∀ e < 256,
    (2 ≤ e → e ≤ 15 → MPU_XMIDIMeta_timeSig e = some (133333 <<< (e - 2))) ∧
    (e < 2 → MPU_XMIDIMeta_timeSig e = some (133333 >>> (2 - e))) ∧
    (227 ≤ e → MPU_XMIDIMeta_timeSig e = some (133333 >>> (258 - e))) ∧
    (16 ≤ e → e ≤ 226 → MPU_XMIDIMeta_timeSig e = none) := by
  decide

/-- C19, amended. Let `MPU_XMIDIMeta` process a type `0x58` event with numerator byte `n` and
exponent byte `e`; the shift count is `e - 2`, `e` read as a signed byte.  For `e <= 15` and
for `227 <= e` the call returns, `variable_0042` is `n`, and `variable_0044` and
`variable_0048` are equal to each other and to the base constant 133333 shifted by `e - 2`:
shifted left by `e - 2` when `2 <= e <= 15`, shifted right by `2 - e` when `e < 2`, and
shifted right by `258 - e`, that is 2 minus the signed value, when `227 <= e <= 255`.  For
`16 <= e <= 226` the C shift has no defined result: the left shift does not fit in `int`
from `e = 16` on and its count is 32 or more from `e = 34` on, also for `e = 128, 129` whose
count wraps to 126 and 127, and the right shift has a count of 32 or more for
`130 <= e <= 226`. -/
theorem MPU_XMIDIMeta_time_signature (s : MPU) (idx : Nat) (data : MSData)
    (hd : getData s idx = some data) (ht : byteAt data.file (data.sound + 1) = 0x58) :
    ∀ e, e = byteAt data.file
        (data.sound + 2 + (MPU_XMIDIMeta_len (data.file.drop (data.sound + 2)) 0 0).2 + 1) →
      ((e ≤ 15 ∨ 227 ≤ e) →
        ∃ s' d' len, MPU_XMIDIMeta s idx = some (s', len) ∧ getData s' idx = some d' ∧
          d'.variable_0042 = byteAt data.file
            (data.sound + 2 + (MPU_XMIDIMeta_len (data.file.drop (data.sound + 2)) 0 0).2) ∧
          d'.variable_0048 = d'.variable_0044 ∧
          (2 ≤ e → e ≤ 15 → d'.variable_0044 = 133333 <<< (e - 2)) ∧
          (e < 2 → d'.variable_0044 = 133333 >>> (2 - e)) ∧
          (227 ≤ e → d'.variable_0044 = 133333 >>> (258 - e))) ∧
      (16 ≤ e → e ≤ 226 → MPU_XMIDIMeta s idx = none) := by
  have hlt := getData_lt s idx data hd
  intro e he
  have hb : e < 256 := by rw [he]; exact Nat.mod_lt _ (by decide)
  obtain ⟨c1, c2, c3, c4⟩ := MPU_XMIDIMeta_timeSig_cases e hb
  unfold MPU_XMIDIMeta
  simp only [hd, Option.bind_eq_bind, Option.some_bind, ht,
    show ¬ ((0x58 : Nat) = 0x2F) by decide, if_false, if_true, ← he]
  constructor
  · intro hr
    have hv : ∃ v, MPU_XMIDIMeta_timeSig e = some v ∧
        (2 ≤ e → e ≤ 15 → v = 133333 <<< (e - 2)) ∧
        (e < 2 → v = 133333 >>> (2 - e)) ∧ (227 ≤ e → v = 133333 >>> (258 - e)) := by
      by_cases h2 : e < 2
      · exact ⟨_, c2 h2, fun h _ => absurd h (by omega), fun _ => rfl,
          fun h => absurd h (by omega)⟩
      · by_cases h15 : e ≤ 15
        · exact ⟨_, c1 (by omega) h15, fun _ _ => rfl, fun h => absurd h h2,
            fun h => absurd h (by omega)⟩
        · have h227 : 227 ≤ e := by omega
          exact ⟨_, c3 h227, fun h _ => absurd h (by omega), fun h => absurd h h2,
            fun _ => rfl⟩
    obtain ⟨v, hv, v1, v2, v3⟩ := hv
    rw [hv]
    simp only [Option.some_bind]
    exact ⟨_, _, _, rfl, getData_setData_same _ idx _ hlt, rfl, rfl, v1, v2, v3⟩
  · intro h16 h226
    rw [c4 h16 h226]
    rfl

/-- Witness of the amended C19 on the event `FF 58 04 06 03 18 08`: the exponent 3 stores
`133333 << 1`. -/
theorem MPU_XMIDIMeta_time_signature_witness :
    byteAt MPU.timeSigDemoTrack.file (MPU.timeSigDemoTrack.sound + 1) = 0x58 ∧
    ∃ s' d' len, MPU_XMIDIMeta MPU.timeSigDemo 0 = some (s', len) ∧ getData s' 0 = some d' ∧
      d'.variable_0042 = 6 ∧ d'.variable_0048 = d'.variable_0044 ∧
      d'.variable_0044 = 133333 <<< 1 := by
  obtain ⟨s', d', len, h1, h2, h3, h4, h5, _, _⟩ :=
    (MPU_XMIDIMeta_time_signature MPU.timeSigDemo 0 MPU.timeSigDemoTrack (by decide) (by decide)
      3 (by decide)).1 (Or.inl (by decide))
  exact ⟨by decide, s', d', len, h1, h2, h3.trans (by decide), h4, h5 (by decide) (by decide)⟩
theorem sansEvents_delay (x : MSData) (v : Int) :
    ({ x with delay := v } : MSData).sansEvents = x.sansEvents := rfl

theorem ite_some_cases {α : Type} {c : Prop} [Decidable c] {a b : Option α} {t : α}
    (h : (if c then a else b) = some t) : a = some t ∨ b = some t := by
  by_cases hc : c
  · rw [if_pos hc] at h; exact Or.inl h
  · rw [if_neg hc] at h; exact Or.inr h

theorem MPU_Interrupt_units_frame (idx : Nat) (hidx : idx < 8) (fuel n : Nat) :
    ∀ (s t : MPU), s.msdataCurrent = idx → (getData s idx).isSome →
      MPU_Interrupt_units fuel n s idx = some t → eventFrame idx s t := by
  induction n with
  | zero =>
    intro s t _ hs h
    unfold MPU_Interrupt_units at h
    rw [← Option.some.inj h]
    exact eventFrame_refl idx s hs
  | succ n ih =>
    intro s t hcur hs h
    obtain ⟨d, hd⟩ := Option.isSome_iff_exists.mp hs
    have hnext : ∀ s3 : MPU, eventFrame idx s s3 →
        (match getData s3 idx with
          | none => some s3
          | some data =>
            if data.playing ≠ 1 then some s3 else MPU_Interrupt_units fuel n s3 idx) = some t →
        eventFrame idx s t := by
      intro s3 hf3 h3
      cases hg : getData s3 idx with
      | none =>
        rw [hg] at h3
        rw [← Option.some.inj h3]
        exact hf3
      | some d3 =>
        rw [hg] at h3
        simp only at h3
        split at h3
        · rw [← Option.some.inj h3]
          exact hf3
        · exact eventFrame_trans hf3 (by simp [hg])
            (ih s3 t (hf3.1.2.1.trans hcur) (by simp [hg]) h3)
    unfold MPU_Interrupt_units at h
    rw [hd] at h
    rw [Option.bind_eq_bind, Option.some_bind] at h
    by_cases h64 : d.variable_0030 < 100
    · rw [if_pos h64] at h
      rw [← Option.some.inj h]
      exact eventFrame_refl idx s hs
    · rw [if_neg h64] at h
      simp only [] at h
      generalize hS : setData _ idx _ = S at h
      have hfS : eventFrame idx s S := by
        rw [← hS]
        refine eventFrame_store idx s _ d _ hd ?_ ?_ ?_ ?_
        · refine (MPU_Interrupt_notes_frame d s 32 0 _ ?_ rfl rfl rfl).2.1
          simp only
          split
          · split <;> rfl
          · rfl
        · refine (MPU_Interrupt_notes_frame d s 32 0 _ ?_ rfl rfl rfl).2.2.1
          simp only
          split
          · split <;> rfl
          · rfl
        · refine (MPU_Interrupt_notes_frame d s 32 0 _ ?_ rfl rfl rfl).2.2.2
          simp only
          split
          · split <;> rfl
          · rfl
        · rw [sansEvents_delay]
          refine (MPU_Interrupt_notes_frame d s 32 0 _ ?_ rfl rfl rfl).1
          simp only
          split
          · split <;> rfl
          · rfl
      rcases ite_some_cases h with h | h
      · obtain ⟨s3, hs3, h⟩ := Option.bind_eq_some.mp h
        have hS1 : (getData S idx).isSome := by
          rcases hfS.2 with ⟨hn, _⟩ | ⟨_, hl, _⟩
          · exact absurd hs3 (by
              cases fuel with
              | zero => simp [MPU_Interrupt_events]
              | succ f => unfold MPU_Interrupt_events; rw [hn]; simp)
          · exact hl
        have hf3 := eventFrame_trans hfS hS1
          (MPU_Interrupt_events_frame idx hidx fuel S s3 (hfS.1.2.1.trans hcur) hs3)
        exact hnext s3 hf3 h
      · rw [Option.bind_eq_bind, Option.some_bind] at h
        exact hnext S hfS h

/-! ## The ramp loop -/

theorem toInt32_nonneg_iff (v : Nat) (hv : v < 4294967296) :
    toInt32 (v : Int) ≥ 0 ↔ v < 2147483648 := by
  unfold toInt32
  omega

theorem MPU_Interrupt_ramp_succ (fuel v step i : Nat) :
    MPU_Interrupt_ramp (fuel + 1) v step i =
      if toInt32 (((v + 4294967296 - step % 4294967296) % 4294967296 : Nat) : Int) ≥ 0 then
        MPU_Interrupt_ramp fuel ((v + 4294967296 - step % 4294967296) % 4294967296) step
          ((i + 1) % 65536)
      else some ((i + 1) % 65536, v) := by
  rw [MPU_Interrupt_ramp]

/-- The ramp loop is a division: it counts how often `step` fits into `v` and leaves the
remainder in the accumulator. -/
theorem MPU_Interrupt_ramp_spec (step : Nat) (hs : 0 < step) (hs2 : step < 2147483648) :
    ∀ (fuel v i : Nat) (r : Nat × Nat), v < 2147483648 + step →
      MPU_Interrupt_ramp fuel v step i = some r →
      r = ((i + 1 + v / step) % 65536, v % step) := by
  intro fuel
  induction fuel with
  | zero =>
    intro v i r _ h
    simp [MPU_Interrupt_ramp] at h
  | succ fuel ih =>
    intro v i r hv h
    rw [MPU_Interrupt_ramp_succ] at h
    have hsm : step % 4294967296 = step := Nat.mod_eq_of_lt (by omega)
    rw [hsm] at h
    by_cases hle : step ≤ v
    · have hv' : (v + 4294967296 - step) % 4294967296 = v - step := by omega
      rw [hv'] at h
      have hpos : toInt32 ((v - step : Nat) : Int) ≥ 0 :=
        (toInt32_nonneg_iff (v - step) (by omega)).mpr (by omega)
      rw [if_pos hpos] at h
      have := ih (v - step) ((i + 1) % 65536) r (by omega) h
      rw [this]
      have hq : v / step = (v - step) / step + 1 := by
        rw [Nat.div_eq v step, if_pos ⟨hs, hle⟩]
      have hm : v % step = (v - step) % step := Nat.mod_eq_sub_mod hle
      rw [hq, hm]
      congr 1
      omega
    · have hlt : v < step := Nat.lt_of_not_le hle
      have hneg : ¬ toInt32 (((v + 4294967296 - step) % 4294967296 : Nat) : Int) ≥ 0 := by
        rw [toInt32_nonneg_iff _ (Nat.mod_lt _ (by omega))]
        omega
      rw [if_neg hneg] at h
      rw [← Option.some.inj h, Nat.div_eq_of_lt hlt, Nat.mod_eq_of_lt hlt]

/-- The ramp loop returns when the fuel exceeds the quotient. -/
theorem MPU_Interrupt_ramp_returns (step : Nat) (hs : 0 < step) (hs2 : step < 2147483648) :
    ∀ (fuel v i : Nat), v < 2147483648 + step → v / step < fuel →
      ∃ r, MPU_Interrupt_ramp fuel v step i = some r := by
  intro fuel
  induction fuel with
  | zero =>
    intro v i _ h
    exact absurd h (Nat.not_lt_zero _)
  | succ fuel ih =>
    intro v i hv hq
    rw [MPU_Interrupt_ramp_succ]
    have hsm : step % 4294967296 = step := Nat.mod_eq_of_lt (by omega)
    rw [hsm]
    by_cases hle : step ≤ v
    · have hv' : (v + 4294967296 - step) % 4294967296 = v - step := by omega
      rw [hv']
      have hpos : toInt32 ((v - step : Nat) : Int) ≥ 0 :=
        (toInt32_nonneg_iff (v - step) (by omega)).mpr (by omega)
      rw [if_pos hpos]
      have hq' : v / step = (v - step) / step + 1 := by
        rw [Nat.div_eq v step, if_pos ⟨hs, hle⟩]
      exact ih (v - step) _ (by omega) (by omega)
    · have hlt : v < step := Nat.lt_of_not_le hle
      have hneg : ¬ toInt32 (((v + 4294967296 - step) % 4294967296 : Nat) : Int) ≥ 0 := by
        rw [toInt32_nonneg_iff _ (Nat.mod_lt _ (by omega))]
        omega
      rw [if_neg hneg]
      exact ⟨_, rfl⟩

/-! ## The ramp installed by `MPU_SetVolume` -/

/-- C24. A ramp from 90 up to 100 and a ramp from 100 down to 90, both with the duration
hint 100: each line lists current, target, step threshold and accumulator of the track after
`MPU_SetVolume`.  The upward ramp receives the threshold `10 * 100 / 10 = 100`, the downward
ramp the threshold 1, because the `uint16` difference is `65526` and `10 * 100 / 65526 = 0`. -/
theorem MPU_SetVolume_threshold_depends_on_direction :
    ((MPU_SetVolume MPU.idle 0 100 100).bind (fun s => getData s 0)).map
      (fun d => [d.variable_0024, d.variable_0026, d.variable_002C, d.variable_0028]) =
      some [90, 100, 100, 0] ∧
    (((MPU_SetVolume MPU.idle 0 100 0).bind (fun s => MPU_SetVolume s 0 90 100)).bind
      (fun s => getData s 0)).map
      (fun d => [d.variable_0024, d.variable_0026, d.variable_002C, d.variable_0028]) =
      some [100, 90, 1, 0] := by
  decide

/-- C23, as stated. With the accumulator 0 and the step threshold `2^31 + 84` the loop takes
one step although `(0 + 83) / (2^31 + 84) = 0`, and leaves `2^31 - 1` in the accumulator:
`83 - (2^31 + 84)` wraps to the non negative `int32` value `2^31 - 1`. -/
theorem MPU_Interrupt_ramp_large_threshold :
    MPU_Interrupt_ramp 8 ((0 + 0x53) % 4294967296) 2147483732 0xFFFF = some (1, 2147483647) ∧
    (0 + 83) / 2147483732 = 0 ∧ (0 + 83) % 2147483732 = 83 := by
  refine ⟨?_, by norm_num, by norm_num⟩
  rw [MPU_Interrupt_ramp_succ, if_pos (by unfold toInt32; norm_num),
    MPU_Interrupt_ramp_succ, if_neg (by unfold toInt32; norm_num)]

theorem MPU_Interrupt_ramp_zero_step (fuel : Nat) :
    ∀ v i : Nat, v < 2147483648 → MPU_Interrupt_ramp fuel v 0 i = none := by
  induction fuel with
  | zero => intro v i _; rfl
  | succ fuel ih =>
    intro v i hv
    rw [MPU_Interrupt_ramp_succ]
    have hv' : (v + 4294967296 - 0 % 4294967296) % 4294967296 = v := by omega
    rw [hv', if_pos ((toInt32_nonneg_iff v (by omega)).mpr hv)]
    exact ih v _ hv

theorem MPU_ApplyVolume_fields (s : MPU) (data : MSData) :
    (MPU_ApplyVolume s data).msdata = s.msdata ∧
    (MPU_ApplyVolume s data).msdataCurrent = s.msdataCurrent ∧
    (MPU_ApplyVolume s data).msdataSize = s.msdataSize := by
  unfold MPU_ApplyVolume
  apply foldl_invariant (fun x : MPU => x.msdata = s.msdata ∧
    x.msdataCurrent = s.msdataCurrent ∧ x.msdataSize = s.msdataSize)
  · exact ⟨rfl, rfl, rfl⟩
  · intro a x ha
    unfold MPU_ApplyVolume_chan
    simp only
    split
    · exact ha
    · split
      · exact ha
      · exact ha

/-- What `MPU_SetVolume` leaves in the ramp fields of a loaded track. -/
theorem MPU_SetVolume_installs (s : MPU) (idx volume arg0C : Nat) (d : MSData) (t : MPU)
    (hidx : idx ≠ 0xFFFF) (hd : getData s idx = some d) (hc : d.variable_0024 < 65536)
    (h : MPU_SetVolume s idx volume arg0C = some t) :
    ∃ d', getData t idx = some d' ∧ d'.variable_0026 = volume % 65536 ∧
      (d'.variable_0024 ≠ d'.variable_0026 →
        d'.variable_0024 = d.variable_0024 ∧ arg0C % 65536 ≠ 0 ∧
        d'.variable_002C =
          max 1 (10 * (arg0C % 65536) / ((volume % 65536 + 65536 - d.variable_0024) % 65536)) ∧
        1 ≤ d'.variable_002C ∧ d'.variable_002C ≤ 655350 ∧ d'.variable_0028 = 0) := by
  have hlt := getData_lt s idx d hd
  unfold MPU_SetVolume at h
  rw [if_neg hidx, hd] at h
  simp only [Option.bind_eq_bind, Option.some_bind] at h
  by_cases h0 : arg0C % 65536 = 0
  · rw [if_pos h0] at h
    have ht := Option.some.inj h
    subst ht
    refine ⟨{ d with variable_0026 := volume % 65536, variable_0024 := volume % 65536 }, ?_,
      rfl, fun hne => absurd rfl hne⟩
    rw [getData_congr (MPU_ApplyVolume_fields _ _).1]
    exact getData_setData_same s idx _ hlt
  · rw [if_neg h0] at h
    by_cases hdiff : (volume % 65536 + 65536 - d.variable_0024) % 65536 = 0
    · rw [if_pos hdiff] at h
      have ht := Option.some.inj h
      subst ht
      refine ⟨_, getData_setData_same s idx _ hlt, rfl, fun hne => ?_⟩
      exfalso
      apply hne
      show d.variable_0024 = volume % 65536
      omega
    · rw [if_neg hdiff] at h
      have ht := Option.some.inj h
      subst ht
      have hq : 10 * (arg0C % 65536) /
          ((volume % 65536 + 65536 - d.variable_0024) % 65536) ≤ 655350 := by
        calc 10 * (arg0C % 65536) / ((volume % 65536 + 65536 - d.variable_0024) % 65536)
            ≤ 10 * (arg0C % 65536) := Nat.div_le_self _ _
          _ ≤ 655350 := by omega
      have hq' : 10 * (arg0C % 65536) /
          ((volume % 65536 + 65536 - d.variable_0024) % 65536) % 4294967296 =
          10 * (arg0C % 65536) / ((volume % 65536 + 65536 - d.variable_0024) % 65536) :=
        Nat.mod_eq_of_lt (by omega)
      refine ⟨_, getData_setData_same s idx _ hlt, rfl, fun _ => ⟨rfl, h0, ?_, ?_, ?_, rfl⟩⟩
      · show (if _ = 0 then 1 else _) = _
        rw [hq']
        split
        · rename_i hz; rw [hz]; rfl
        · rename_i hz; omega
      · show 1 ≤ (if _ = 0 then 1 else _)
        split
        · exact Nat.le_refl 1
        · omega
      · show (if _ = 0 then 1 else _) ≤ 655350
        rw [hq']
        split
        · omega
        · exact hq

/-- C23, amended. For a ramp accumulator `a` and a step threshold `s` with `1 <= s < 2^31`
and `a < s`, the do-while loop of the volume ramp, entered with `v = a + 83` and `i = 0xFFFF`,
returns whenever the fuel exceeds `(a + 83) / s`, so within 84 passes; its step count is
`(a + 83) / s`, at most 83, and it leaves `(a + 83) % s`, again below `s`, in the accumulator.
With the threshold 0 and a non negative `int32` start value it never returns.  `MPU_SetVolume` on a loaded track whose current volume
is a `uint16` installs, whenever it leaves current and target different, a threshold from 1 to
655350 and the accumulator 0, and `MPU_InitData` leaves current and target equal. -/
theorem MPU_Interrupt_ramp_is_division (a s : Nat) (hs : 1 ≤ s) (hs2 : s < 2147483648)
    (ha : a < s) :
    (∀ fuel, (a + 83) / s < fuel →
      MPU_Interrupt_ramp fuel ((a + 0x53) % 4294967296) s 0xFFFF =
        some ((a + 83) / s, (a + 83) % s)) ∧
    MPU_Interrupt_ramp 84 ((a + 0x53) % 4294967296) s 0xFFFF =
      some ((a + 83) / s, (a + 83) % s) ∧
    (a + 83) / s ≤ 83 ∧ (a + 83) % s < s ∧
    (∀ fuel a0, a0 + 83 < 2147483648 →
      MPU_Interrupt_ramp fuel ((a0 + 0x53) % 4294967296) 0 0xFFFF = none) ∧
    (∀ (st : MPU) (idx volume h : Nat) (d : MSData) (t : MPU), idx ≠ 0xFFFF →
      getData st idx = some d → d.variable_0024 < 65536 →
      MPU_SetVolume st idx volume h = some t →
      ∃ d', getData t idx = some d' ∧
        (d'.variable_0024 ≠ d'.variable_0026 →
          1 ≤ d'.variable_002C ∧ d'.variable_002C ≤ 655350 ∧ d'.variable_0028 = 0)) ∧
    (∀ d : MSData, (MPU_InitData d).variable_0024 = (MPU_InitData d).variable_0026) := by
  have hv : (a + 0x53) % 4294967296 = a + 83 := Nat.mod_eq_of_lt (by omega)
  have hq : (a + 83) / s ≤ 83 := by
    have : (a + 83) / s < 84 := (Nat.div_lt_iff_lt_mul (by omega)).mpr (by nlinarith)
    omega
  have hret : ∀ fuel, (a + 83) / s < fuel →
      MPU_Interrupt_ramp fuel ((a + 0x53) % 4294967296) s 0xFFFF =
        some ((a + 83) / s, (a + 83) % s) := by
    intro fuel hf
    rw [hv]
    obtain ⟨r, hr⟩ := MPU_Interrupt_ramp_returns s (by omega) hs2 fuel (a + 83) 0xFFFF
      (by omega) hf
    rw [hr, MPU_Interrupt_ramp_spec s (by omega) hs2 fuel (a + 83) 0xFFFF r (by omega) hr]
    have hw : ∀ q : Nat, q ≤ 83 → (0xFFFF + 1 + q) % 65536 = q := by
      intro q hq
      omega
    rw [hw _ hq]
  refine ⟨hret, hret 84 (by omega), hq, Nat.mod_lt _ (by omega), ?_, ?_, fun d => rfl⟩
  · intro fuel a0 h0
    have hv0 : (a0 + 0x53) % 4294967296 = a0 + 83 := Nat.mod_eq_of_lt (by omega)
    rw [hv0]
    exact MPU_Interrupt_ramp_zero_step fuel (a0 + 83) 0xFFFF h0
  · intro st idx volume h d t hidx hd hc hset
    obtain ⟨d', hd', _, hrest⟩ := MPU_SetVolume_installs st idx volume h d t hidx hd hc hset
    refine ⟨d', hd', fun hne => ?_⟩
    obtain ⟨_, _, _, h1, h2, h3⟩ := hrest hne
    exact ⟨h1, h2, h3⟩

/-- Witness of C23: the accumulator 40 and the threshold 100. -/
theorem MPU_Interrupt_ramp_is_division_witness :
    MPU_Interrupt_ramp 84 ((40 + 0x53) % 4294967296) 100 0xFFFF = some (1, 23) ∧
    (40 + 83) / 100 = 1 ∧ (40 + 83) % 100 = 23 :=
  ⟨(MPU_Interrupt_ramp_is_division 40 100 (by omega) (by omega) (by omega)).2.1,
    by norm_num, by norm_num⟩

/-! ## The note counter of a track -/

theorem countP_wr (l : List Nat) (p : Nat → Bool) (v : Nat) :
    ∀ i, i < l.length →
      (wr l i v).countP p + (if p (rd l i) then 1 else 0) =
        l.countP p + (if p v then 1 else 0) := by
  induction l with
  | nil => intro i h; exact absurd h (Nat.not_lt_zero i)
  | cons x xs ih =>
    intro i h
    cases i with
    | zero =>
      simp only [wr, List.set_cons_zero, rd, List.getD_cons_zero, List.countP_cons]
      omega
    | succ i =>
      have := ih i (Nat.lt_of_succ_lt_succ h)
      simp only [wr, rd, List.set_cons_succ, List.getD_cons_succ, List.countP_cons] at this ⊢
      omega

theorem countP_wr_free (l : List Nat) (i : Nat) (h : i < l.length) (ha : rd l i ≠ 0xFF) :
    (wr l i 0xFF).countP (fun c => c ≠ 0xFF) + 1 = l.countP (fun c => c ≠ 0xFF) := by
  have := countP_wr l (fun c => c ≠ 0xFF) 0xFF i h
  rw [if_pos (by simp [ha]), if_neg (by simp)] at this
  exact this

theorem countP_wr_alloc (l : List Nat) (i v : Nat) (h : i < l.length) (ha : rd l i = 0xFF)
    (hv : v ≠ 0xFF) :
    (wr l i v).countP (fun c => c ≠ 0xFF) = l.countP (fun c => c ≠ 0xFF) + 1 := by
  have := countP_wr l (fun c => c ≠ 0xFF) v i h
  rw [if_neg (by simp [ha]), if_pos (by simp [hv])] at this
  exact this

theorem countP_wr_keep (l : List Nat) (i v : Nat) (h : i < l.length) (ha : rd l i ≠ 0xFF)
    (hv : v ≠ 0xFF) :
    (wr l i v).countP (fun c => c ≠ 0xFF) = l.countP (fun c => c ≠ 0xFF) := by
  have := countP_wr l (fun c => c ≠ 0xFF) v i h
  rw [if_pos (by simp [ha]), if_pos (by simp [hv])] at this
  omega

theorem countP_le_32 (l : List Nat) (h : l.length = 32) (p : Nat → Bool) : l.countP p ≤ 32 := by
  rw [← h]; exact List.countP_le_length p

theorem noteCountOk_le (d : MSData) (h : noteCountOk d) : d.noteOnCount ≤ 32 := by
  rw [h.2]; exact countP_le_32 _ h.1 _

/-- Freeing an active slot and decrementing the counter keeps the agreement. -/
theorem noteCountOk_free (d : MSData) (i : Nat) (hi : i < 32) (h : noteCountOk d)
    (ha : rd d.noteOnChans i ≠ 0xFF) :
    (wr d.noteOnChans i 0xFF).length = 32 ∧
    (d.noteOnCount + 65535) % 65536 = (wr d.noteOnChans i 0xFF).countP (fun c => c ≠ 0xFF) := by
  have hl := h.1
  have hcnt := countP_wr_free d.noteOnChans i (by omega) ha
  have hle := countP_le_32 d.noteOnChans hl (fun c => c ≠ 0xFF)
  have h2 : d.noteOnCount = d.noteOnChans.countP (fun c => c ≠ 0xFF) := h.2
  refine ⟨by rw [wr_length]; exact hl, ?_⟩
  omega

theorem foldl_invariant_mem {α β : Type} (P : α → Prop) (f : α → β → α) (l : List β) (a : α)
    (h0 : P a) (hstep : ∀ a x, x ∈ l → P a → P (f a x)) : P (l.foldl f a) := by
  induction l generalizing a with
  | nil => exact h0
  | cons x xs ih =>
    exact ih (f a x) (hstep a x (List.mem_cons_self x xs) h0)
      (fun a y hy => hstep a y (List.mem_cons_of_mem x hy))

theorem MPU_InitData_noteCountOk (d : MSData) : noteCountOk (MPU_InitData d) := by
  refine ⟨by simp [MPU_InitData], ?_⟩
  show 0 = (List.replicate 32 0xFF).countP (fun c => c ≠ 0xFF)
  decide

theorem notesOk_setData (s : MPU) (idx : Nat) (d : MSData) (hs : notesOk s)
    (hd : noteCountOk d) (hidx : idx < s.msdata.length) : notesOk (setData s idx d) := by
  intro j dj hj
  by_cases h : idx = j
  · subst h
    rw [getData_setData_same s idx d hidx] at hj
    rw [← Option.some.inj hj]
    exact hd
  · rw [getData_setData_ne s idx j d h] at hj
    exact hs j dj hj

theorem notesOk_congr {s t : MPU} (h : t.msdata = s.msdata) (hs : notesOk s) : notesOk t := by
  intro j d hj
  rw [getData_congr h] at hj
  exact hs j d hj

theorem and_0F_ne_FF (x : Nat) : x &&& 0xF ≠ 0xFF := by
  have : x &&& 0xF ≤ 0xF := Nat.and_le_right
  omega

theorem MPU_NoteOn_notesOk (s : MPU) (idx : Nat) (r : MPU × Nat) (hs : notesOk s)
    (h : MPU_NoteOn s idx = some r) : notesOk r.1 := by
  cases hd : getData s idx with
  | none =>
    unfold MPU_NoteOn at h
    rw [hd] at h
    exact absurd h (by simp)
  | some d =>
    have hok := hs idx d hd
    have hlt := getData_lt s idx d hd
    unfold MPU_NoteOn at h
    rw [hd] at h
    simp only [Option.bind_eq_bind, Option.some_bind] at h
    split at h
    · rw [← Option.some.inj h]
      exact hs
    · rw [← Option.some.inj h]
      refine notesOk_setData _ idx _ (notesOk_congr rfl hs) ?_ hlt
      have hl := hok.1
      have h2 : d.noteOnCount = d.noteOnChans.countP (fun c => c ≠ 0xFF) := hok.2
      have hle := countP_le_32 d.noteOnChans hl (fun c => c ≠ 0xFF)
      have hch := and_0F_ne_FF (byteAt d.file d.sound)
      cases hf : (List.range 32).find? (fun i => rd d.noteOnChans i = 0xFF) with
      | none =>
        have hall := List.find?_eq_none.mp hf 0 (List.mem_range.mpr (by omega))
        simp only [decide_eq_true_eq] at hall
        have hcnt := countP_wr_keep d.noteOnChans 0 (byteAt d.file d.sound &&& 0xF)
          (by omega) hall hch
        refine ⟨by simp [wr_length, hl], ?_⟩
        show d.noteOnCount =
          (wr d.noteOnChans 0 (byteAt d.file d.sound &&& 0xF)).countP (fun c => c ≠ 0xFF)
        omega
      | some i =>
        have hi := List.mem_range.mp (List.mem_of_find?_eq_some hf)
        have hfree := List.find?_some hf
        simp only [decide_eq_true_eq] at hfree
        have hcnt := countP_wr_alloc d.noteOnChans i (byteAt d.file d.sound &&& 0xF)
          (by omega) hfree hch
        have hle' := countP_le_32 (wr d.noteOnChans i (byteAt d.file d.sound &&& 0xF))
          (by rw [wr_length]; exact hl) (fun c => c ≠ 0xFF)
        refine ⟨by simp [wr_length, hl], ?_⟩
        show (d.noteOnCount + 1) % 65536 =
          (wr d.noteOnChans i (byteAt d.file d.sound &&& 0xF)).countP (fun c => c ≠ 0xFF)
        omega

theorem MPU_FlushChannel_note_ok (channel : Nat) (hch : channel ≠ 0xFF) (s0 : MPU)
    (acc : MSData × MPU) (i : Nat) (hi : i ∈ List.range 32)
    (h : noteCountOk acc.1 ∧ acc.2.msdata = s0.msdata) :
    noteCountOk (MPU_FlushChannel_note channel acc i).1 ∧
    (MPU_FlushChannel_note channel acc i).2.msdata = s0.msdata := by
  obtain ⟨h1, h2⟩ := h
  simp only [MPU_FlushChannel_note]
  by_cases hc : rd acc.1.noteOnChans i ≠ channel
  · rw [if_pos hc]; exact ⟨h1, h2⟩
  · rw [if_neg hc]
    have hc' : rd acc.1.noteOnChans i = channel := not_not.mp hc
    have ha : rd acc.1.noteOnChans i ≠ 0xFF := by rw [hc']; exact hch
    exact ⟨noteCountOk_free acc.1 i (List.mem_range.mp hi) h1 ha, h2⟩

theorem MPU_FlushChannel_loop_notesOk (channel : Nat) (hch : channel ≠ 0xFF) (count : Nat) :
    ∀ (index : Nat) (s t : MPU), notesOk s →
      MPU_FlushChannel_loop channel count index s = some t → notesOk t := by
  induction count with
  | zero =>
    intro index s t hs h
    simp only [MPU_FlushChannel_loop] at h
    rw [← Option.some.inj h]
    exact hs
  | succ n ih =>
    intro index s t hs h
    simp only [MPU_FlushChannel_loop, Option.bind_eq_bind] at h
    obtain ⟨k, _, h⟩ := Option.bind_eq_some.mp h
    obtain ⟨d, hd, h⟩ := Option.bind_eq_some.mp h
    split at h
    · exact ih k s t hs h
    · have hinv := foldl_invariant_mem
        (fun acc : MSData × MPU => noteCountOk acc.1 ∧ acc.2.msdata = s.msdata)
        (MPU_FlushChannel_note channel) (List.range 32) (d, s) ⟨hs k d hd, rfl⟩
        (fun a x hx ha => MPU_FlushChannel_note_ok channel hch s a x hx ha)
      refine ih k _ t ?_ h
      exact notesOk_setData _ k _ (notesOk_congr hinv.2 hs) hinv.1
        (by rw [hinv.2]; exact getData_lt s k d hd)

theorem MPU_Interrupt_notes_ok (n : Nat) : ∀ (index : Nat) (acc : MSData × MPU),
    index + n ≤ 32 → noteCountOk acc.1 → noteCountOk (MPU_Interrupt_notes n index acc).1 := by
  induction n with
  | zero =>
    intro index acc _ h
    exact h
  | succ n ih =>
    intro index acc hle h
    unfold MPU_Interrupt_notes
    simp only
    split
    · exact h
    · split
      · exact ih _ _ (by omega) h
      · rename_i ha
        split
        · apply ih _ _ (by omega)
          exact h
        · apply ih _ _ (by omega)
          exact noteCountOk_free acc.1 index (by omega) h ha

theorem foldl_range_invariant {σ : Type} (f : σ → Nat → σ) (P : Nat → σ → Prop) (n : Nat)
    (s : σ) (h0 : P 0 s) (hstep : ∀ k, k < n → ∀ a, P k a → P (k + 1) (f a k)) :
    P n ((List.range n).foldl f s) := by
  induction n with
  | zero => exact h0
  | succ n ih =>
    rw [List.range_succ, List.foldl_append]
    exact hstep n (Nat.lt_succ_self n) _ (ih (fun k hk => hstep k (Nat.lt_succ_of_lt hk)))

theorem countP_all_free (l : List Nat) (h : ∀ j, j < l.length → rd l j = 0xFF) :
    l.countP (fun c => c ≠ 0xFF) = 0 := by
  rw [List.countP_eq_zero]
  intro a ha
  obtain ⟨j, hj, hja⟩ := List.getElem_of_mem ha
  have := h j hj
  simp only [rd, List.getD_eq_getElem?_getD, List.getElem?_eq_getElem hj, Option.getD_some,
    hja] at this
  simp [this]

theorem MPU_StopAllNotes_notesOk (s : MPU) (idx : Nat) (t : MPU) (hs : notesOk s)
    (h : MPU_StopAllNotes s idx = some t) : notesOk t := by
  unfold MPU_StopAllNotes at h
  simp only [Option.bind_eq_bind] at h
  obtain ⟨d, hd, h⟩ := Option.bind_eq_some.mp h
  rw [← Option.some.inj h]
  have hinv := foldl_range_invariant MPU_StopAllNotes_note
    (fun k (acc : MSData × MPU) => acc.1.noteOnChans.length = 32 ∧ acc.2.msdata = s.msdata ∧
      ∀ j, j < k → rd acc.1.noteOnChans j = 0xFF) 32 (d, s)
    ⟨(hs idx d hd).1, rfl, fun j hj => absurd hj (Nat.not_lt_zero j)⟩
    (by
      intro k hk a ⟨h1, h2, h3⟩
      simp only [MPU_StopAllNotes_note]
      by_cases hc : rd a.1.noteOnChans k = 0xFF
      · rw [if_pos hc]
        refine ⟨h1, h2, fun j hj => ?_⟩
        by_cases hjk : j = k
        · rw [hjk]; exact hc
        · exact h3 j (by omega)
      · rw [if_neg hc]
        refine ⟨by rw [wr_length]; exact h1, h2, fun j hj => ?_⟩
        by_cases hjk : j = k
        · rw [hjk]; exact rd_wr_same _ _ _ (by omega)
        · show rd (wr a.1.noteOnChans k 0xFF) j = 0xFF
          rw [rd_wr_ne _ _ _ _ (Ne.symm hjk)]
          exact h3 j (by omega))
  generalize (List.range 32).foldl MPU_StopAllNotes_note (d, s) = r at hinv ⊢
  obtain ⟨h1, h2, h3⟩ := hinv
  refine notesOk_setData _ idx _ (notesOk_congr h2 hs) ⟨h1, ?_⟩
    (by rw [h2]; exact getData_lt s idx d hd)
  show 0 = List.countP (fun c => c ≠ 0xFF) _
  rw [countP_all_free _ (fun j hj => h3 j (by omega))]

/-- C22. Per-track note count invariant.  A track whose `noteOnCount` equals the number of
its 32 note slots that do not hold the free value `0xFF` has a count from 0 to 32.
`MPU_InitData` establishes this agreement, and `MPU_NoteOn`, `MPU_FlushChannel` (for a channel
argument other than `0xFF`, which no caller passes), the note service of `MPU_Interrupt` and
`MPU_StopAllNotes` preserve it for every loaded track.  When `MPU_NoteOn` finds no free slot
on a channel that is not hard locked, the new note is stored in slot 0 and the count stays
32. -/
theorem note_count_invariant :
    (∀ d, noteCountOk d → d.noteOnCount ≤ 32) ∧
    (∀ d, noteCountOk (MPU_InitData d)) ∧
    (∀ s idx r, notesOk s → MPU_NoteOn s idx = some r → notesOk r.1) ∧
    (∀ s idx d r, getData s idx = some d → noteCountOk d →
      (∀ i, i < 32 → rd d.noteOnChans i ≠ 0xFF) →
      ¬ hardLocked s (byteAt d.file d.sound &&& 0xF) → MPU_NoteOn s idx = some r →
      ∃ d', getData r.1 idx = some d' ∧ d.noteOnCount = 32 ∧ d'.noteOnCount = 32 ∧
        rd d'.noteOnChans 0 = byteAt d.file d.sound &&& 0xF) ∧
    (∀ s channel t, channel ≠ 0xFF → notesOk s → MPU_FlushChannel s channel = some t →
      notesOk t) ∧
    (∀ data s, noteCountOk data → noteCountOk (MPU_Interrupt_notes 32 0 (data, s)).1) ∧
    (∀ s idx t, notesOk s → MPU_StopAllNotes s idx = some t → notesOk t) := by
  refine ⟨noteCountOk_le, MPU_InitData_noteCountOk,
    fun s idx r hs h => MPU_NoteOn_notesOk s idx r hs h, ?_,
    fun s channel t hch hs h => MPU_FlushChannel_loop_notesOk channel hch _ 0 s t hs h,
    fun data s h => MPU_Interrupt_notes_ok 32 0 (data, s) (by omega) h,
    fun s idx t hs h => MPU_StopAllNotes_notesOk s idx t hs h⟩
  intro s idx d r hd hok hfull hlock h
  have hlt := getData_lt s idx d hd
  have hl : ¬ (rd s.lockStatus (byteAt d.file d.sound &&& 0xF) &&& 0x80 ≠ 0) := hlock
  have hf : (List.range 32).find? (fun i => rd d.noteOnChans i = 0xFF) = none := by
    rw [List.find?_eq_none]
    intro i hi
    simp [hfull i (List.mem_range.mp hi)]
  have h32 : d.noteOnCount = 32 := by
    have h2 : d.noteOnCount = d.noteOnChans.countP (fun c => c ≠ 0xFF) := hok.2
    rw [h2, ← hok.1]
    rw [List.countP_eq_length]
    intro a ha
    obtain ⟨j, hj, hja⟩ := List.getElem_of_mem ha
    have := hfull j (by rw [← hok.1]; exact hj)
    simp only [rd, List.getD_eq_getElem?_getD, List.getElem?_eq_getElem hj, Option.getD_some,
      hja] at this
    simp [this]
  unfold MPU_NoteOn at h
  rw [hd] at h
  simp only [Option.bind_eq_bind, Option.some_bind, if_neg hl, hf, Option.getD_none] at h
  rw [← Option.some.inj h]
  refine ⟨_, getData_setData_same _ idx _ hlt, h32, h32, ?_⟩
  exact rd_wr_same _ _ _ (by rw [hok.1]; omega)

/-- Witness of C22: the track of `MPU.notesDemo` holds 16 notes and its counter is 16. -/
theorem note_count_invariant_witness :
    noteCountOk MPU.notesDemoTrack ∧ MPU.notesDemoTrack.noteOnCount = 16 ∧
    MPU.notesDemoTrack.noteOnCount ≤ 32 :=
  ⟨by unfold noteCountOk activeNotes; decide, by decide,
    note_count_invariant.1 MPU.notesDemoTrack (by unfold noteCountOk activeNotes; decide)⟩

/-! ## The loop controllers -/

theorem range4 : List.range 4 = [0, 1, 2, 3] := rfl

theorem nextLoop_find (l : List Nat) (e : Nat) (he : e < 4) (hm : rd l e ≠ 0xFFFF)
    (hfree : ∀ j, e < j → j < 4 → rd l j = 0xFFFF) :
    (List.range 4).find? (fun i => rd l (3 - i) ≠ 0xFFFF) = some (3 - e) := by
  rw [range4]
  have h1 := hfree 1
  have h2 := hfree 2
  have h3 := hfree 3
  interval_cases e
  · simp [List.find?, h1, h2, h3, hm]
  · simp [List.find?, h2, h3, hm]
  · simp [List.find?, h3, hm]
  · simp [List.find?, hm]

theorem forLoop_find (l : List Nat) (e : Nat) (he : e < 4) (hm : rd l e = 0xFFFF)
    (hused : ∀ j, j < e → rd l j ≠ 0xFFFF) :
    (List.range 4).find? (fun i => rd l i = 0xFFFF) = some e := by
  rw [range4]
  have h0 := hused 0
  have h1 := hused 1
  have h2 := hused 2
  interval_cases e
  · simp [List.find?, hm]
  · simp [List.find?, h0, hm]
  · simp [List.find?, h0, h1, hm]
  · simp [List.find?, h0, h1, h2, hm]

theorem MPU_Control_forLoop_spec (d : MSData) (e n : Nat) (he : e < 4) (hn : n ≠ 0xFFFF)
    (h : loopDepth d e) :
    MPU_Control_forLoop d n =
      { d with variable_0060 := wr d.variable_0060 e n,
               variable_0050 := wr d.variable_0050 e d.sound } ∧
    loopTop (MPU_Control_forLoop d n) e n d.sound := by
  obtain ⟨_, hl6, hl5, hused, hfree⟩ := h
  have hf : MPU_Control_forLoop d n =
      { d with variable_0060 := wr d.variable_0060 e n,
               variable_0050 := wr d.variable_0050 e d.sound } := by
    unfold MPU_Control_forLoop
    rw [forLoop_find d.variable_0060 e he (hfree e he (Nat.le_refl e)) hused]
  refine ⟨hf, ?_⟩
  rw [hf]
  refine ⟨⟨by omega, by simp [wr_length, hl6], by simp [wr_length, hl5], ?_, ?_⟩, ?_, ?_⟩
  · intro j hj
    by_cases hje : j = e
    · subst hje
      show rd (wr d.variable_0060 j n) j ≠ 0xFFFF
      rw [rd_wr_same _ _ _ (by omega)]
      exact hn
    · show rd (wr d.variable_0060 e n) j ≠ 0xFFFF
      rw [rd_wr_ne _ _ _ _ (Ne.symm hje)]
      exact hused j (by omega)
  · intro j hj hej
    show rd (wr d.variable_0060 e n) j = 0xFFFF
    rw [rd_wr_ne _ _ _ _ (by omega)]
    exact hfree j hj (by omega)
  · show rd (wr d.variable_0060 e n) e = n
    exact rd_wr_same _ _ _ (by omega)
  · show rd (wr d.variable_0050 e d.sound) e = d.sound
    exact rd_wr_same _ _ _ (by omega)

theorem MPU_Control_nextLoop_spec (d : MSData) (e m c : Nat) (hm : m < 65536)
    (h : loopTop d e m c) :
    (m = 1 → MPU_Control_nextLoop d = { d with variable_0060 := wr d.variable_0060 e 0xFFFF } ∧
      loopDepth (MPU_Control_nextLoop d) e) ∧
    (2 ≤ m → MPU_Control_nextLoop d =
        { d with variable_0060 := wr d.variable_0060 e (m - 1), sound := c } ∧
      loopTop (MPU_Control_nextLoop d) e (m - 1) c) ∧
    (m = 0 → MPU_Control_nextLoop d = { d with sound := c } ∧
      loopTop (MPU_Control_nextLoop d) e 0 c) := by
  obtain ⟨⟨he, hl6, hl5, hused, hfree⟩, hrm, hrc⟩ := h
  have he4 : e < 4 := by omega
  have hfind := nextLoop_find d.variable_0060 e he4 (hused e (by omega))
    (fun j hj1 hj2 => hfree j hj2 (by omega))
  have h33 : 3 - (3 - e) = e := by omega
  have hsame : ∀ v, v ≠ 0xFFFF →
      loopDepth { d with variable_0060 := wr d.variable_0060 e v, sound := c } (e + 1) := by
    intro v hv
    refine ⟨he, by simp [wr_length, hl6], hl5, ?_, ?_⟩
    · intro j hj
      by_cases hje : j = e
      · subst hje
        show rd (wr d.variable_0060 j v) j ≠ 0xFFFF
        rw [rd_wr_same _ _ _ (by omega)]
        exact hv
      · show rd (wr d.variable_0060 e v) j ≠ 0xFFFF
        rw [rd_wr_ne _ _ _ _ (Ne.symm hje)]
        exact hused j hj
    · intro j hj hej
      show rd (wr d.variable_0060 e v) j = 0xFFFF
      rw [rd_wr_ne _ _ _ _ (by omega)]
      exact hfree j hj hej
  refine ⟨fun h1 => ?_, fun h2 => ?_, fun h0 => ?_⟩
  · have hf : MPU_Control_nextLoop d = { d with variable_0060 := wr d.variable_0060 e 0xFFFF } := by
      unfold MPU_Control_nextLoop
      rw [hfind]
      simp only [h33, hrm, h1]
      rfl
    refine ⟨hf, ?_⟩
    rw [hf]
    refine ⟨by omega, by simp [wr_length, hl6], hl5, ?_, ?_⟩
    · intro j hj
      show rd (wr d.variable_0060 e 0xFFFF) j ≠ 0xFFFF
      rw [rd_wr_ne _ _ _ _ (by omega)]
      exact hused j (by omega)
    · intro j hj hej
      by_cases hje : j = e
      · subst hje
        show rd (wr d.variable_0060 j 0xFFFF) j = 0xFFFF
        exact rd_wr_same _ _ _ (by omega)
      · show rd (wr d.variable_0060 e 0xFFFF) j = 0xFFFF
        rw [rd_wr_ne _ _ _ _ (Ne.symm hje)]
        exact hfree j hj (by omega)
  · have hne : ¬ (m ≠ 0 ∧ (m + 65535) % 65536 = 0) := by omega
    have hm0 : m ≠ 0 := by omega
    have hdec : (m + 65535) % 65536 = m - 1 := by omega
    have hf : MPU_Control_nextLoop d =
        { d with variable_0060 := wr d.variable_0060 e (m - 1), sound := c } := by
      unfold MPU_Control_nextLoop
      rw [hfind]
      have hne' : ¬ (m ≠ 0 ∧ m - 1 = 0) := by omega
      simp only [h33, hrm, hrc, if_neg hne, if_neg hne', if_pos hm0, hdec]
    refine ⟨hf, ?_⟩
    rw [hf]
    refine ⟨hsame (m - 1) (by omega), ?_, hrc⟩
    show rd (wr d.variable_0060 e (m - 1)) e = m - 1
    exact rd_wr_same _ _ _ (by omega)
  · have hne : ¬ (m ≠ 0 ∧ (m + 65535) % 65536 = 0) := by omega
    have hm0 : ¬ m ≠ 0 := by omega
    have hf : MPU_Control_nextLoop d = { d with sound := c } := by
      unfold MPU_Control_nextLoop
      rw [hfind]
      simp only [h33, hrm, hrc, if_neg hne, if_neg hm0]
    refine ⟨hf, ?_⟩
    rw [hf]
    exact ⟨⟨he, hl6, hl5, hused, hfree⟩, hrm.trans h0, hrc⟩

/-- A control change event is `MPU_Control` followed by a cursor advance of three bytes. -/
theorem MPU_Interrupt_event_control (s : MPU) (idx : Nat) (d : MSData) (t : MPU) (d1 : MSData)
    (hd : getData s idx = some d) (hB : byteAt d.file d.sound &&& 0xF0 = 0xB0)
    (hc : MPU_Control s idx (byteAt d.file d.sound &&& 0xF) (byteAt d.file (d.sound + 1))
      (byteAt d.file (d.sound + 2)) = some t)
    (hd1 : getData t idx = some d1) :
    MPU_Interrupt_event s idx = some (setData t idx { d1 with sound := d1.sound + 3 }) := by
  unfold MPU_Interrupt_event
  rw [hd]
  simp only [Option.bind_eq_bind, Option.some_bind, hB, hc, if_true, if_false,
    show ¬ ((176 : Nat) = 240) by decide, show ¬ ((176 : Nat) = 224) by decide,
    show ¬ ((176 : Nat) = 208) by decide, show ¬ ((176 : Nat) = 192) by decide, hd1]

theorem setData_setData (s : MPU) (idx : Nat) (a b : MSData) :
    setData (setData s idx a) idx b = setData s idx b := by
  simp [setData, List.set_set]

theorem byteAt_lt (file : List Nat) (off : Nat) : byteAt file off < 256 :=
  Nat.mod_lt _ (by omega)

/-- C21. Loop controller protocol.  On a control change event of a loaded track:
a FOR_LOOP (controller 116) with count `n` on a loop stack of depth `e < 4` records `n` and
the cursor of the FOR_LOOP event in entry `e` and leaves the cursor on the event that follows;
a NEXT_LOOP (controller 117, value at least 64) on a stack whose top entry `e` holds the count
`m` and the return cursor `c` leaves the cursor at `c + 3`, the event that follows the FOR_LOOP,
with the count `m - 1` when `m >= 2` and with the count unchanged when `m = 0`, and when
`m = 1` frees the entry and leaves the cursor behind the NEXT_LOOP; a NEXT_LOOP with a value
below 64 only advances the cursor.  Hence, along tracks `tr 0, tr 1, ...` met by successive
NEXT_LOOPs whose loop bodies leave the top entry as the previous NEXT_LOOP left it, a loop
recorded with count `n >= 1` jumps back at the first `n - 1` NEXT_LOOPs and is freed by the
`n`-th. -/
theorem loop_controller_protocol (s : MPU) (idx : Nat) (d : MSData)
    (hd : getData s idx = some d) (hB : byteAt d.file d.sound &&& 0xF0 = 0xB0) :
    (∀ e n, byteAt d.file (d.sound + 1) = 116 → byteAt d.file (d.sound + 2) = n → e < 4 →
      loopDepth d e →
      ∃ d', MPU_Interrupt_event s idx = some (setData s idx d') ∧ d'.sound = d.sound + 3 ∧
        loopTop d' e n d.sound ∧ d'.variable_0060 = wr d.variable_0060 e n ∧
        d'.variable_0050 = wr d.variable_0050 e d.sound) ∧
    (∀ e m c v, byteAt d.file (d.sound + 1) = 117 → byteAt d.file (d.sound + 2) = v → 64 ≤ v →
      m < 65536 → loopTop d e m c →
      ∃ d', MPU_Interrupt_event s idx = some (setData s idx d') ∧
        (2 ≤ m → d'.sound = c + 3 ∧ loopTop d' e (m - 1) c) ∧
        (m = 1 → d'.sound = d.sound + 3 ∧ loopDepth d' e) ∧
        (m = 0 → d'.sound = c + 3 ∧ loopTop d' e 0 c)) ∧
    (∀ v, byteAt d.file (d.sound + 1) = 117 → byteAt d.file (d.sound + 2) = v → v < 64 →
      MPU_Interrupt_event s idx = some (setData s idx { d with sound := d.sound + 3 })) ∧
    (∀ (tr : Nat → MSData) (e n c : Nat), 1 ≤ n → n < 65536 → loopTop (tr 0) e n c →
      (∀ k m, loopTop (MPU_Control_nextLoop (tr k)) e m c → loopTop (tr (k + 1)) e m c) →
      (∀ k, k + 1 < n → (MPU_Control_nextLoop (tr k)).sound = c ∧
        loopTop (MPU_Control_nextLoop (tr k)) e (n - (k + 1)) c) ∧
      (MPU_Control_nextLoop (tr (n - 1))).sound = (tr (n - 1)).sound ∧
      loopDepth (MPU_Control_nextLoop (tr (n - 1))) e) := by
  have hlt := getData_lt s idx d hd
  refine ⟨?_, ?_, ?_, ?_⟩
  · intro e n h116 hn he hdepth
    have hn' : n ≠ 0xFFFF := by
      have := byteAt_lt d.file (d.sound + 2)
      omega
    obtain ⟨hf, htop⟩ := MPU_Control_forLoop_spec d e n he hn' hdepth
    have hc : MPU_Control s idx (byteAt d.file d.sound &&& 0xF) (byteAt d.file (d.sound + 1))
        (byteAt d.file (d.sound + 2)) = some (setData s idx (MPU_Control_forLoop d n)) := by
      rw [MPU_Control_eq s idx d _ _ _ hd, h116, hn]
      rfl
    have hev := MPU_Interrupt_event_control s idx d _ _ hd hB hc
      (getData_setData_same s idx _ hlt)
    rw [setData_setData] at hev
    refine ⟨_, hev, ?_, ?_, ?_, ?_⟩
    · show (MPU_Control_forLoop d n).sound + 3 = d.sound + 3
      rw [hf]
    · obtain ⟨⟨h1, h2, h3, h4, h5⟩, h6, h7⟩ := htop
      exact ⟨⟨h1, h2, h3, h4, h5⟩, h6, h7⟩
    · show (MPU_Control_forLoop d n).variable_0060 = _
      rw [hf]
    · show (MPU_Control_forLoop d n).variable_0050 = _
      rw [hf]
  · intro e m c v h117 hv hv64 hm htop
    obtain ⟨h1, h2, h0⟩ := MPU_Control_nextLoop_spec d e m c hm htop
    have hc : MPU_Control s idx (byteAt d.file d.sound &&& 0xF) (byteAt d.file (d.sound + 1))
        (byteAt d.file (d.sound + 2)) = some (setData s idx (MPU_Control_nextLoop d)) := by
      rw [MPU_Control_eq s idx d _ _ _ hd, h117, hv]
      have : ¬ v < 64 := by omega
      simp only [show ¬ ((117 : Nat) = 1) by decide, show ¬ ((117 : Nat) = 7) by decide,
        show ¬ ((117 : Nat) = 10) by decide, show ¬ ((117 : Nat) = 11) by decide,
        show ¬ ((117 : Nat) = 64) by decide, show ¬ ((117 : Nat) = 110) by decide,
        show ¬ ((117 : Nat) = 111) by decide, show ¬ ((117 : Nat) = 112) by decide,
        show ¬ ((117 : Nat) = 114) by decide, show ¬ ((117 : Nat) = 115) by decide,
        show ¬ ((117 : Nat) = 116) by decide, if_false, if_true, if_neg this]
    have hev := MPU_Interrupt_event_control s idx d _ _ hd hB hc
      (getData_setData_same s idx _ hlt)
    rw [setData_setData] at hev
    refine ⟨_, hev, fun hm2 => ?_, fun hm1 => ?_, fun hm0 => ?_⟩
    · obtain ⟨hf, ⟨⟨a1, a2, a3, a4, a5⟩, a6, a7⟩⟩ := h2 hm2
      refine ⟨?_, ⟨a1, a2, a3, a4, a5⟩, a6, a7⟩
      show (MPU_Control_nextLoop d).sound + 3 = c + 3
      rw [hf]
    · obtain ⟨hf, a1, a2, a3, a4, a5⟩ := h1 hm1
      refine ⟨?_, a1, a2, a3, a4, a5⟩
      show (MPU_Control_nextLoop d).sound + 3 = d.sound + 3
      rw [hf]
    · obtain ⟨hf, ⟨⟨a1, a2, a3, a4, a5⟩, a6, a7⟩⟩ := h0 hm0
      refine ⟨?_, ⟨a1, a2, a3, a4, a5⟩, a6, a7⟩
      show (MPU_Control_nextLoop d).sound + 3 = c + 3
      rw [hf]
  · intro v h117 hv hv64
    have hc : MPU_Control s idx (byteAt d.file d.sound &&& 0xF) (byteAt d.file (d.sound + 1))
        (byteAt d.file (d.sound + 2)) = some s := by
      rw [MPU_Control_eq s idx d _ _ _ hd, h117, hv]
      simp only [show ¬ ((117 : Nat) = 1) by decide, show ¬ ((117 : Nat) = 7) by decide,
        show ¬ ((117 : Nat) = 10) by decide, show ¬ ((117 : Nat) = 11) by decide,
        show ¬ ((117 : Nat) = 64) by decide, show ¬ ((117 : Nat) = 110) by decide,
        show ¬ ((117 : Nat) = 111) by decide, show ¬ ((117 : Nat) = 112) by decide,
        show ¬ ((117 : Nat) = 114) by decide, show ¬ ((117 : Nat) = 115) by decide,
        show ¬ ((117 : Nat) = 116) by decide, if_false, if_true, if_pos hv64]
    exact MPU_Interrupt_event_control s idx d s d hd hB hc hd
  · intro tr e n c hn1 hn2 h0 hcarry
    have hinv : ∀ k, k < n → loopTop (tr k) e (n - k) c := by
      intro k
      induction k with
      | zero => intro _; exact h0
      | succ k ih =>
        intro hk
        have hk' := ih (by omega)
        have := ((MPU_Control_nextLoop_spec (tr k) e (n - k) c (by omega) hk').2.1 (by omega)).2
        have h2 := hcarry k _ this
        have he : n - k - 1 = n - (k + 1) := by omega
        rw [he] at h2
        exact h2
    refine ⟨fun k hk => ?_, ?_⟩
    · obtain ⟨hf, htop⟩ := (MPU_Control_nextLoop_spec (tr k) e (n - k) c (by omega)
        (hinv k (by omega))).2.1 (by omega)
      have he : n - k - 1 = n - (k + 1) := by omega
      rw [he] at htop hf
      refine ⟨?_, htop⟩
      rw [hf]
    · have hlast := hinv (n - 1) (by omega)
      have he : n - (n - 1) = 1 := by omega
      rw [he] at hlast
      obtain ⟨hf, hdep⟩ := (MPU_Control_nextLoop_spec (tr (n - 1)) e 1 c (by omega) hlast).1 rfl
      refine ⟨?_, hdep⟩
      rw [hf]

/-- Witness of C21: the first event of `MPU.loopDemo` is a FOR_LOOP with count 2 on an empty
loop stack. -/
theorem loop_controller_protocol_witness :
    getData MPU.loopDemo 0 = some MPU.loopDemoTrack ∧
    ∃ d', MPU_Interrupt_event MPU.loopDemo 0 = some (setData MPU.loopDemo 0 d') ∧
      d'.sound = MPU.loopDemoTrack.sound + 3 ∧ loopTop d' 0 2 MPU.loopDemoTrack.sound ∧
      d'.variable_0060 = wr MPU.loopDemoTrack.variable_0060 0 2 ∧
      d'.variable_0050 = wr MPU.loopDemoTrack.variable_0050 0 MPU.loopDemoTrack.sound :=
  ⟨by decide,
    (loop_controller_protocol MPU.loopDemo 0 MPU.loopDemoTrack (by decide) (by decide)).1 0 2
      (by decide) (by decide) (by decide) (by unfold loopDepth; decide)⟩

/-! ## The volume ramp over ticks -/

theorem sansEvents_volume {d d' : MSData} (h : d'.sansEvents = d.sansEvents) :
    d'.variable_0024 = d.variable_0024 ∧ d'.variable_0026 = d.variable_0026 ∧
    d'.variable_0028 = d.variable_0028 ∧ d'.variable_002C = d.variable_002C := by
  have h1 := congrArg MSData.variable_0024 h
  have h2 := congrArg MSData.variable_0026 h
  have h3 := congrArg MSData.variable_0028 h
  have h4 := congrArg MSData.variable_002C h
  exact ⟨h1, h2, h3, h4⟩

theorem MPU_Interrupt_track_frame (idx : Nat) (hidx : idx < 8) (fuel : Nat) (s t : MPU)
    (d : MSData) (hcur : s.msdataCurrent = idx) (hd : getData s idx = some d)
    (h : MPU_Interrupt_track fuel s idx = some t) :
    othersFrame idx s t ∧
    ((getData t idx = none ∧ t.msdataSize = (s.msdataSize + 65535) % 65536) ∨
     (t.msdataSize = s.msdataSize ∧ ∃ d', getData t idx = some d' ∧ volumeTick fuel d d')) := by
  have hlt := getData_lt s idx d hd
  unfold MPU_Interrupt_track at h
  rw [hd] at h
  simp only [Option.bind_eq_bind, Option.some_bind] at h
  by_cases hp : d.playing ≠ 1
  · rw [if_pos hp] at h
    have ht := Option.some.inj h
    subst ht
    exact ⟨othersFrame_refl idx s, Or.inr ⟨rfl, d, hd, rfl, rfl, Or.inr ⟨Or.inl hp, rfl, rfl⟩⟩⟩
  · rw [if_neg hp] at h
    obtain ⟨s1, hu, h⟩ := Option.bind_eq_some.mp h
    have hg0 := getData_setData_same s idx
      { d with variable_0030 := (d.variable_0030 + d.variable_0032) % 65536 } hlt
    have hs0 : (getData (setData s idx
        { d with variable_0030 := (d.variable_0030 + d.variable_0032) % 65536 }) idx).isSome := by
      rw [hg0]; rfl
    have hf := MPU_Interrupt_units_frame idx hidx fuel _ (setData s idx
        { d with variable_0030 := (d.variable_0030 + d.variable_0032) % 65536 }) s1 hcur hs0 hu
    have hf0 : othersFrame idx s s1 := othersFrame_trans (othersFrame_setData idx s _) hf.1
    cases hg : getData s1 idx with
    | none =>
      rw [hg] at h
      have ht := Option.some.inj h
      subst ht
      refine ⟨hf0, Or.inl ⟨hg, ?_⟩⟩
      rcases hf.2 with ⟨_, hsz⟩ | ⟨_, hsome, _⟩
      · exact hsz
      · rw [hg] at hsome; simp at hsome
    | some d1 =>
      rw [hg] at h
      have hlt1 := getData_lt s1 idx d1 hg
      have hsz : s1.msdataSize = s.msdataSize := by
        rcases hf.2 with ⟨hn, _⟩ | ⟨hsz, _, _⟩
        · rw [hg] at hn; simp at hn
        · exact hsz
      have hse : d1.sansEvents = d.sansEvents := by
        rcases hf.2 with ⟨hn, _⟩ | ⟨_, _, he⟩
        · rw [hg] at hn; simp at hn
        · rw [hg, hg0] at he
          exact Option.some.inj he
      obtain ⟨e24, e26, e28, e2C⟩ := sansEvents_volume hse
      simp only at h
      by_cases hp1 : d1.playing ≠ 1
      · rw [if_pos hp1] at h
        have ht := Option.some.inj h
        subst ht
        exact ⟨hf0, Or.inr ⟨hsz, d1, hg, e26, e2C, Or.inr ⟨Or.inl hp1, e24, e28⟩⟩⟩
      · rw [if_neg hp1] at h
        have hp1' : d1.playing = 1 := not_not.mp hp1
        have hcont : ∀ d2 : MSData, d2.playing = d1.playing →
            d2.variable_0024 = d1.variable_0024 → d2.variable_0026 = d1.variable_0026 →
            d2.variable_0028 = d1.variable_0028 → d2.variable_002C = d1.variable_002C →
            (if d2.variable_0024 ≠ d2.variable_0026 then
              (MPU_Interrupt_ramp fuel ((d2.variable_0028 + 0x53) % 4294967296)
                d2.variable_002C 0xFFFF).bind fun r =>
                if r.1 ≠ 0 then
                  some (MPU_ApplyVolume
                    (setData s1 idx { d2 with variable_0028 := r.2, variable_0024 := (MPU_Interrupt_rampStep d2.variable_0024 d2.variable_0026 r.1) })
                    { d2 with variable_0028 := r.2, variable_0024 := (MPU_Interrupt_rampStep d2.variable_0024 d2.variable_0026 r.1) })
                else some (setData s1 idx { d2 with variable_0028 := r.2 })
             else some (setData s1 idx d2)) = some t →
            othersFrame idx s t ∧
            ((getData t idx = none ∧ t.msdataSize = (s.msdataSize + 65535) % 65536) ∨
             (t.msdataSize = s.msdataSize ∧
              ∃ d', getData t idx = some d' ∧ volumeTick fuel d d')) := by
          intro d2 f1 f24 f26 f28 f2C h
          by_cases hv : d2.variable_0024 ≠ d2.variable_0026
          · rw [if_pos hv] at h
            obtain ⟨r, hr, h⟩ := Option.bind_eq_some.mp h
            have hne : d.variable_0024 ≠ d.variable_0026 := by
              rw [← e24, ← e26, ← f24, ← f26]; exact hv
            rw [f28, f2C, e28, e2C] at hr
            by_cases hr0 : r.1 ≠ 0
            · rw [if_pos hr0] at h
              have ht := Option.some.inj h
              subst ht
              refine ⟨?_, Or.inr ⟨?_, { d2 with variable_0028 := r.2, variable_0024 := (MPU_Interrupt_rampStep d2.variable_0024 d2.variable_0026 r.1) }, ?_, ?_⟩⟩
              · exact othersFrame_trans hf0 (othersFrame_trans (othersFrame_setData idx s1 _)
                  (othersFrame_of_eq (MPU_ApplyVolume_fields _ _).1
                    (MPU_ApplyVolume_fields _ _).2.1))
              · rw [(MPU_ApplyVolume_fields _ _).2.2]; exact hsz
              · rw [getData_congr (MPU_ApplyVolume_fields _ _).1]
                exact getData_setData_same s1 idx _ hlt1
              · refine ⟨f26.trans e26, f2C.trans e2C,
                  Or.inl ⟨f1.trans hp1', hne, r, hr, rfl, ?_⟩⟩
                rw [if_pos hr0]
                show MPU_Interrupt_rampStep d2.variable_0024 d2.variable_0026 r.1 = _
                rw [f24, f26, e24, e26]
            · rw [if_neg hr0] at h
              have ht := Option.some.inj h
              subst ht
              refine ⟨othersFrame_trans hf0 (othersFrame_setData idx s1 _),
                Or.inr ⟨hsz, { d2 with variable_0028 := r.2 },
                  getData_setData_same s1 idx _ hlt1, ?_⟩⟩
              refine ⟨f26.trans e26, f2C.trans e2C,
                Or.inl ⟨f1.trans hp1', hne, r, hr, rfl, ?_⟩⟩
              rw [if_neg hr0]
              exact f24.trans e24
          · rw [if_neg hv] at h
            have ht := Option.some.inj h
            subst ht
            have hveq : d.variable_0024 = d.variable_0026 := by
              rw [← e24, ← e26, ← f24, ← f26]; exact not_not.mp hv
            exact ⟨othersFrame_trans hf0 (othersFrame_setData idx s1 _),
              Or.inr ⟨hsz, d2, getData_setData_same s1 idx _ hlt1,
                f26.trans e26, f2C.trans e2C,
                Or.inr ⟨Or.inr hveq, f24.trans e24, f28.trans e28⟩⟩⟩
        by_cases hte : d1.variable_0032 ≠ d1.variable_0034
        · rw [if_pos hte] at h
          obtain ⟨r, _, h⟩ := Option.bind_eq_some.mp h
          by_cases hr : r.1 ≠ 0
          · rw [if_pos hr] at h
            exact hcont { d1 with variable_0036 := r.2, variable_0032 := (MPU_Interrupt_rampStep d1.variable_0032 d1.variable_0034 r.1) } rfl rfl rfl rfl rfl h
          · rw [if_neg hr] at h
            exact hcont { d1 with variable_0036 := r.2 } rfl rfl rfl rfl rfl h
        · rw [if_neg hte] at h
          exact hcont d1 rfl rfl rfl rfl rfl h

theorem find_sorted_first (q : Nat → Bool) :
    ∀ (l : List Nat) (k : Nat), l.Pairwise (· < ·) → l.find? q = some k →
      q k = true ∧ k ∈ l ∧ ∀ i ∈ l, i < k → q i = false := by
  intro l
  induction l with
  | nil => intro k _ h; simp at h
  | cons a l ih =>
    intro k hp h
    rw [List.pairwise_cons] at hp
    by_cases hq : q a = true
    · rw [List.find?_cons_of_pos _ hq] at h
      have hk := Option.some.inj h
      subst hk
      refine ⟨hq, List.mem_cons_self _ _, ?_⟩
      intro i hi hlt
      rcases List.mem_cons.mp hi with rfl | hi
      · omega
      · have := hp.1 i hi; omega
    · rw [List.find?_cons_of_neg _ hq] at h
      obtain ⟨h1, h2, h3⟩ := ih k hp.2 h
      refine ⟨h1, List.mem_cons_of_mem _ h2, ?_⟩
      intro i hi hlt
      rcases List.mem_cons.mp hi with rfl | hi
      · simpa using hq
      · exact h3 i hi hlt

theorem countP_flip (f g : Nat → Bool) (k : Nat) :
    ∀ l : List Nat, l.Nodup → k ∈ l → f k = true → g k = false →
      (∀ i ∈ l, i ≠ k → f i = g i) → l.countP f = l.countP g + 1 := by
  intro l
  induction l with
  | nil => intro _ hk; simp at hk
  | cons a l ih =>
    intro hn hk hf hg hfg
    rw [List.nodup_cons] at hn
    by_cases hak : a = k
    · subst hak
      rw [List.countP_cons_of_pos _ _ hf, List.countP_cons_of_neg _ _ (by simp [hg])]
      congr 1
      apply List.countP_congr
      intro x hx
      have hxa : x ≠ a := fun e => hn.1 (e ▸ hx)
      rw [hfg x (List.mem_cons_of_mem _ hx) hxa]
    · have hk' : k ∈ l := by
        rcases List.mem_cons.mp hk with e | e
        · exact absurd e.symm hak
        · exact e
      have := ih hn.2 hk' hf hg (fun i hi hne => hfg i (List.mem_cons_of_mem _ hi) hne)
      have hfa := hfg a (List.mem_cons_self _ _) hak
      by_cases hfa1 : f a = true
      · rw [List.countP_cons_of_pos _ _ hfa1, List.countP_cons_of_pos _ _ (hfa ▸ hfa1), this]
      · rw [List.countP_cons_of_neg _ _ hfa1, List.countP_cons_of_neg _ _ (hfa ▸ hfa1), this]


theorem MPU_Interrupt_scan_spec (s : MPU) (p : Nat) :
    (8 ≤ MPU_Interrupt_scan s p ∧ ∀ i, p ≤ i → i < 8 → getData s i = none) ∨
    (MPU_Interrupt_scan s p < 8 ∧ p ≤ MPU_Interrupt_scan s p ∧
      (getData s (MPU_Interrupt_scan s p)).isSome ∧
      ∀ i, p ≤ i → i < MPU_Interrupt_scan s p → getData s i = none) := by
  unfold MPU_Interrupt_scan
  cases hf : (List.range 8).find? (fun i => p ≤ i ∧ (getData s i).isSome) with
  | none =>
    left
    refine ⟨by simp, ?_⟩
    intro i hpi hi
    rw [List.find?_eq_none] at hf
    have := hf i (List.mem_range.mpr hi)
    simp only [decide_eq_true_eq, not_and, Bool.not_eq_true, Option.not_isSome,
      Option.isNone_iff_eq_none] at this
    simpa using this hpi
  | some k =>
    right
    obtain ⟨h1, h2, h3⟩ := find_sorted_first _ _ k (List.pairwise_lt_range 8) hf
    simp only [decide_eq_true_eq] at h1
    simp only [Option.getD_some]
    refine ⟨List.mem_range.mp h2, h1.1, h1.2, ?_⟩
    intro i hpi hik
    have := h3 i (List.mem_range.mpr (by have := List.mem_range.mp h2; omega)) hik
    simp only [decide_eq_false_iff_not, not_and, Bool.not_eq_true, Option.not_isSome,
      Option.isNone_iff_eq_none] at this
    simpa using this hpi

theorem loadedFrom_scan (s : MPU) (p k : Nat) (hk : k < 8) (hpk : p ≤ k)
    (hs : (getData s k).isSome) (hmin : ∀ i, p ≤ i → i < k → getData s i = none) :
    loadedFrom s p = loadedFrom s (k + 1) + 1 := by
  unfold loadedFrom
  apply countP_flip _ _ k _ (List.nodup_range 8) (List.mem_range.mpr hk)
  · simp [hpk, hs]
  · simp
  · intro i _ hik
    by_cases h1 : k + 1 ≤ i
    · have : p ≤ i := by omega
      simp [h1, this]
    · have hlt : i < k := by omega
      by_cases h2 : p ≤ i
      · simp [h1, h2, hmin i h2 hlt]
      · simp [h1, h2]

theorem loadedFrom_congr (s t : MPU) (q : Nat)
    (h : ∀ i, i < 8 → q ≤ i → (getData t i).isSome = (getData s i).isSome) :
    loadedFrom t q = loadedFrom s q := by
  unfold loadedFrom
  apply List.countP_congr
  intro i hi
  have hi8 := List.mem_range.mp hi
  by_cases hq : q ≤ i
  · simp [hq, h i hi8 hq]
  · simp [hq]

theorem loadedFrom_pos (s : MPU) (p idx : Nat) (hp : p ≤ idx) (hidx : idx < 8)
    (hs : (getData s idx).isSome) : 1 ≤ loadedFrom s p := by
  unfold loadedFrom
  apply List.countP_pos_iff.mpr
  exact ⟨idx, List.mem_range.mpr hidx, by simp [hp, hs]⟩

theorem loadedFrom_le (s : MPU) (p : Nat) : loadedFrom s p ≤ 8 := by
  unfold loadedFrom
  have := List.countP_le_length (fun i => decide (p ≤ i ∧ (getData s i).isSome = true))
    (l := List.range 8)
  simpa using this

theorem othersFrame_isSome {j : Nat} {s t : MPU} (h : othersFrame j s t) (i : Nat) (hi : i ≠ j) :
    (getData t i).isSome = (getData s i).isSome := by
  have := congrArg Option.isSome (h.2.2 i hi)
  simpa using this

theorem othersFrame_getData {j : Nat} {s t : MPU} (h : othersFrame j s t) (i : Nat) (hi : i ≠ j)
    (d : MSData) (hd : getData s i = some d) :
    ∃ d', getData t i = some d' ∧ d'.sansNotes = d.sansNotes := by
  have := h.2.2 i hi
  rw [hd] at this
  cases hg : getData t i with
  | none => rw [hg] at this; simp at this
  | some d' =>
    rw [hg] at this
    exact ⟨d', rfl, Option.some.inj this⟩


theorem MPU_Interrupt_tracks_succ (fuel count : Nat) (s : MPU) :
    MPU_Interrupt_tracks fuel (count + 1) s =
      if MPU_Interrupt_scan s ((s.msdataCurrent + 1) % 65536) ≥ 8 then
        some { s with msdataCurrent := MPU_Interrupt_scan s ((s.msdataCurrent + 1) % 65536) }
      else
        (MPU_Interrupt_track fuel
          { s with msdataCurrent := MPU_Interrupt_scan s ((s.msdataCurrent + 1) % 65536) }
          (MPU_Interrupt_scan s ((s.msdataCurrent + 1) % 65536))).bind
          (MPU_Interrupt_tracks fuel count) := by
  rw [MPU_Interrupt_tracks]
  rfl

/-- A property of the engine that does not depend on `s_mpu_msdataCurrent` and that the work on
one loaded track keeps is kept by the loop over the tracks. -/
theorem MPU_Interrupt_tracks_invariant (fuel : Nat) (P : MPU → Prop)
    (hcur : ∀ s c, P s → P { s with msdataCurrent := c })
    (htrack : ∀ s i d t, P s → i < 8 → s.msdataCurrent = i → getData s i = some d →
      MPU_Interrupt_track fuel s i = some t → P t) :
    ∀ count s t, P s → MPU_Interrupt_tracks fuel count s = some t → P t := by
  intro count
  induction count with
  | zero =>
    intro s t hP h
    unfold MPU_Interrupt_tracks at h
    rw [← Option.some.inj h]; exact hP
  | succ count ih =>
    intro s t hP h
    rw [MPU_Interrupt_tracks_succ] at h
    by_cases h8 : MPU_Interrupt_scan s ((s.msdataCurrent + 1) % 65536) ≥ 8
    · rw [if_pos h8] at h
      rw [← Option.some.inj h]; exact hcur s _ hP
    · rw [if_neg h8] at h
      obtain ⟨s2, h2, h⟩ := Option.bind_eq_some.mp h
      rcases MPU_Interrupt_scan_spec s ((s.msdataCurrent + 1) % 65536) with ⟨hge, _⟩ | ⟨hlt, _, hs, _⟩
      · exact absurd hge h8
      · obtain ⟨d, hd⟩ := Option.isSome_iff_exists.mp hs
        exact ih s2 t (htrack _ _ d s2 (hcur s _ hP) hlt rfl hd h2) h

/-- The loop over the tracks leaves a slot that it has passed as it is, up to the note table. -/
theorem MPU_Interrupt_tracks_past (fuel idx : Nat) :
    ∀ count s t, idx < (s.msdataCurrent + 1) % 65536 →
      MPU_Interrupt_tracks fuel count s = some t →
      (getData t idx).map MSData.sansNotes = (getData s idx).map MSData.sansNotes := by
  intro count
  induction count with
  | zero =>
    intro s t _ h
    unfold MPU_Interrupt_tracks at h
    rw [← Option.some.inj h]
  | succ count ih =>
    intro s t hp h
    rw [MPU_Interrupt_tracks_succ] at h
    by_cases h8 : MPU_Interrupt_scan s ((s.msdataCurrent + 1) % 65536) ≥ 8
    · rw [if_pos h8] at h
      rw [← Option.some.inj h]; rfl
    · rw [if_neg h8] at h
      obtain ⟨s2, h2, h⟩ := Option.bind_eq_some.mp h
      rcases MPU_Interrupt_scan_spec s ((s.msdataCurrent + 1) % 65536) with ⟨hge, _⟩ | ⟨hlt, hpk, hs, _⟩
      · exact absurd hge h8
      · obtain ⟨d, hd⟩ := Option.isSome_iff_exists.mp hs
        have hf := (MPU_Interrupt_track_frame (MPU_Interrupt_scan s ((s.msdataCurrent + 1) % 65536))
          hlt fuel { s with msdataCurrent := MPU_Interrupt_scan s ((s.msdataCurrent + 1) % 65536) }
          s2 d rfl hd h2).1
        have hc2 : s2.msdataCurrent = MPU_Interrupt_scan s ((s.msdataCurrent + 1) % 65536) := hf.2.1
        have hne : idx ≠ MPU_Interrupt_scan s ((s.msdataCurrent + 1) % 65536) := by omega
        have := ih s2 t (by rw [hc2]; omega) h
        rw [this, hf.2.2 idx hne]
        rfl

/-- When the count covers the loaded tracks still ahead, the loop over the tracks works exactly
once on a loaded track that is still ahead. -/
theorem MPU_Interrupt_tracks_visit (fuel idx : Nat) (hidx : idx < 8) :
    ∀ count s t d, (s.msdataCurrent + 1) % 65536 ≤ idx → getData s idx = some d →
      loadedFrom s ((s.msdataCurrent + 1) % 65536) ≤ count →
      MPU_Interrupt_tracks fuel count s = some t →
      getData t idx = none ∨
      ∃ d1 d1' d', d1.sansNotes = d.sansNotes ∧ volumeTick fuel d1 d1' ∧
        getData t idx = some d' ∧ d'.sansNotes = d1'.sansNotes := by
  intro count
  induction count with
  | zero =>
    intro s t d hp hd hc _
    have := loadedFrom_pos s _ idx hp hidx (by rw [hd]; rfl)
    omega
  | succ count ih =>
    intro s t d hp hd hc h
    rw [MPU_Interrupt_tracks_succ] at h
    rcases MPU_Interrupt_scan_spec s ((s.msdataCurrent + 1) % 65536) with
      ⟨_, hnone⟩ | ⟨hlt, hpk, hs, hmin⟩
    · have := hnone idx hp hidx
      rw [hd] at this; simp at this
    · rw [if_neg (by omega)] at h
      obtain ⟨s2, h2, h⟩ := Option.bind_eq_some.mp h
      obtain ⟨dk, hdk⟩ := Option.isSome_iff_exists.mp hs
      have hfr := MPU_Interrupt_track_frame (MPU_Interrupt_scan s ((s.msdataCurrent + 1) % 65536))
        hlt fuel { s with msdataCurrent := MPU_Interrupt_scan s ((s.msdataCurrent + 1) % 65536) }
        s2 dk rfl hdk h2
      have hc2 : s2.msdataCurrent = MPU_Interrupt_scan s ((s.msdataCurrent + 1) % 65536) :=
        hfr.1.2.1
      have hle : MPU_Interrupt_scan s ((s.msdataCurrent + 1) % 65536) ≤ idx := by
        by_contra hgt
        have := hmin idx hp (by omega)
        rw [hd] at this; simp at this
      have hpast := MPU_Interrupt_tracks_past fuel idx count s2 t
      by_cases he : MPU_Interrupt_scan s ((s.msdataCurrent + 1) % 65536) = idx
      · rw [he] at hfr hc2 hdk
        have hdk' : getData s idx = some dk := hdk
        rw [hd] at hdk'
        have hdd := Option.some.inj hdk'
        subst hdd
        have hpast' := hpast (by rw [hc2]; omega) h
        rcases hfr.2 with ⟨hn, _⟩ | ⟨_, d1', hd1', hvt⟩
        · left
          rw [hn] at hpast'
          simpa using hpast'
        · right
          rw [hd1'] at hpast'
          cases hg : getData t idx with
          | none => rw [hg] at hpast'; simp at hpast'
          | some d' =>
            rw [hg] at hpast'
            exact ⟨d, d1', d', rfl, hvt, rfl, Option.some.inj hpast'⟩
      · have hne : idx ≠ MPU_Interrupt_scan s ((s.msdataCurrent + 1) % 65536) := fun e => he e.symm
        obtain ⟨d2, hd2, hd2e⟩ := othersFrame_getData hfr.1 idx hne d hd
        have hcount : loadedFrom s2 ((s2.msdataCurrent + 1) % 65536) ≤ count := by
          rw [hc2]
          have e1 : (MPU_Interrupt_scan s ((s.msdataCurrent + 1) % 65536) + 1) % 65536 =
              MPU_Interrupt_scan s ((s.msdataCurrent + 1) % 65536) + 1 := by omega
          rw [e1]
          have e2 := loadedFrom_scan s _ _ hlt hpk hs hmin
          have e3 : loadedFrom s2 (MPU_Interrupt_scan s ((s.msdataCurrent + 1) % 65536) + 1) =
              loadedFrom s (MPU_Interrupt_scan s ((s.msdataCurrent + 1) % 65536) + 1) := by
            apply loadedFrom_congr
            intro i _ hi
            exact othersFrame_isSome hfr.1 i (by omega)
          omega
        rcases ih s2 t d2 (by rw [hc2]; omega) hd2 hcount h with hn | ⟨d1, d1', d', h1, h2, h3, h4⟩
        · exact Or.inl hn
        · exact Or.inr ⟨d1, d1', d', h1.trans hd2e, h2, h3, h4⟩

theorem sansNotes_volume {d d' : MSData} (h : d'.sansNotes = d.sansNotes) :
    d'.playing = d.playing ∧ d'.variable_0024 = d.variable_0024 ∧
    d'.variable_0026 = d.variable_0026 ∧ d'.variable_0028 = d.variable_0028 ∧
    d'.variable_002C = d.variable_002C := by
  have h0 := congrArg MSData.playing h
  have h1 := congrArg MSData.variable_0024 h
  have h2 := congrArg MSData.variable_0026 h
  have h3 := congrArg MSData.variable_0028 h
  have h4 := congrArg MSData.variable_002C h
  exact ⟨h0, h1, h2, h3, h4⟩

theorem loadedFrom_emptied (s t : MPU) (k : Nat) (hk : k < 8) (hs : (getData s k).isSome)
    (ht : getData t k = none)
    (ho : ∀ i, i ≠ k → (getData t i).isSome = (getData s i).isSome) :
    loadedFrom s 0 = loadedFrom t 0 + 1 := by
  unfold loadedFrom
  apply countP_flip _ _ k _ (List.nodup_range 8) (List.mem_range.mpr hk)
  · simp [hs]
  · simp [ht]
  · intro i _ hik
    simp [ho i hik]

/-- A tick keeps the count of loaded tracks equal to the number of loaded slots. -/
theorem MPU_Interrupt_keeps_count (fuel : Nat) (s t : MPU) (h0 : s.msdataSize = loadedFrom s 0)
    (h : MPU_Interrupt fuel s = some t) : t.msdataSize = loadedFrom t 0 := by
  unfold MPU_Interrupt at h
  refine MPU_Interrupt_tracks_invariant fuel (fun x => x.msdataSize = loadedFrom x 0)
    (fun _ _ hP => hP) ?_ s.msdataSize { s with msdataCurrent := 0xFFFF } t h0 h
  intro x i d y hP hi hcur hd hy
  obtain ⟨hof, hown⟩ := MPU_Interrupt_track_frame i hi fuel x y d hcur hd hy
  have hsome : (getData x i).isSome := by rw [hd]; rfl
  rcases hown with ⟨hn, hsz⟩ | ⟨hsz, d', hd', _⟩
  · have e := loadedFrom_emptied x y i hi hsome hn (fun j hj => othersFrame_isSome hof j hj)
    have hle := loadedFrom_le x 0
    show y.msdataSize = loadedFrom y 0
    rw [hsz]
    have hP' : x.msdataSize = loadedFrom x 0 := hP
    omega
  · show y.msdataSize = loadedFrom y 0
    rw [hsz]
    have hP' : x.msdataSize = loadedFrom x 0 := hP
    rw [hP']
    symm
    apply loadedFrom_congr
    intro j _ _
    by_cases hj : j = i
    · rw [hj, hd', hd]; rfl
    · exact othersFrame_isSome hof j hj

/-- A tick works exactly once on a loaded track when the count of loaded tracks is right. -/
theorem MPU_Interrupt_visit (fuel idx : Nat) (hidx : idx < 8) (s t : MPU) (d : MSData)
    (hd : getData s idx = some d) (hsz : s.msdataSize = loadedFrom s 0)
    (h : MPU_Interrupt fuel s = some t) :
    getData t idx = none ∨
    ∃ d1 d1' d', d1.sansNotes = d.sansNotes ∧ volumeTick fuel d1 d1' ∧
      getData t idx = some d' ∧ d'.sansNotes = d1'.sansNotes := by
  unfold MPU_Interrupt at h
  refine MPU_Interrupt_tracks_visit fuel idx hidx s.msdataSize
    { s with msdataCurrent := 0xFFFF } t d ?_ hd ?_ h
  · show (0xFFFF + 1) % 65536 ≤ idx
    omega
  · show loadedFrom s ((0xFFFF + 1) % 65536) ≤ s.msdataSize
    have e : (0xFFFF + 1) % 65536 = 0 := by omega
    rw [e]
    omega

theorem MPU_Interrupt_rampStep_between (x T i : Nat) (hx : x < 65536) (hT : T < 65536) :
    (x ≤ T → x ≤ MPU_Interrupt_rampStep x T i ∧ MPU_Interrupt_rampStep x T i ≤ T) ∧
    (T ≤ x → T ≤ MPU_Interrupt_rampStep x T i ∧ MPU_Interrupt_rampStep x T i ≤ x) := by
  unfold MPU_Interrupt_rampStep
  by_cases hc : x ≥ T
  · rw [if_pos hc]
    have e : (max ((x : Int) - i) T).toNat % 65536 = (max ((x : Int) - i) T).toNat := by
      apply Nat.mod_eq_of_lt
      omega
    rw [e]
    constructor
    · intro hxT; omega
    · intro _; omega
  · rw [if_neg hc]
    have e : min (x + i) T % 65536 = min (x + i) T := by
      apply Nat.mod_eq_of_lt
      omega
    rw [e]
    constructor
    · intro _; omega
    · intro hTx; omega

/-- One tick leaves the master volume of a track between its old value and the target. -/
theorem MPU_Interrupt_volume_between (fuel idx : Nat) (s t : MPU) (d d' : MSData)
    (h : MPU_Interrupt fuel s = some t) (hd : getData s idx = some d)
    (hd' : getData t idx = some d')
    (hc : d.variable_0024 < 65536) (hT : d.variable_0026 < 65536) :
    d'.variable_0026 = d.variable_0026 ∧
    (d.variable_0024 ≤ d.variable_0026 →
      d.variable_0024 ≤ d'.variable_0024 ∧ d'.variable_0024 ≤ d.variable_0026) ∧
    (d.variable_0026 ≤ d.variable_0024 →
      d.variable_0026 ≤ d'.variable_0024 ∧ d'.variable_0024 ≤ d.variable_0024) := by
  unfold MPU_Interrupt at h
  have key := MPU_Interrupt_tracks_invariant fuel
    (fun x => getData x idx = none ∨ ∃ e, getData x idx = some e ∧
      e.variable_0026 = d.variable_0026 ∧
      (d.variable_0024 ≤ d.variable_0026 →
        d.variable_0024 ≤ e.variable_0024 ∧ e.variable_0024 ≤ d.variable_0026) ∧
      (d.variable_0026 ≤ d.variable_0024 →
        d.variable_0026 ≤ e.variable_0024 ∧ e.variable_0024 ≤ d.variable_0024))
    (fun _ _ hP => hP) ?_ s.msdataSize { s with msdataCurrent := 0xFFFF } t
    (Or.inr ⟨d, hd, rfl, fun hle => ⟨Nat.le_refl _, hle⟩, fun hle => ⟨hle, Nat.le_refl _⟩⟩) h
  · rcases key with hn | ⟨e, he, h1, h2, h3⟩
    · rw [hd'] at hn; simp at hn
    · rw [hd'] at he
      have := Option.some.inj he
      subst this
      exact ⟨h1, h2, h3⟩
  · intro x i dx y hP hi hcur hdx hy
    obtain ⟨hof, hown⟩ := MPU_Interrupt_track_frame i hi fuel x y dx hcur hdx hy
    by_cases hii : idx = i
    · subst hii
      rcases hP with hn | ⟨e, he, h1, h2, h3⟩
      · rw [hdx] at hn; simp at hn
      · rw [hdx] at he
        have := Option.some.inj he
        subst this
        rcases hown with ⟨hn, _⟩ | ⟨_, e', he', g26, _, hvt⟩
        · exact Or.inl hn
        · right
          refine ⟨e', he', g26.trans h1, ?_⟩
          have hx : dx.variable_0024 < 65536 := by
            rcases Nat.le_total d.variable_0024 d.variable_0026 with hle | hle
            · have := (h2 hle).2; omega
            · have := (h3 hle).2; omega
          rcases hvt with ⟨_, _, r, _, _, hv⟩ | ⟨_, hv, _⟩
          · by_cases hr : r.1 ≠ 0
            · rw [if_pos hr] at hv
              rw [hv]
              have hb := MPU_Interrupt_rampStep_between dx.variable_0024 dx.variable_0026 r.1 hx
                (by rw [h1]; exact hT)
              rw [h1] at hb ⊢
              constructor
              · intro hle
                have a1 := h2 hle
                have a2 := hb.1 a1.2
                omega
              · intro hle
                have a1 := h3 hle
                have a2 := hb.2 a1.1
                omega
            · rw [if_neg hr] at hv
              rw [hv]
              exact ⟨h2, h3⟩
          · rw [hv]
            exact ⟨h2, h3⟩
    · rcases hP with hn | ⟨e, he, h1, h2, h3⟩
      · left
        have := hof.2.2 idx hii
        rw [hn] at this
        simpa using this
      · right
        obtain ⟨e', he', hee⟩ := othersFrame_getData hof idx hii e he
        obtain ⟨_, g24, g26, _, _⟩ := sansNotes_volume hee
        refine ⟨e', he', g26.trans h1, ?_, ?_⟩
        · rw [g24]; exact h2
        · rw [g24]; exact h3

theorem getData_isSome_setData (s : MPU) (idx : Nat) (d d' : MSData) (hd : getData s idx = some d)
    (i : Nat) : (getData (setData s idx d') i).isSome = (getData s i).isSome := by
  by_cases hi : idx = i
  · subst hi
    rw [getData_setData_same s idx d' (getData_lt s idx d hd), hd]
    rfl
  · rw [getData_setData_ne s idx i d' hi]

/-- What `MPU_SetVolume` installs for a ramp from 0 up to 100 with a non zero duration hint. -/
theorem MPU_SetVolume_ramp_up (s t : MPU) (idx h : Nat) (d : MSData) (hidx : idx < 8)
    (hd : getData s idx = some d) (hc : d.variable_0024 = 0) (hh : h % 65536 ≠ 0)
    (hset : MPU_SetVolume s idx 100 h = some t) :
    t.msdataSize = s.msdataSize ∧ (∀ i, (getData t i).isSome = (getData s i).isSome) ∧
    ∃ d', getData t idx = some d' ∧ d'.variable_0024 = 0 ∧ d'.variable_0026 = 100 ∧
      d'.variable_002C = max 1 (10 * (h % 65536) / 100) ∧ d'.variable_0028 = 0 := by
  have hlt := getData_lt s idx d hd
  unfold MPU_SetVolume at hset
  rw [if_neg (by omega), hd] at hset
  simp only [Option.bind_eq_bind, Option.some_bind] at hset
  rw [if_neg hh] at hset
  have hdiff : (100 % 65536 + 65536 - d.variable_0024) % 65536 = 100 := by rw [hc]
  rw [hdiff] at hset
  rw [if_neg (by omega)] at hset
  have ht := Option.some.inj hset
  subst ht
  have hq : 10 * (h % 65536) / 100 % 4294967296 = 10 * (h % 65536) / 100 :=
    Nat.mod_eq_of_lt (by omega)
  refine ⟨rfl, fun i => getData_isSome_setData s idx d _ hd i, _,
    getData_setData_same s idx _ hlt, hc, rfl, ?_, rfl⟩
  show (if _ = 0 then 1 else _) = _
  rw [hq]
  split
  · rename_i hz; rw [hz]; rfl
  · rename_i hz; omega


theorem ramp_div_succ (step k : Nat) (hs : 1 ≤ step) :
    83 * (k + 1) / step = 83 * k / step + (83 * k % step + 83) / step ∧
    83 * (k + 1) % step = (83 * k % step + 83) % step := by
  have e : 83 * (k + 1) = step * (83 * k / step) + (83 * k % step + 83) := by
    have := Nat.div_add_mod (83 * k) step
    omega
  rw [e]
  exact ⟨Nat.mul_add_div (by omega) _ _, Nat.mul_add_mod _ _ _⟩

/-- The step count of the ramp loop of one tick on an accumulator below the threshold. -/
theorem MPU_Interrupt_ramp_tick (fuel step a : Nat) (r : Nat × Nat) (hs1 : 1 ≤ step)
    (hs2 : step ≤ 655350) (ha : a < step)
    (h : MPU_Interrupt_ramp fuel ((a + 0x53) % 4294967296) step 0xFFFF = some r) :
    r.1 = (a + 83) / step ∧ r.2 = (a + 83) % step := by
  have hv : (a + 0x53) % 4294967296 = a + 83 := by omega
  rw [hv] at h
  have := MPU_Interrupt_ramp_spec step (by omega) (by omega) fuel (a + 83) 0xFFFF r (by omega) h
  rw [this]
  have hq : (a + 83) / step < 84 := Nat.div_lt_of_lt_mul (by omega)
  refine ⟨?_, rfl⟩
  show (0xFFFF + 1 + (a + 83) / step) % 65536 = (a + 83) / step
  generalize (a + 83) / step = q at hq ⊢
  omega

/-- The invariant of a run of ticks over a ramp from 0 up to 100: the count of loaded tracks
is right, target and threshold are kept, the volume after `k` ticks is `min 100 (83 k / step)`
and, while it is below 100, the accumulator holds `83 k % step`. -/
theorem volume_ramp_run (fuel idx N step : Nat) (run : Nat → MPU) (hidx : idx < 8)
    (hs1 : 1 ≤ step) (hs2 : step ≤ 655350)
    (h0 : (run 0).msdataSize = loadedFrom (run 0) 0)
    (hd0 : ∃ d, getData (run 0) idx = some d ∧ d.variable_0024 = 0 ∧ d.variable_0026 = 100 ∧
      d.variable_002C = step ∧ d.variable_0028 = 0)
    (hrun : ∀ k, k < N → MPU_Interrupt fuel (run k) = some (run (k + 1)))
    (hplay : ∀ k, k ≤ N → (getData (run k) idx).map MSData.playing = some 1) :
    ∀ k, k ≤ N → (run k).msdataSize = loadedFrom (run k) 0 ∧
      ∃ d, getData (run k) idx = some d ∧ d.variable_0026 = 100 ∧ d.variable_002C = step ∧
        d.variable_0024 = min 100 (83 * k / step) ∧
        (d.variable_0024 ≠ 100 → d.variable_0028 = 83 * k % step) := by
  intro k
  induction k with
  | zero =>
    intro _
    obtain ⟨d, hd, h24, h26, h2C, h28⟩ := hd0
    refine ⟨h0, d, hd, h26, h2C, ?_, fun _ => ?_⟩
    · rw [h24]; simp
    · rw [h28]; simp
  | succ k ih =>
    intro hk
    obtain ⟨hsz, d, hd, h26, h2C, h24, h28⟩ := ih (by omega)
    have hr := hrun k (by omega)
    refine ⟨MPU_Interrupt_keeps_count fuel _ _ hsz hr, ?_⟩
    have hp := hplay (k + 1) hk
    obtain ⟨hdiv, hmod⟩ := ramp_div_succ step k hs1
    rcases MPU_Interrupt_visit fuel idx hidx _ _ d hd hsz hr with hn | ⟨d1, d1', d', e1, hvt, hd', e2⟩
    · rw [hn] at hp; simp at hp
    · rw [hd'] at hp
      have hp' : d'.playing = 1 := by simpa using hp
      obtain ⟨_, a24, a26, a28, a2C⟩ := sansNotes_volume e1
      obtain ⟨b1, b24, b26, b28, b2C⟩ := sansNotes_volume e2
      obtain ⟨v26, v2C, hcase⟩ := hvt
      refine ⟨d', hd', by rw [b26, v26, a26, h26], by rw [b2C, v2C, a2C, h2C], ?_⟩
      rcases hcase with ⟨_, hne, r, hramp, r28, r24⟩ | ⟨hor, s24, s28⟩
      · have hne' : d.variable_0024 ≠ 100 := by
          rw [a24, a26, h26] at hne; exact hne
        have hacc := h28 hne'
        have hlt : 83 * k / step < 100 := by
          rw [h24] at hne'
          by_contra hc
          exact hne' (Nat.min_eq_left (by omega))
        have hvol : d.variable_0024 = 83 * k / step := by
          rw [h24]; exact Nat.min_eq_right (by omega)
        rw [a28, a2C, h2C, hacc] at hramp
        obtain ⟨q1, q2⟩ := MPU_Interrupt_ramp_tick fuel step _ r hs1 hs2
          (Nat.mod_lt _ (by omega)) hramp
        have hnew : d'.variable_0024 = min 100 (83 * (k + 1) / step) := by
          rw [b24, r24, a24, a26, h26, hvol, hdiv, q1]
          by_cases hq : (83 * k % step + 83) / step ≠ 0
          · rw [if_pos hq]
            unfold MPU_Interrupt_rampStep
            rw [if_neg (by omega)]
            rw [Nat.mod_eq_of_lt (by omega)]
            exact Nat.min_comm _ _
          · rw [if_neg hq]
            have : (83 * k % step + 83) / step = 0 := not_not.mp hq
            rw [this]
            omega
        refine ⟨hnew, fun _ => ?_⟩
        rw [b28, r28, q2, hmod]
      · have h100 : d.variable_0024 = 100 := by
          rcases hor with hpl | heq
          · exact absurd (b1 ▸ hp') hpl
          · rw [a24, a26, h26] at heq; exact heq
        have hge : 100 ≤ 83 * k / step := by
          rw [h24] at h100
          by_contra hc
          rw [Nat.min_eq_right (by omega)] at h100
          omega
        have hnew : d'.variable_0024 = 100 := by rw [b24, s24, a24, h100]
        refine ⟨?_, fun hne => absurd hnew hne⟩
        rw [hnew, hdiv]
        exact (Nat.min_eq_left (Nat.le_trans hge (Nat.le_add_right _ _))).symm


/-- C12. Take an engine whose count of loaded tracks is right and a loaded track in slot `idx`
whose master volume `variable_0024` is 0.  Let `MPU_SetVolume(idx, 100, h)` with a non zero
duration hint install a ramp, let `run 0` be the state it leaves and `run (k + 1)` the state
that `MPU_Interrupt` makes of `run k`, for `N` ticks that leave the track playing.  Then, with
the threshold `step = max 1 (10 * h / 100)`, the master volume after `k` ticks is
`min 100 (83 * k / step)`: the sequence is non decreasing, it strictly increases on every tick
before the target whose ramp loop counts at least one step, it never exceeds 100, it is
exactly 100 from the first `k` with `100 * step <= 83 * k` on, and once it is 100 every later
tick leaves it there.  In general, for every loaded track with `uint16` volumes, one tick
keeps the target and leaves the master volume between its old value and the target, whether
the target is above or below. -/
theorem volume_ramp_monotone (fuel idx h N : Nat) (s0 : MPU) (d0 : MSData) (run : Nat → MPU)
    (hidx : idx < 8) (hd0 : getData s0 idx = some d0) (hc0 : d0.variable_0024 = 0)
    (hh : h % 65536 ≠ 0) (hsize : s0.msdataSize = loadedFrom s0 0)
    (hset : MPU_SetVolume s0 idx 100 h = some (run 0))
    (hrun : ∀ k, k < N → MPU_Interrupt fuel (run k) = some (run (k + 1)))
    (hplay : ∀ k, k ≤ N → (getData (run k) idx).map MSData.playing = some 1) :
    (∀ k, k ≤ N →
      masterVolume (run k) idx = min 100 (83 * k / max 1 (10 * (h % 65536) / 100))) ∧
    (∀ k, k < N → masterVolume (run k) idx ≤ masterVolume (run (k + 1)) idx) ∧
    (∀ k, k < N → masterVolume (run k) idx ≠ 100 → rampSteps fuel (run k) idx ≠ 0 →
      masterVolume (run k) idx < masterVolume (run (k + 1)) idx) ∧
    (∀ k, k ≤ N → masterVolume (run k) idx ≤ 100) ∧
    (∀ k, k ≤ N → 100 * max 1 (10 * (h % 65536) / 100) ≤ 83 * k →
      masterVolume (run k) idx = 100) ∧
    (∀ j k, j ≤ k → k ≤ N → masterVolume (run j) idx = 100 → masterVolume (run k) idx = 100) ∧
    (∀ (s t : MPU) (i : Nat) (d d' : MSData), MPU_Interrupt fuel s = some t →
      getData s i = some d → getData t i = some d' →
      d.variable_0024 < 65536 → d.variable_0026 < 65536 →
      d'.variable_0026 = d.variable_0026 ∧
      (d.variable_0024 ≤ d.variable_0026 →
        d.variable_0024 ≤ d'.variable_0024 ∧ d'.variable_0024 ≤ d.variable_0026) ∧
      (d.variable_0026 ≤ d.variable_0024 →
        d.variable_0026 ≤ d'.variable_0024 ∧ d'.variable_0024 ≤ d.variable_0024)) := by
  obtain ⟨hsz0, hsome0, d', hd', i24, i26, i2C, i28⟩ :=
    MPU_SetVolume_ramp_up s0 (run 0) idx h d0 hidx hd0 hc0 hh hset
  have hs1 : 1 ≤ max 1 (10 * (h % 65536) / 100) := Nat.le_max_left _ _
  have hs2 : max 1 (10 * (h % 65536) / 100) ≤ 655350 := by
    apply Nat.max_le.mpr
    refine ⟨by omega, ?_⟩
    calc 10 * (h % 65536) / 100 ≤ 10 * (h % 65536) := Nat.div_le_self _ _
      _ ≤ 655350 := by omega
  generalize max 1 (10 * (h % 65536) / 100) = step at i2C hs1 hs2 ⊢
  have hcount0 : (run 0).msdataSize = loadedFrom (run 0) 0 := by
    rw [hsz0, hsize]
    symm
    exact loadedFrom_congr s0 (run 0) 0 (fun i _ _ => hsome0 i)
  have inv := volume_ramp_run fuel idx N step run hidx hs1 hs2 hcount0
    ⟨d', hd', i24, i26, i2C, i28⟩ hrun hplay
  have hvol : ∀ k, k ≤ N → masterVolume (run k) idx = min 100 (83 * k / step) := by
    intro k hk
    obtain ⟨_, d, hd, _, _, h24, _⟩ := inv k hk
    unfold masterVolume
    rw [hd]
    exact h24
  have hmono : ∀ j k, j ≤ k → 83 * j / step ≤ 83 * k / step := by
    intro j k hjk
    exact Nat.div_le_div_right (by omega)
  refine ⟨hvol, ?_, ?_, ?_, ?_, ?_, ?_⟩
  · intro k hk
    rw [hvol k (by omega), hvol (k + 1) hk]
    have := hmono k (k + 1) (by omega)
    omega
  · intro k hk hne hsteps
    obtain ⟨_, d, hd, _, h2C, h24, h28⟩ := inv k (by omega)
    have hmv : masterVolume (run k) idx = d.variable_0024 := by
      unfold masterVolume; rw [hd]; rfl
    rw [hmv] at hne
    have hacc := h28 hne
    obtain ⟨hdiv, _⟩ := ramp_div_succ step k hs1
    unfold rampSteps at hsteps
    rw [hd] at hsteps
    simp only [Option.some_bind] at hsteps
    rw [hacc, h2C] at hsteps
    cases hr : MPU_Interrupt_ramp fuel ((83 * k % step + 0x53) % 4294967296) step 0xFFFF with
    | none =>
      rw [hr] at hsteps
      exact absurd rfl hsteps
    | some r =>
      rw [hr] at hsteps
      have hr1 : r.1 ≠ 0 := hsteps
      obtain ⟨q1, _⟩ := MPU_Interrupt_ramp_tick fuel step _ r hs1 hs2
        (Nat.mod_lt _ (by omega)) hr
      rw [hvol k (by omega), hvol (k + 1) hk, hdiv]
      rw [h24] at hne
      rw [q1] at hr1
      generalize 83 * k / step = Q at hne ⊢
      generalize (83 * k % step + 83) / step = q at hr1 ⊢
      omega
  · intro k hk
    rw [hvol k hk]
    exact Nat.min_le_left _ _
  · intro k hk hge
    rw [hvol k hk]
    apply Nat.min_eq_left
    apply (Nat.le_div_iff_mul_le (by omega)).mpr
    exact hge
  · intro j k hjk hk hj
    rw [hvol j (by omega)] at hj
    rw [hvol k hk]
    have := hmono j k hjk
    omega
  · intro s t i d d' ht hd hd' hc hT
    exact MPU_Interrupt_volume_between fuel i s t d d' ht hd hd' hc hT

/-- Witness of C12: on the engine of `MPU.rampStart` the hint 10 gives the threshold 1, and
the master volume over three ticks is 0, 83, 100, 100. -/
theorem volume_ramp_monotone_witness :
    MPU_SetVolume MPU.rampStart 0 100 10 = some (MPU.rampDemo 0) ∧
    (∀ k, k < 3 → MPU_Interrupt 100 (MPU.rampDemo k) = some (MPU.rampDemo (k + 1))) ∧
    (∀ k, k ≤ 3 → masterVolume (MPU.rampDemo k) 0 = min 100 (83 * k / 1)) ∧
    masterVolume (MPU.rampDemo 1) 0 = 83 ∧ masterVolume (MPU.rampDemo 2) 0 = 100 ∧
    masterVolume (MPU.rampDemo 3) 0 = 100 :=
  ⟨by decide, by decide,
    (volume_ramp_monotone 100 0 10 3 MPU.rampStart MPU.rampStartTrack MPU.rampDemo
      (by decide) (by decide) (by decide) (by decide) (by decide) (by decide) (by decide)
      (by decide)).1,
    by decide, by decide, by decide⟩

/-! ## The countdown of a note -/

theorem expiredBelow_succ (d : MSData) (m : Nat) :
    expiredBelow d (m + 1) = expiredBelow d m ++ (if noteExpires d m then [m] else []) := by
  unfold expiredBelow
  rw [List.range_succ, List.filter_append]
  congr 1
  by_cases h : noteExpires d m
  · simp [h]
  · simp [h]

theorem expiredBelow_extend (d : MSData) (m : Nat) :
    ∀ k, (∀ x, m ≤ x → x < m + k → rd d.noteOnChans x = 0xFF) →
      expiredBelow d (m + k) = expiredBelow d m := by
  intro k
  induction k with
  | zero => intro _; rfl
  | succ k ih =>
    intro h
    have hk := ih (fun x h1 h2 => h x h1 (by omega))
    rw [← Nat.add_assoc, expiredBelow_succ, hk]
    have : ¬ noteExpires d (m + k) := fun he => he.1 (h (m + k) (by omega) (by omega))
    rw [if_neg this, List.append_nil]

theorem rdI_set_same (l : List Int) (i : Nat) (v : Int) (h : i < l.length) :
    rdI (l.set i v) i = v := by
  simp [rdI, List.getD_eq_getElem?_getD, List.getElem?_set, h]

theorem rdI_set_ne (l : List Int) (i j : Nat) (v : Int) (h : i ≠ j) :
    rdI (l.set i v) j = rdI l j := by
  simp [rdI, List.getD_eq_getElem?_getD, List.getElem?_set, h]

theorem notesInv_extend (d : MSData) (s : MPU) (m k : Nat) (acc : MSData × MPU)
    (h : notesInv d s m acc) (hfree : ∀ x, m ≤ x → x < m + k → rd d.noteOnChans x = 0xFF) :
    notesInv d s (m + k) acc := by
  obtain ⟨h1, h2, h3, h4, h5, h6, h7, h8, h9⟩ := h
  have he := expiredBelow_extend d m k hfree
  refine ⟨h1, h2, h3, h4, by rw [he]; exact h5, ?_, ?_, by rw [he]; exact h8,
    by rw [he]; exact h9⟩
  · intro x
    rw [h6 x]
    by_cases hx : x < m
    · have : x < m + k := by omega
      simp [hx, this]
    · by_cases hx2 : x < m + k
      · have hf := hfree x (by omega) hx2
        have hne : ¬ noteExpires d x := fun he => he.1 hf
        simp [hx, hne]
      · simp [hx, hx2]
  · intro x
    rw [h7 x]
    by_cases hx : x < m
    · have : x < m + k := by omega
      simp [hx, this]
    · by_cases hx2 : x < m + k
      · have hf := hfree x (by omega) hx2
        simp [hx, hf]
      · simp [hx, hx2]


theorem noteCountOk_all_free (a : MSData) (h : noteCountOk a) (h0 : a.noteOnCount = 0) :
    ∀ x, x < 32 → rd a.noteOnChans x = 0xFF := by
  intro x hx
  have hc : a.noteOnChans.countP (fun c => c ≠ 0xFF) = 0 := by
    have := h.2
    unfold activeNotes at this
    omega
  rw [List.countP_eq_zero] at hc
  have hl : x < a.noteOnChans.length := by rw [h.1]; exact hx
  have := hc (a.noteOnChans[x]) (List.getElem_mem hl)
  simp only [rd, List.getD_eq_getElem?_getD, List.getElem?_eq_getElem hl, Option.getD_some]
  simpa using this

/-- The note service passes a slot whose note does not run out. -/
theorem notesInv_keep (d : MSData) (s : MPU) (m : Nat) (acc : MSData × MPU) (hm : m < 32)
    (h : notesInv d s m acc) (ha : rd acc.1.noteOnChans m ≠ 0xFF)
    (hk : toInt32 (rdI acc.1.noteOnDuration m - 1) ≥ 0) :
    notesInv d s (m + 1)
      ({ acc.1 with noteOnDuration :=
          acc.1.noteOnDuration.set m (toInt32 (rdI acc.1.noteOnDuration m - 1)) }, acc.2) := by
  obtain ⟨h1, h2, h3, h4, h5, h6, h7, h8, h9⟩ := h
  have hcm : rd acc.1.noteOnChans m = rd d.noteOnChans m := by
    rw [h6 m]; simp
  have hdm : rdI acc.1.noteOnDuration m = rdI d.noteOnDuration m := by
    rw [h7 m]; simp
  have hne : ¬ noteExpires d m := by
    intro he
    have := he.2
    rw [← hdm] at this
    omega
  have he : expiredBelow d (m + 1) = expiredBelow d m := by
    rw [expiredBelow_succ, if_neg hne, List.append_nil]
  refine ⟨h1, ?_, h3, h4, by rw [he]; exact h5, ?_, ?_, by rw [he]; exact h8,
    by rw [he]; exact h9⟩
  · show (acc.1.noteOnDuration.set m _).length = 32
    rw [List.length_set]; exact h2
  · intro x
    show rd acc.1.noteOnChans x = _
    rw [h6 x]
    by_cases hx : x < m
    · have : x < m + 1 := by omega
      simp [hx, this]
    · by_cases hxm : x = m
      · subst hxm
        simp [hne]
      · have : ¬ x < m + 1 := by omega
        simp [hx, this]
  · intro x
    show rdI (acc.1.noteOnDuration.set m _) x = _
    by_cases hxm : x = m
    · subst hxm
      rw [rdI_set_same _ _ _ (by omega), hdm]
      have : rd d.noteOnChans x ≠ 0xFF := by rw [← hcm]; exact ha
      simp [this]
    · rw [rdI_set_ne _ _ _ _ (fun e => hxm e.symm), h7 x]
      by_cases hx : x < m
      · have : x < m + 1 := by omega
        simp [hx, this]
      · have : ¬ x < m + 1 := by omega
        simp [hx, this]


/-- The note service frees a slot whose note runs out and sends its Note-Off. -/
theorem notesInv_expire (d : MSData) (s : MPU) (m : Nat) (acc : MSData × MPU) (hm : m < 32)
    (h : notesInv d s m acc) (h0 : acc.1.noteOnCount ≠ 0) (ha : rd acc.1.noteOnChans m ≠ 0xFF)
    (hk : ¬ toInt32 (rdI acc.1.noteOnDuration m - 1) ≥ 0) :
    notesInv d s (m + 1)
      ({ acc.1 with noteOnDuration := (acc.1.noteOnDuration.set m (toInt32 (rdI acc.1.noteOnDuration m - 1))), noteOnChans := (wr acc.1.noteOnChans m 0xFF), noteOnCount := ((acc.1.noteOnCount + 65535) % 65536) },
       MPU_Send { acc.2 with noteOnCount := (wr acc.2.noteOnCount (rd acc.1.chanMaps (rd acc.1.noteOnChans m)) ((rd acc.2.noteOnCount (rd acc.1.chanMaps (rd acc.1.noteOnChans m)) + 255) % 256)) }
         (0x80 ||| rd acc.1.chanMaps (rd acc.1.noteOnChans m)) (rd acc.1.noteOnNotes m) 0) := by
  obtain ⟨h1, h2, h3, h4, h5, h6, h7, h8, h9⟩ := h
  have hcm : rd acc.1.noteOnChans m = rd d.noteOnChans m := by
    rw [h6 m]; simp
  have hdm : rdI acc.1.noteOnDuration m = rdI d.noteOnDuration m := by
    rw [h7 m]; simp
  have hex : noteExpires d m := by
    refine ⟨by rw [← hcm]; exact ha, ?_⟩
    rw [← hdm]
    omega
  have he : expiredBelow d (m + 1) = expiredBelow d m ++ [m] := by
    rw [expiredBelow_succ, if_pos hex]
  have hphys : rd acc.1.chanMaps (rd acc.1.noteOnChans m) = notePhys d m := by
    unfold notePhys
    rw [h4, hcm]
  have hfree := noteCountOk_free acc.1 m hm h1 ha
  have hle := noteCountOk_le acc.1 h1
  refine ⟨⟨hfree.1, hfree.2⟩, ?_, h3, h4, ?_, ?_, ?_, ?_, ?_⟩
  · show (acc.1.noteOnDuration.set m _).length = 32
    rw [List.length_set]; exact h2
  · show (acc.1.noteOnCount + 65535) % 65536 + (expiredBelow d (m + 1)).length = d.noteOnCount
    rw [he, List.length_append, List.length_singleton]
    omega
  · intro x
    show rd (wr acc.1.noteOnChans m 0xFF) x = _
    by_cases hxm : x = m
    · subst hxm
      rw [rd_wr_same _ _ _ (by rw [h1.1]; exact hm)]
      simp [hex]
    · rw [rd_wr_ne _ _ _ _ (fun e => hxm e.symm), h6 x]
      by_cases hx : x < m
      · have : x < m + 1 := by omega
        simp [hx, this]
      · have : ¬ x < m + 1 := by omega
        simp [hx, this]
  · intro x
    show rdI (acc.1.noteOnDuration.set m _) x = _
    by_cases hxm : x = m
    · subst hxm
      rw [rdI_set_same _ _ _ (by omega), hdm]
      simp [hex.1]
    · rw [rdI_set_ne _ _ _ _ (fun e => hxm e.symm), h7 x]
      by_cases hx : x < m
      · have : x < m + 1 := by omega
        simp [hx, this]
      · have : ¬ x < m + 1 := by omega
        simp [hx, this]
  · show acc.2.out ++ [Out.msg _ _ _] = _
    rw [h8, he, List.map_append, List.append_assoc, hphys, h3]
    rfl
  · show wr acc.2.noteOnCount _ _ = _
    rw [he, List.foldl_append, ← h9, hphys]
    rfl

theorem notesInv_start (d : MSData) (s : MPU) (hok : noteCountOk d)
    (hlen : d.noteOnDuration.length = 32) : notesInv d s 0 (d, s) := by
  refine ⟨hok, hlen, rfl, rfl, ?_, ?_, ?_, ?_, ?_⟩
  · show d.noteOnCount + (expiredBelow d 0).length = d.noteOnCount
    rfl
  · intro x; simp
  · intro x; simp
  · show s.out = s.out ++ (expiredBelow d 0).map (noteOffMsg d)
    simp [expiredBelow]
  · rfl

theorem MPU_Interrupt_notes_inv (d : MSData) (s : MPU) (n : Nat) :
    ∀ (index : Nat) (acc : MSData × MPU), index + n = 32 → notesInv d s index acc →
      notesInv d s 32 (MPU_Interrupt_notes n index acc) := by
  induction n with
  | zero =>
    intro index acc hi h
    have : index = 32 := by omega
    subst this
    exact h
  | succ n ih =>
    intro index acc hi h
    unfold MPU_Interrupt_notes
    simp only
    by_cases h0 : acc.1.noteOnCount = 0
    · rw [if_pos h0]
      have hall := noteCountOk_all_free acc.1 h.1 h0
      have := notesInv_extend d s index (n + 1) acc h (by
        intro x hx1 hx2
        have e := h.2.2.2.2.2.1 x
        rw [if_neg (by omega)] at e
        rw [← e]
        exact hall x (by omega))
      rw [hi] at this
      exact this
    · rw [if_neg h0]
      by_cases ha : rd acc.1.noteOnChans index = 0xFF
      · rw [if_pos ha]
        apply ih (index + 1) acc (by omega)
        apply notesInv_extend d s index 1 acc h
        intro x hx1 hx2
        have hx : x = index := by omega
        subst hx
        have e := h.2.2.2.2.2.1 x
        rw [if_neg (by omega)] at e
        rw [← e]
        exact ha
      · rw [if_neg ha]
        by_cases hk : toInt32 (rdI acc.1.noteOnDuration index - 1) ≥ 0
        · rw [if_pos hk]
          exact ih (index + 1) _ (by omega) (notesInv_keep d s index acc (by omega) h ha hk)
        · rw [if_neg hk]
          exact ih (index + 1) _ (by omega)
            (notesInv_expire d s index acc (by omega) h h0 ha hk)

/-- One note service: every slot in use is counted down once; the slots whose count runs out
are freed, in ascending order each gets one Note-Off on its physical channel and one decrement
of that channel's counter, and the track counter goes down by their number. -/
theorem MPU_Interrupt_notes_spec (d : MSData) (s : MPU) (hok : noteCountOk d)
    (hlen : d.noteOnDuration.length = 32) :
    notesInv d s 32 (MPU_Interrupt_notes 32 0 (d, s)) :=
  MPU_Interrupt_notes_inv d s 32 0 (d, s) rfl (notesInv_start d s hok hlen)

/-- What `MPU_NoteOn` stores for a note on a channel that is not hard locked when the note
table has a free slot. -/
theorem MPU_NoteOn_slot (s t : MPU) (idx i len : Nat) (data : MSData)
    (hd : getData s idx = some data)
    (hlock : ¬ hardLocked s (MPU_NoteOn_chan data))
    (hfree : (List.range 32).find? (fun x => rd data.noteOnChans x = 0xFF) = some i)
    (hl1 : data.noteOnChans.length = 32) (hl2 : data.noteOnNotes.length = 32)
    (hl3 : data.noteOnDuration.length = 32)
    (h : MPU_NoteOn s idx = some (t, len)) :
    i < 32 ∧ rd data.noteOnChans i = 0xFF ∧
    ∃ d0, getData t idx = some d0 ∧
      rd d0.noteOnChans i = MPU_NoteOn_chan data ∧
      rd d0.noteOnNotes i = MPU_NoteOn_note data ∧
      rdI d0.noteOnDuration i = toInt32 ((MPU_NoteOn_decoded data : Int) - 1) ∧
      d0.noteOnCount = (data.noteOnCount + 1) % 65536 ∧
      t.out = s.out ++ [Out.msg ((0x90 ||| rd data.chanMaps (MPU_NoteOn_chan data)) % 256)
        (MPU_NoteOn_note data % 256) (byteAt data.file (data.sound + 2) % 256)] := by
  have hlt := getData_lt s idx data hd
  have hi : i < 32 := List.mem_range.mp (List.mem_of_find?_eq_some hfree)
  have hfi : rd data.noteOnChans i = 0xFF := by
    have := List.find?_some hfree
    simpa using this
  have hl : ¬ (rd s.lockStatus (byteAt data.file data.sound &&& 0xF) &&& 0x80 ≠ 0) := hlock
  unfold MPU_NoteOn at h
  rw [hd] at h
  simp only [Option.bind_eq_bind, Option.some_bind, if_neg hl, hfree, Option.getD_some] at h
  have ht := congrArg Prod.fst (Option.some.inj h)
  simp only at ht
  subst ht
  refine ⟨hi, hfi, _, getData_setData_same _ idx _ hlt, ?_, ?_, ?_, rfl, rfl⟩
  · exact rd_wr_same _ _ _ (by rw [hl1]; exact hi)
  · exact rd_wr_same _ _ _ (by rw [hl2]; exact hi)
  · exact rdI_set_same _ _ _ (by rw [hl3]; exact hi)


theorem mem_expiredBelow (d : MSData) (m x : Nat) :
    x ∈ expiredBelow d m ↔ x < m ∧ noteExpires d x := by
  unfold expiredBelow
  simp [List.mem_filter]

theorem expiredBelow_nodup (d : MSData) (m : Nat) : (expiredBelow d m).Nodup :=
  List.Nodup.filter _ (List.nodup_range m)

theorem filter_eq_range (i : Nat) :
    ∀ n, (List.range n).filter (fun x => decide (x = i)) = if i < n then [i] else [] := by
  intro n
  induction n with
  | zero => simp
  | succ n ih =>
    rw [List.range_succ, List.filter_append, ih]
    by_cases h1 : i < n
    · have h2 : i < n + 1 := by omega
      have h3 : n ≠ i := by omega
      simp [h1, h2, h3]
    · by_cases h4 : n = i
      · subst h4
        simp
      · have h2 : ¬ i < n + 1 := by omega
        simp [h1, h2, h4]

theorem expiredBelow_single (d : MSData) (i : Nat) (hi : i < 32) (he : noteExpires d i)
    (h : ∀ x, x < 32 → x ≠ i → ¬ noteExpires d x) : expiredBelow d 32 = [i] := by
  have h1 : expiredBelow d 32 = (List.range 32).filter (fun x => decide (x = i)) := by
    unfold expiredBelow
    apply List.filter_congr
    intro x hx
    have hx32 := List.mem_range.mp hx
    by_cases hxi : x = i
    · subst hxi; simp [he]
    · simp [hxi, h x hx32 hxi]
  rw [h1, filter_eq_range, if_pos hi]


/-- The countdown of the note in slot `i` before its unit: the slot keeps channel and note, and
before the service of the `j`-th unit after the note on its duration is the stored one less
`j - 1`. -/
theorem note_countdown_inv (i e : Nat) (chan note : Nat) (stored : Int) (D : Nat → MSData)
    (S : Nat → MPU) (hi : i < 32) (hchan : chan ≠ 0xFF)
    (hst : ∀ j : Nat, 1 ≤ j → j < e → 0 ≤ stored - j ∧ stored - j < 2147483648)
    (h1 : rd (D 1).noteOnChans i = chan ∧ rd (D 1).noteOnNotes i = note ∧
      rdI (D 1).noteOnDuration i = stored)
    (hkeep : ∀ j, 1 ≤ j → j < e → sameNote i (MPU_Interrupt_notes 32 0 (D j, S j)).1 (D (j + 1)))
    (hok : ∀ j, 1 ≤ j → j ≤ e → noteCountOk (D j) ∧ (D j).noteOnDuration.length = 32) :
    ∀ j : Nat, 1 ≤ j → j ≤ e → rd (D j).noteOnChans i = chan ∧ rd (D j).noteOnNotes i = note ∧
      rdI (D j).noteOnDuration i = stored - ((j : Int) - 1) := by
  intro j
  induction j with
  | zero => intro h; omega
  | succ j ih =>
    intro _ hje
    by_cases hj0 : j = 0
    · subst hj0
      refine ⟨h1.1, h1.2.1, ?_⟩
      rw [h1.2.2]
      simp
    · obtain ⟨c1, c2, c3⟩ := ih (by omega) (by omega)
      obtain ⟨hk1, hk2, hk3⟩ := hkeep j (by omega) (by omega)
      obtain ⟨ok1, ok2⟩ := hok j (by omega) (by omega)
      obtain ⟨_, _, g3, _, _, g6, g7, _, _⟩ := MPU_Interrupt_notes_spec (D j) (S j) ok1 ok2
      obtain ⟨b1, b2⟩ := hst j (by omega) (by omega)
      have hne : ¬ noteExpires (D j) i := by
        intro hx
        have := hx.2
        rw [c3] at this
        unfold toInt32 at this
        omega
      refine ⟨?_, ?_, ?_⟩
      · rw [← hk1, g6 i, if_neg (fun h => hne h.2), c1]
      · rw [← hk2, g3, c2]
      · rw [← hk3, g7 i, if_pos ⟨hi, by rw [c1]; exact hchan⟩, c3]
        unfold toInt32
        push_cast
        omega


/-- C20, counterexample. The track of `MPU.longNote` is playing, its note table is empty and
channel 0 is not locked; its note decodes to the duration `2^31 + 2` and is stored as the
negative `int32` countdown `1 - 2^31`; the first note service after the note on sends its
Note-Off and frees its slot, and two ticks of `MPU_Interrupt` send the Note-On and then the
Note-Off: the note ends one time unit after its start, not `2^31 + 2` units. -/
theorem MPU_NoteOn_long_duration_ends_at_once :
    MPU.longNoteTrack.playing = 1 ∧ rd MPU.longNoteTrack.noteOnChans 0 = 0xFF ∧
    ¬ hardLocked MPU.longNote (MPU_NoteOn_chan MPU.longNoteTrack) ∧
    MPU_NoteOn_decoded MPU.longNoteTrack = 2147483650 ∧
    MPU_NoteOn MPU.longNote 0 = some (MPU.longNoteOn, 8) ∧
    rd MPU.longNoteOnTrack.noteOnChans 0 = 0 ∧
    rdI MPU.longNoteOnTrack.noteOnDuration 0 = -2147483647 ∧
    noteExpires MPU.longNoteOnTrack 0 ∧
    (MPU_Interrupt_notes 32 0 (MPU.longNoteOnTrack, MPU.longNoteOn)).2.out =
      MPU.longNoteOn.out ++ [Out.msg 0x80 60 0] ∧
    rd (MPU_Interrupt_notes 32 0 (MPU.longNoteOnTrack, MPU.longNoteOn)).1.noteOnChans 0 =
      0xFF ∧
    ((MPU_Interrupt 64 MPU.longNote).bind (MPU_Interrupt 64)).map MPU.out =
      some (MPU.longNote.out ++ [Out.msg 0x90 60 100, Out.msg 0x80 60 0]) := by
  refine ⟨by decide, by decide, by decide, by decide, by decide, by decide, by decide, ?_,
    by decide, by decide, by decide⟩
  unfold noteExpires
  decide


/-- C20, amended. Let `MPU_NoteOn` start a note on a channel that is not hard locked, for a
track whose note table of 32 slots has a free slot, the first one being `i`, and let the
decoded duration `d` be at most `2^31`; put `e = max 1 d`.  Let `D j` and `S j` be the track
and the engine right before the note service of the `j`-th time unit after the one of the note
on, where between the note on and the first service, and between two services, slot `i` is
left as it is, and where before every service the note counter agrees with the table.  Then
the note on stores the channel, the note and the `int32` countdown `d - 1` in slot `i`; the
services of the units `1` to `e - 1` do not send a Note-Off for slot `i` and leave it in use
with the countdown `d - 1 - j`; the service of unit `e` sends the Note-Off of slot `i` on the
physical channel that the logical channel of the note is mapped to and frees the slot; every
service sends exactly one Note-Off for each slot that runs out, in ascending order, takes
their number from the note counter of the track and decrements the counter of the physical
channel of each once; when slot `i` is the only one to run out in the service of unit `e`,
that service sends this one Note-Off and takes one from the note counter of the track and
from the counter of that physical channel. -/
theorem note_duration_countdown (s t : MPU) (idx i len e : Nat) (data : MSData)
    (D : Nat → MSData) (S : Nat → MPU)
    (hd : getData s idx = some data)
    (hlock : ¬ hardLocked s (MPU_NoteOn_chan data))
    (hfree : (List.range 32).find? (fun x => rd data.noteOnChans x = 0xFF) = some i)
    (hl1 : data.noteOnChans.length = 32) (hl2 : data.noteOnNotes.length = 32)
    (hl3 : data.noteOnDuration.length = 32)
    (hdur : MPU_NoteOn_decoded data ≤ 2147483648)
    (he : e = max 1 (MPU_NoteOn_decoded data))
    (hon : MPU_NoteOn s idx = some (t, len))
    (hfirst : ∀ d0, getData t idx = some d0 → sameNote i d0 (D 1))
    (hkeep : ∀ j, 1 ≤ j → j < e →
      sameNote i (MPU_Interrupt_notes 32 0 (D j, S j)).1 (D (j + 1)))
    (hok : ∀ j, 1 ≤ j → j ≤ e → noteCountOk (D j) ∧ (D j).noteOnDuration.length = 32) :
    (∃ d0, getData t idx = some d0 ∧ rd d0.noteOnChans i = MPU_NoteOn_chan data ∧
      rd d0.noteOnNotes i = MPU_NoteOn_note data ∧
      rdI d0.noteOnDuration i = toInt32 ((MPU_NoteOn_decoded data : Int) - 1)) ∧
    (∀ j, 1 ≤ j → j < e →
      ¬ noteExpires (D j) i ∧ i ∉ expiredBelow (D j) 32 ∧
      rd (MPU_Interrupt_notes 32 0 (D j, S j)).1.noteOnChans i = MPU_NoteOn_chan data ∧
      rdI (MPU_Interrupt_notes 32 0 (D j, S j)).1.noteOnDuration i =
        (MPU_NoteOn_decoded data : Int) - 1 - j) ∧
    (noteExpires (D e) i ∧ i ∈ expiredBelow (D e) 32 ∧
      noteOffMsg (D e) i =
        Out.msg ((0x80 ||| rd (D e).chanMaps (MPU_NoteOn_chan data)) % 256)
          (MPU_NoteOn_note data % 256) 0 ∧
      rd (MPU_Interrupt_notes 32 0 (D e, S e)).1.noteOnChans i = 0xFF) ∧
    (∀ j, 1 ≤ j → j ≤ e →
      (expiredBelow (D j) 32).Nodup ∧
      (MPU_Interrupt_notes 32 0 (D j, S j)).2.out =
        (S j).out ++ (expiredBelow (D j) 32).map (noteOffMsg (D j)) ∧
      (MPU_Interrupt_notes 32 0 (D j, S j)).1.noteOnCount + (expiredBelow (D j) 32).length =
        (D j).noteOnCount ∧
      (MPU_Interrupt_notes 32 0 (D j, S j)).2.noteOnCount =
        (expiredBelow (D j) 32).foldl (noteCountDown (D j)) (S j).noteOnCount) ∧
    ((∀ x, x < 32 → x ≠ i → ¬ noteExpires (D e) x) →
      (MPU_Interrupt_notes 32 0 (D e, S e)).2.out =
        (S e).out ++ [Out.msg ((0x80 ||| rd (D e).chanMaps (MPU_NoteOn_chan data)) % 256)
          (MPU_NoteOn_note data % 256) 0] ∧
      (MPU_Interrupt_notes 32 0 (D e, S e)).1.noteOnCount + 1 = (D e).noteOnCount ∧
      (MPU_Interrupt_notes 32 0 (D e, S e)).2.noteOnCount =
        wr (S e).noteOnCount (rd (D e).chanMaps (MPU_NoteOn_chan data))
          ((rd (S e).noteOnCount (rd (D e).chanMaps (MPU_NoteOn_chan data)) + 255) % 256)) := by
  obtain ⟨hi, _, d0, hd0, n1, n2, n3, _, _⟩ :=
    MPU_NoteOn_slot s t idx i len data hd hlock hfree hl1 hl2 hl3 hon
  have hchan : MPU_NoteOn_chan data ≠ 0xFF := and_0F_ne_FF _
  have hf := hfirst d0 hd0
  have he1 : 1 ≤ e := by rw [he]; exact Nat.le_max_left _ _
  generalize hdd : MPU_NoteOn_decoded data = dur at hdur he n3 ⊢
  generalize hcc : MPU_NoteOn_chan data = chan at hchan n1 ⊢
  generalize hnn : MPU_NoteOn_note data = note at n2 ⊢
  have hst0 : toInt32 ((dur : Int) - 1) = (dur : Int) - 1 := by
    unfold toInt32
    omega
  rw [hst0] at n3
  have hcases : (dur = 0 ∧ e = 1) ∨ (1 ≤ dur ∧ e = dur) := by
    rcases Nat.eq_zero_or_pos dur with h0 | h0
    · left
      refine ⟨h0, ?_⟩
      rw [he, h0]
      rfl
    · right
      refine ⟨h0, ?_⟩
      rw [he]
      exact Nat.max_eq_right h0
  have inv := note_countdown_inv i e chan note ((dur : Int) - 1) D S hi hchan
    (by
      intro j hj1 hj2
      rcases hcases with ⟨_, h1⟩ | ⟨_, h1⟩
      · omega
      · omega)
    ⟨by rw [← hf.1]; exact n1, by rw [← hf.2.1]; exact n2, by rw [← hf.2.2]; exact n3⟩
    hkeep hok
  have hspec : ∀ j, 1 ≤ j → j ≤ e →
      notesInv (D j) (S j) 32 (MPU_Interrupt_notes 32 0 (D j, S j)) := by
    intro j h1 h2
    exact MPU_Interrupt_notes_spec (D j) (S j) (hok j h1 h2).1 (hok j h1 h2).2
  have hexp : noteExpires (D e) i := by
    obtain ⟨c1, _, c3⟩ := inv e he1 (Nat.le_refl e)
    refine ⟨by rw [c1]; exact hchan, ?_⟩
    rw [c3]
    unfold toInt32
    rcases hcases with ⟨h0, h1⟩ | ⟨h0, h1⟩
    · omega
    · omega
  have hmsg : noteOffMsg (D e) i =
      Out.msg ((0x80 ||| rd (D e).chanMaps chan) % 256) (note % 256) 0 := by
    obtain ⟨c1, c2, _⟩ := inv e he1 (Nat.le_refl e)
    unfold noteOffMsg notePhys
    rw [c1, c2]
  have hphys : notePhys (D e) i = rd (D e).chanMaps chan := by
    obtain ⟨c1, _, _⟩ := inv e he1 (Nat.le_refl e)
    unfold notePhys
    rw [c1]
  refine ⟨⟨d0, hd0, n1, n2, by rw [hst0]; exact n3⟩, ?_, ?_, ?_, ?_⟩
  · intro j hj1 hj2
    obtain ⟨c1, _, c3⟩ := inv j hj1 (by omega)
    obtain ⟨_, _, _, _, _, g6, g7, _, _⟩ := hspec j hj1 (by omega)
    have hne : ¬ noteExpires (D j) i := by
      intro hx
      have := hx.2
      rw [c3] at this
      unfold toInt32 at this
      rcases hcases with ⟨_, h1⟩ | ⟨_, h1⟩
      · omega
      · omega
    refine ⟨hne, fun hm => hne ((mem_expiredBelow _ _ _).mp hm).2, ?_, ?_⟩
    · rw [g6 i, if_neg (fun h => hne h.2), c1]
    · rw [g7 i, if_pos ⟨hi, by rw [c1]; exact hchan⟩, c3]
      unfold toInt32
      rcases hcases with ⟨_, h1⟩ | ⟨_, h1⟩
      · omega
      · omega
  · obtain ⟨_, _, _, _, _, g6, _, _, _⟩ := hspec e he1 (Nat.le_refl e)
    refine ⟨hexp, (mem_expiredBelow _ _ _).mpr ⟨hi, hexp⟩, hmsg, ?_⟩
    rw [g6 i, if_pos ⟨hi, hexp⟩]
  · intro j hj1 hj2
    obtain ⟨_, _, _, _, g5, _, _, g8, g9⟩ := hspec j hj1 hj2
    exact ⟨expiredBelow_nodup _ _, g8, g5, g9⟩
  · intro honly
    obtain ⟨_, _, _, _, g5, _, _, g8, g9⟩ := hspec e he1 (Nat.le_refl e)
    have hsingle := expiredBelow_single (D e) i hi hexp honly
    rw [hsingle] at g5 g8 g9
    refine ⟨?_, g5, ?_⟩
    · rw [g8, List.map_singleton, hmsg]
    · rw [g9]
      show noteCountDown (D e) (S e).noteOnCount i = _
      unfold noteCountDown
      rw [hphys]


/-- Witness of C20: the note of `MPU.shortNoteStart` has the duration 2 and takes slot 0; the
first service after the note on leaves it in use and the second one ends it. -/
theorem note_duration_countdown_witness :
    MPU_NoteOn MPU.shortNoteStart 0 = some (MPU.shortNote, 4) ∧
    MPU_NoteOn_decoded MPU.shortNoteStartTrack = 2 ∧
    ¬ noteExpires (MPU.shortNoteRun 1).1 0 ∧
    noteExpires (MPU.shortNoteRun 2).1 0 ∧
    rd (MPU_Interrupt_notes 32 0 (MPU.shortNoteRun 2)).1.noteOnChans 0 = 0xFF := by
  have H := note_duration_countdown MPU.shortNoteStart MPU.shortNote 0 0 4 2
    MPU.shortNoteStartTrack (fun j => (MPU.shortNoteRun j).1) (fun j => (MPU.shortNoteRun j).2)
    (by decide) (by decide) (by decide) (by decide) (by decide) (by decide) (by decide)
    (by decide) (by decide)
    (fun d0 h => by
      have e : getData MPU.shortNote 0 = some (MPU.shortNoteRun 1).1 := by decide
      rw [e] at h
      rw [← Option.some.inj h]
      exact ⟨rfl, rfl, rfl⟩)
    (fun j h1 h2 => by
      have e : j = 1 := by omega
      subst e
      exact ⟨rfl, rfl, rfl⟩)
    (fun j h1 h2 => by
      have e : j = 1 ∨ j = 2 := by omega
      rcases e with e | e
      · subst e
        unfold noteCountOk activeNotes
        decide
      · subst e
        unfold noteCountOk activeNotes
        decide)
  exact ⟨by decide, by decide, (H.2.1 1 (by omega) (by omega)).1, H.2.2.1.1, H.2.2.1.2.2.2⟩

end OpenDUNE
